import Mathlib

/-!
# Tool-calling agent loop of `simple_answer_llm`

A shallow embedding of `internal/cli/session.go`, `internal/cli/llm_agent.go` and the
parts of `internal/cli/utils.go` they use, followed by theorems about the conversation
store, the tool dispatcher and the bounded round loop.

Conventions of the embedding:
* Go `int` values are `Int`; slice lengths are `Nat` and are cast where Go compares them
  with an `int`.
* Go strings are Lean strings; a slice is a `List` with value semantics.
* The language model, the Evotor data facade, `encoding/json`, `time.Parse` and the clock
  are collaborators outside the repository's logic: they are fields of a `World`, each a
  function of an explicit world state, so that every (stateful) behaviour is covered.
-/

namespace SimpleAnswerLLM

/-! ## Strings: the parts of package `strings` the code relies on -/

/-- Go's `unicode.IsSpace`: the Unicode White_Space property. -/
def isSpace (c : Char) : Bool :=
  c == '\t' || c == '\n' || c.val == 0x0B || c.val == 0x0C || c == '\r' || c == ' ' ||
  c.val == 0x85 || c.val == 0xA0 || c.val == 0x1680 ||
  (0x2000 ≤ c.val && c.val ≤ 0x200A) ||
  c.val == 0x2028 || c.val == 0x2029 || c.val == 0x202F || c.val == 0x205F || c.val == 0x3000

/-- Go's `strings.Fields`: the maximal runs of non-space characters, in order. -/
def fields (s : String) : List String :=
  ((s.data.splitOnP isSpace).filter (fun w => !w.isEmpty)).map String.mk

/-- Go's `strings.TrimSpace`: leading and trailing white space removed. -/
def trimSpace (s : String) : String :=
  String.mk ((s.data.dropWhile isSpace).reverse.dropWhile isSpace).reverse

/-! ## Messages (`openrouter.ChatCompletionMessage`) -/

/-- The request of one function call made by the model (`llm.ToolCall`): its identifier and
the name and argument payload of its `Function`. -/
structure ToolCall where
  ID : String
  Name : String
  Arguments : String
  deriving DecidableEq

/-- One part of a multi-part content (`openrouter.ChatMessagePart`); only its text is read. -/
structure ChatMessagePart where
  Text : String
  deriving DecidableEq

/-- The fields of `openrouter.ChatCompletionMessage` the code reads or sets; `Text` and
`Multi` are those of its `Content`. -/
structure Message where
  Role : String
  Text : String := ""
  Multi : List ChatMessagePart := []
  ToolCalls : List ToolCall := []
  ToolCallID : String := ""
  deriving DecidableEq

def ChatMessageRoleSystem : String := "system"
def ChatMessageRoleUser : String := "user"
def ChatMessageRoleAssistant : String := "assistant"
def ChatMessageRoleTool : String := "tool"

/-- The constructor `openrouter.SystemMessage`. -/
def SystemMessage (content : String) : Message :=
  { Role := ChatMessageRoleSystem, Text := content }

/-- The constructor `openrouter.UserMessage`. -/
def UserMessage (content : String) : Message :=
  { Role := ChatMessageRoleUser, Text := content }

/-- The constructor `openrouter.ToolMessage`. -/
def ToolMessage (callID content : String) : Message :=
  { Role := ChatMessageRoleTool, Text := content, ToolCallID := callID }

/-! ## Conversation store (`session.go`) -/

def defaultHistoryMaxMessages : Int := 20
def defaultHistoryMaxTokens : Int := 2000

/-- The store `SessionHistory` (its logger has no effect on the state). -/
structure SessionHistory where
  messages : List Message
  maxMessages : Int
  maxTokens : Int
  deriving DecidableEq

def NewSessionHistory (maxMessages maxTokens : Int) : SessionHistory :=
  let maxMessages := if maxMessages ≤ 0 then defaultHistoryMaxMessages else maxMessages
  let maxTokens := if maxTokens ≤ 0 then defaultHistoryMaxTokens else maxTokens
  { messages := [], maxMessages := maxMessages, maxTokens := maxTokens }

def estimateTokensForMessage (message : Message) : Int :=
  let total : Int := 0
  let total := if message.Text ≠ "" then total + (fields message.Text).length else total
  if message.Text = "" ∧ 0 < message.Multi.length then
    message.Multi.foldl
      (fun total part => if part.Text ≠ "" then total + (fields part.Text).length else total)
      total
  else total

def estimateTokens (messages : List Message) : Int :=
  messages.foldl (fun total msg => total + estimateTokensForMessage msg) 0

def trimByCount (messages : List Message) (max : Int) : List Message :=
  if (messages.length : Int) ≤ max then messages
  else if messages.length = 0 ∨ max ≤ 0 then []
  else
    match messages with
    | [] => []
    | m0 :: _ =>
      if m0.Role = ChatMessageRoleSystem then
        let keep := max - 1
        if keep ≤ 0 then messages.take 1
        else
          let start : Int := (messages.length : Int) - keep
          let start := if start < 1 then 1 else start
          m0 :: messages.drop start.toNat
      else messages.drop ((messages.length : Int) - max).toNat

def trimOldestNonSystem (messages : List Message) : List Message :=
  match messages with
  | [] => []
  | m0 :: rest =>
    if m0.Role = ChatMessageRoleSystem then
      if messages.length ≤ 1 then messages
      else messages.take 1 ++ messages.drop 2
    else rest

/-- The condition of the `for` loop of `enforceLimits`. -/
def overTokenCap (maxTokens : Int) (messages : List Message) : Bool :=
  decide (1 < messages.length) && decide (maxTokens < estimateTokens messages)

/-- The `for` loop of `enforceLimits`:
`for len(h.messages) > 1 && estimateTokens(h.messages) > h.maxTokens`. The first argument
bounds the number of iterations; `enforceLimits` passes the length of the list, and
`tokenCapLoop_stops` shows that the loop has left by its own condition before the bound is
used up. -/
def tokenCapLoop (maxTokens : Int) : Nat → List Message → List Message
  | 0, messages => messages
  | fuel + 1, messages =>
    if overTokenCap maxTokens messages then
      tokenCapLoop maxTokens fuel (trimOldestNonSystem messages)
    else messages

/-- The list after the count cap of `enforceLimits` (its first `if`). -/
def countCapped (h : SessionHistory) : List Message :=
  if 0 < h.maxMessages ∧ h.maxMessages < (h.messages.length : Int) then
    trimByCount h.messages h.maxMessages
  else h.messages

def SessionHistory.enforceLimits (h : SessionHistory) : SessionHistory :=
  let messages := countCapped h
  let messages :=
    if 0 < h.maxTokens then tokenCapLoop h.maxTokens messages.length messages else messages
  { h with messages := messages }

def SessionHistory.Append (h : SessionHistory) (message : Message) : SessionHistory :=
  SessionHistory.enforceLimits { h with messages := h.messages ++ [message] }

def SessionHistory.GetMessages (h : SessionHistory) : List Message :=
  h.messages

def SessionHistory.Clear (h : SessionHistory) : SessionHistory :=
  { h with messages := [] }

def SessionHistory.TokenCount (h : SessionHistory) : Int :=
  estimateTokens h.messages

/-- A finite sequence of `Append` calls, oldest first. -/
def appendAll (h : SessionHistory) (ms : List Message) : SessionHistory :=
  ms.foldl SessionHistory.Append h

/-! ## Errors (`error` values, `errors.Is`) -/

/-- The sentinel errors declared by packages `evotor` and `llm`. -/
inductive Sentinel
  | ErrMissingStoreID
  | ErrMissingToken
  | ErrUnauthorized
  | ErrRateLimited
  | ErrEmptyQuery
  | ErrNotConfigured
  deriving DecidableEq

/-- The text a sentinel was created with (`errors.New`). -/
def Sentinel.text : Sentinel → String
  | .ErrMissingStoreID => "evotor store id is required"
  | .ErrMissingToken => "evotor token is required"
  | .ErrUnauthorized => "evotor unauthorized"
  | .ErrRateLimited => "evotor rate limited"
  | .ErrEmptyQuery => "search query is empty"
  | .ErrNotConfigured => "llm is not configured"

/-- A non-nil Go `error`: a sentinel, an error with a text and nothing to unwrap
(`errors.New`, `fmt.Errorf` without `%w`, an error of a library), or an error with a text
that wraps another one (`fmt.Errorf` with `%w`). A nil `error` is `none : Option GoError`. -/
inductive GoError
  | sentinel (s : Sentinel)
  | plain (text : String)
  | wrap (text : String) (inner : GoError)
  deriving DecidableEq

/-- The method `Error()`. -/
def GoError.Error : GoError → String
  | .sentinel s => s.text
  | .plain text => text
  | .wrap text _ => text

/-- The call `errors.Is(err, target)` for a sentinel target: `err` or an error it wraps is
the sentinel. -/
def GoError.Is : GoError → Sentinel → Bool
  | .sentinel s, target => s == target
  | .plain _, _ => false
  | .wrap _ inner, target => GoError.Is inner target

/-- The call `errors.Is(err, target)` where `err` may be nil. -/
def errorsIs (err : Option GoError) (target : Sentinel) : Bool :=
  match err with
  | none => false
  | some e => e.Is target

/-! ## Decoded arguments and facade data (`evotor/types.go`) -/

/-- A value that `json.Unmarshal` stores in an `any`: nil, bool, float64 (a finite float64
is a rational), string, `[]any` or `map[string]any`. -/
inductive JVal
  | null
  | bool (b : Bool)
  | num (q : ℚ)
  | str (s : String)
  | arr (xs : List JVal)
  | obj (kvs : List (String × JVal))

/-- The type `map[string]any`: the value of a key is that of its first entry. -/
abbrev Args := List (String × JVal)

/-- A `time.Time`, as the nanoseconds since the Unix epoch. -/
abbrev Time := Int

/-- A `float64` field of the facade's data; the agent loop does no arithmetic on them. -/
abbrev Float64 := ℚ

structure Store where
  ID : String
  Name : String
  deriving DecidableEq

structure Item where
  ID : String
  Name : String
  Price : Float64 := 0
  Code : String := ""
  Barcodes : List String := []
  ArticleNumber : String := ""
  MeasureName : String := ""
  deriving DecidableEq

structure DocumentPosition where
  ProductID : String := ""
  Name : String := ""
  ProductName : String := ""
  Quantity : Float64 := 0
  Price : Float64 := 0
  Sum : Float64 := 0
  deriving DecidableEq

structure DocumentBody where
  Positions : List DocumentPosition := []
  Sum : Float64 := 0
  Total : Float64 := 0
  deriving DecidableEq

structure DocumentShort where
  ID : String
  Type_ : String := ""
  CloseDate : String := ""
  DeviceID : String := ""
  StoreID : String := ""
  Body : DocumentBody := {}
  Total : Float64 := 0
  deriving DecidableEq

structure DocumentFull where
  ID : String
  Type_ : String := ""
  CloseDate : String := ""
  DeviceID : String := ""
  StoreID : String := ""
  Body : DocumentBody := {}
  Total : Float64 := 0
  deriving DecidableEq

structure SalesMetrics where
  Count : Int
  TotalSum : Float64
  StoreID : String := ""
  From : String := ""
  To : String := ""
  DocumentTypes : List (String × Int) := []
  deriving DecidableEq

/-- The first result of `dispatchToolCall`, of Go type `any`: nil or the typed value one of
the five operations returned. -/
inductive ToolResult
  | nil
  | metrics (m : SalesMetrics)
  | stores (l : List Store)
  | items (l : List Item)
  | documents (l : List DocumentShort)
  | document (d : DocumentFull)
  deriving DecidableEq

/-! ## Records and responses (`utils.go`) -/

def defaultDocLimit : Int := 50
def defaultOutputLimit : Int := 10

structure toolCallRecord where
  Name : String
  Args : Args := []
  MS : Int := 0
  OK : Bool := false
  Err : String := ""

structure appliedFilters where
  DateFrom : String := ""
  DateTo : String := ""
  StoreID : String := ""
  deriving DecidableEq

structure response where
  Query : String := ""
  AnswerText : String := ""
  AppliedFilters : appliedFilters := {}
  Results : ToolResult := ToolResult.nil
  ToolCalls : List toolCallRecord := []
  NextStep : String := ""

/-- The fields of `Options` the agent and `resolvePeriod` read. -/
structure Options where
  EvotorStoreID : String := ""
  From : String := ""
  To : String := ""
  deriving DecidableEq

/-- The response of the model (`openrouter.ChatCompletionResponse`): the message of each
choice; its usage block is only logged. -/
structure ChatCompletionResponse where
  Choices : List Message
  deriving DecidableEq

/-! ## The collaborators -/

/-- One call of a collaborator made by package `cli`: `llmClient.ChatWithMessages` or one
of the five operations of `evotorClient`, with the arguments it was made with. -/
inductive Event
  | ChatWithMessages (messages : List Message)
  | GetSalesMetrics (from_ to_ : Time) (storeID documentType : Option String)
  | ListStores
  | SearchItems (query : String) (limit : Int) (storeID : Option String)
  | SearchDocuments (from_ to_ : Time) (storeID : Option String) (limit offset : Int)
  | GetDocument (docID : String) (storeID : Option String)
  deriving DecidableEq

/-- Everything outside the repository's logic. The model (`CreateChatCompletion` of the
openrouter client) and the five operations of `evotor.Client` are functions of a world
state of an arbitrary type `σ`, which they may change, so that a collaborator may answer
differently at every call; `now` reads the monotonic clock in nanoseconds. The other fields
are the library functions the agent calls: `json.Unmarshal` into a `map[string]any` (the
map it leaves and its error), `json.Marshal` of a tool result and of the map
`map[string]string` holding the key `error`, `fmt.Sprintf("%v", v)`,
`time.Parse(time.RFC3339, s)` and `strings.ToLower`. `SystemPromptWithContext` is the prompt
of package `llm`, whose text the agent only passes on. -/
structure World (σ : Type) where
  CreateChatCompletion : σ → List Message → Except GoError ChatCompletionResponse × σ
  GetSalesMetrics : σ → Time → Time → Option String → Option String →
    Except GoError SalesMetrics × σ
  ListStores : σ → Except GoError (List Store) × σ
  SearchItems : σ → String → Int → Option String → Except GoError (List Item) × σ
  SearchDocuments : σ → Time → Time → Option String → Int → Int →
    Except GoError (List DocumentShort) × σ
  GetDocument : σ → String → Option String → Except GoError DocumentFull × σ
  now : σ → Int
  jsonUnmarshal : String → Args × Option GoError
  jsonMarshal : ToolResult → Except GoError String
  jsonMarshalErrorMap : String → Except GoError String
  sprintV : JVal → String
  parseRFC3339 : String → Except GoError Time
  toLower : String → String
  SystemPromptWithContext : Bool → String

/-- The state of a run: the world and the calls made so far, oldest first. -/
structure Sys (σ : Type) where
  world : σ
  trace : List Event := []

/-- The fields of `llm.Client` that decide whether it calls the model: `client != nil` and
`enabled`. A nil `*llm.Client` is `none : Option LLMClient`. -/
structure LLMClient where
  hasClient : Bool
  enabled : Bool
  deriving DecidableEq

/-! ## Package `llm`: `client.go` -/

/-- The method `(*Client).Enabled`. -/
def LLMClient.Enabled (c : Option LLMClient) : Bool :=
  match c with
  | none => false
  | some c => c.enabled

/-- The method `(*Client).ChatWithMessages`; the tool schemas it sends are a constant. -/
def ChatWithMessages {σ : Type} (W : World σ) (c : Option LLMClient)
    (messages : List Message) (s : Sys σ) : Except GoError ChatCompletionResponse × Sys σ :=
  let s : Sys σ := { s with trace := s.trace ++ [Event.ChatWithMessages messages] }
  match c with
  | none => (.error (.sentinel .ErrNotConfigured), s)
  | some c =>
    if !c.enabled || !c.hasClient then (.error (.sentinel .ErrNotConfigured), s)
    else
      let r := W.CreateChatCompletion s.world messages
      (r.1, { s with world := r.2 })

/-! ## The calls of the data facade, each recorded in the trace -/

def callGetSalesMetrics {σ : Type} (W : World σ) (from_ to_ : Time)
    (storeID documentType : Option String) (s : Sys σ) :
    Except GoError SalesMetrics × Sys σ :=
  let r := W.GetSalesMetrics s.world from_ to_ storeID documentType
  (r.1, { world := r.2,
          trace := s.trace ++ [Event.GetSalesMetrics from_ to_ storeID documentType] })

def callListStores {σ : Type} (W : World σ) (s : Sys σ) :
    Except GoError (List Store) × Sys σ :=
  let r := W.ListStores s.world
  (r.1, { world := r.2, trace := s.trace ++ [Event.ListStores] })

def callSearchItems {σ : Type} (W : World σ) (query : String) (limit : Int)
    (storeID : Option String) (s : Sys σ) : Except GoError (List Item) × Sys σ :=
  let r := W.SearchItems s.world query limit storeID
  (r.1, { world := r.2, trace := s.trace ++ [Event.SearchItems query limit storeID] })

def callSearchDocuments {σ : Type} (W : World σ) (from_ to_ : Time)
    (storeID : Option String) (limit offset : Int) (s : Sys σ) :
    Except GoError (List DocumentShort) × Sys σ :=
  let r := W.SearchDocuments s.world from_ to_ storeID limit offset
  (r.1, { world := r.2,
          trace := s.trace ++ [Event.SearchDocuments from_ to_ storeID limit offset] })

def callGetDocument {σ : Type} (W : World σ) (docID : String) (storeID : Option String)
    (s : Sys σ) : Except GoError DocumentFull × Sys σ :=
  let r := W.GetDocument s.world docID storeID
  (r.1, { world := r.2, trace := s.trace ++ [Event.GetDocument docID storeID] })

/-! ## `utils.go` -/

/-- The generic `trackCall`: runs `fn`, measures it and builds its record. The result is
`Except.error err` where Go returns the zero value together with `err`. -/
def trackCall {σ α : Type} (W : World σ) (name : String) (args : Args)
    (fn : Sys σ → Except GoError α × Sys σ) (s : Sys σ) :
    (Except GoError α × toolCallRecord) × Sys σ :=
  let start := W.now s.world
  let r := fn s
  let elapsed := W.now r.2.world - start
  let record : toolCallRecord :=
    { Name := name, Args := args, MS := elapsed.tdiv 1000000,
      OK := (match r.1 with | .ok _ => true | .error _ => false),
      Err := (match r.1 with | .ok _ => "" | .error err => err.Error) }
  ((r.1, record), r.2)

def friendlyEvotorError (err : Option GoError) : String :=
  if errorsIs err .ErrMissingToken then "Нет доступа: неверный или отсутствующий токен."
  else if errorsIs err .ErrMissingStoreID then
    "Нужен store_id: укажите --store-id или EVOTOR_STORE_ID."
  else if errorsIs err .ErrUnauthorized then "Нет доступа: неверный токен или недостаточно прав."
  else if errorsIs err .ErrRateLimited then "Слишком много запросов. Попробуйте позже."
  else
    match err with
    | none => ""
    | some e => e.Error

def optionalString (value : String) : Option String :=
  let trimmed := trimSpace value
  if trimmed = "" then none else some trimmed

/-- Go's `strings.Contains`. -/
def stringsContains (s substr : String) : Bool :=
  decide (substr.data <:+: s.data)

def documentHasItem {σ : Type} (W : World σ) (doc : DocumentFull) (needle : String) : Bool :=
  doc.Body.Positions.any fun pos =>
    let name := W.toLower (trimSpace pos.Name)
    let productName := W.toLower (trimSpace pos.ProductName)
    (name != "" && stringsContains name needle) ||
      (productName != "" && stringsContains productName needle)

/-! ## `llm_agent.go` -/

def maxToolRounds : Nat := 4

def getStringArg {σ : Type} (W : World σ) (args : Args) (key : String) : String × Bool :=
  match args.lookup key with
  | none => ("", false)
  | some (JVal.str v) => (trimSpace v, true)
  | some v => (W.sprintV v, true)

/-- Go's `strconv.Atoi` on a 64-bit platform: an optional sign and decimal digits, in the
range of `int64`. -/
def atoi (s : String) : Option Int :=
  let cs := s.data
  let neg := cs.head? = some '-'
  let ds := if cs.head? = some '-' ∨ cs.head? = some '+' then cs.tail else cs
  if ds.isEmpty || !ds.all Char.isDigit then none
  else
    let n : Int := ds.foldl (fun acc c => 10 * acc + ((c.toNat - 48 : Nat) : Int)) 0
    let v := if neg then -n else n
    if v < -9223372036854775808 ∨ 9223372036854775807 < v then none else some v

/-- The function `getIntArg`. A decoded value is never a Go `int` or a `json.Number`, so
those two cases of its type switch have no counterpart; `int(v)` of a float64 in the range
of `int` truncates toward zero. -/
def getIntArg (args : Args) (key : String) (fallback : Int) : Int :=
  match args.lookup key with
  | none => fallback
  | some (JVal.num v) => v.num.tdiv v.den
  | some (JVal.str v) =>
    match atoi v with
    | some parsed => parsed
    | none => fallback
  | some _ => fallback

def getTimeArg {σ : Type} (W : World σ) (args : Args) (key : String) : Except GoError Time :=
  let r := getStringArg W args key
  if !r.2 || r.1 = "" then .error (.plain ("missing " ++ key))
  else
    match W.parseRFC3339 r.1 with
    | .error err => .error (.wrap ("invalid " ++ key ++ ": " ++ err.Error) err)
    | .ok parsed => .ok parsed

def getStoreIDArg {σ : Type} (W : World σ) (args : Args) (fallback : String) : String :=
  let r := getStringArg W args "store_id"
  if r.2 && trimSpace r.1 != "" then r.1 else trimSpace fallback

def toolErrorPayload {σ : Type} (W : World σ) (message : String) : String :=
  match W.jsonMarshalErrorMap message with
  | .error _ => "\x7b\"error\":\"" ++ message ++ "\"\x7d"
  | .ok encoded => encoded

/-- The loop of `filterDocumentsByItem` over the documents still to look at, `hits` being
its slice `matches`. -/
def filterDocumentsByItemLoop {σ : Type} (W : World σ) (storeID needle : String) :
    List DocumentShort → List DocumentShort → Sys σ →
      Except GoError (List DocumentShort) × Sys σ
  | [], hits, s => (.ok hits, s)
  | doc :: rest, hits, s =>
    let r := trackCall W "GetDocument" [("doc_id", JVal.str doc.ID)]
      (callGetDocument W doc.ID (optionalString storeID)) s
    match r.1.1 with
    | .error err => (.error err, r.2)
    | .ok fullDoc =>
      if documentHasItem W fullDoc needle then
        let hit : DocumentShort :=
          { ID := fullDoc.ID, Type_ := fullDoc.Type_, CloseDate := fullDoc.CloseDate,
            DeviceID := fullDoc.DeviceID, StoreID := fullDoc.StoreID, Body := fullDoc.Body,
            Total := fullDoc.Total }
        let hits := hits ++ [hit]
        if defaultOutputLimit ≤ (hits.length : Int) then (.ok hits, r.2)
        else filterDocumentsByItemLoop W storeID needle rest hits r.2
      else filterDocumentsByItemLoop W storeID needle rest hits r.2

def filterDocumentsByItem {σ : Type} (W : World σ) (storeID : String)
    (documents : List DocumentShort) (itemQuery : String) (s : Sys σ) :
    Except GoError (List DocumentShort) × Sys σ :=
  let needle := W.toLower (trimSpace itemQuery)
  if needle = "" then (.ok documents, s)
  else filterDocumentsByItemLoop W storeID needle documents [] s

/-- What `dispatchToolCall` returns: the result (nil, here also for the zero value Go
returns next to an error), the record and the error. -/
abbrev Dispatched := ToolResult × toolCallRecord × Option GoError

/-- The three results of a `return trackCall(...)`. -/
def tracked {α : Type} (wrap : α → ToolResult) (r : Except GoError α × toolCallRecord) :
    Dispatched :=
  match r.1 with
  | .ok v => (wrap v, r.2, none)
  | .error err => (ToolResult.nil, r.2, some err)

/-- The record `dispatchToolCall` builds itself for a call it does not forward. -/
def failedRecord (name : String) (args : Args) (err : GoError) : toolCallRecord :=
  { Name := name, Args := args, OK := false, Err := err.Error }

def dispatchToolCall {σ : Type} (W : World σ) (opts : Options) (name : String) (args : Args)
    (s : Sys σ) : Dispatched × Sys σ :=
  match name with
  | "GetSalesMetrics" =>
    match getTimeArg W args "from" with
    | .error err => ((ToolResult.nil, failedRecord name args err, some err), s)
    | .ok from_ =>
      match getTimeArg W args "to" with
      | .error err => ((ToolResult.nil, failedRecord name args err, some err), s)
      | .ok to_ =>
        let storeID := getStoreIDArg W args opts.EvotorStoreID
        let documentType := (getStringArg W args "document_type").1
        let docType := if documentType ≠ "" then some documentType else none
        let r := trackCall W name args
          (callGetSalesMetrics W from_ to_ (optionalString storeID) docType) s
        (tracked ToolResult.metrics r.1, r.2)
  | "ListStores" =>
    let r := trackCall W name args (callListStores W) s
    (tracked ToolResult.stores r.1, r.2)
  | "SearchItems" =>
    let query := (getStringArg W args "query").1
    let limit := getIntArg args "limit" defaultOutputLimit
    let storeID := getStoreIDArg W args opts.EvotorStoreID
    let r := trackCall W name args (callSearchItems W query limit (optionalString storeID)) s
    (tracked ToolResult.items r.1, r.2)
  | "SearchDocuments" =>
    match getTimeArg W args "from" with
    | .error err => ((ToolResult.nil, failedRecord name args err, some err), s)
    | .ok from_ =>
      match getTimeArg W args "to" with
      | .error err => ((ToolResult.nil, failedRecord name args err, some err), s)
      | .ok to_ =>
        let limit := getIntArg args "limit" defaultDocLimit
        let offset := getIntArg args "offset" 0
        let storeID := getStoreIDArg W args opts.EvotorStoreID
        let itemQuery := (getStringArg W args "item_query").1
        let r := trackCall W name args
          (callSearchDocuments W from_ to_ (optionalString storeID) limit offset) s
        if trimSpace itemQuery = "" then (tracked ToolResult.documents r.1, r.2)
        else
          match r.1.1 with
          | .error err => ((ToolResult.nil, r.1.2, some err), r.2)
          | .ok documents =>
            let f := filterDocumentsByItem W storeID documents itemQuery r.2
            match f.1 with
            | .ok filtered => ((ToolResult.documents filtered, r.1.2, none), f.2)
            | .error filterErr => ((ToolResult.documents [], r.1.2, some filterErr), f.2)
  | "GetDocument" =>
    let docID := (getStringArg W args "doc_id").1
    let storeID := getStoreIDArg W args opts.EvotorStoreID
    let r := trackCall W name args (callGetDocument W docID (optionalString storeID)) s
    (tracked ToolResult.document r.1, r.2)
  | _ =>
    let err := GoError.plain ("unknown tool: " ++ name)
    ((ToolResult.nil, failedRecord name args err, some err), s)

/-- What `executeToolCalls` returns: the tool-result messages, the records and the error. -/
abbrev Executed := List Message × List toolCallRecord × Option GoError

/-- The head of the loop body of `executeToolCalls`: `args := map[string]any{}`, filled by
`json.Unmarshal` when the payload is not the empty string; the map and the error. -/
def decodeArgs {σ : Type} (W : World σ) (call : ToolCall) : Args × Option GoError :=
  if call.Arguments ≠ "" then W.jsonUnmarshal call.Arguments else ([], none)

/-- The `for _, call := range calls` loop of `executeToolCalls` over the calls still to
process, with the slices `toolMessages` and `records` built so far. -/
def executeToolCallsLoop {σ : Type} (W : World σ) (opts : Options) :
    List ToolCall → List Message → List toolCallRecord → Sys σ → Executed × Sys σ
  | [], toolMessages, records, s => ((toolMessages, records, none), s)
  | call :: rest, toolMessages, records, s =>
    let parsed := decodeArgs W call
    match parsed.2 with
    | some err =>
      let record : toolCallRecord :=
        { Name := call.Name, Args := parsed.1, MS := 0, OK := false,
          Err := "invalid tool args: " ++ err.Error }
      executeToolCallsLoop W opts rest
        (toolMessages ++ [ToolMessage call.ID (toolErrorPayload W record.Err)])
        (records ++ [record]) s
    | none =>
      let d := dispatchToolCall W opts call.Name parsed.1 s
      match d.1.2.2 with
      | some err =>
        ((toolMessages ++ [ToolMessage call.ID (toolErrorPayload W err.Error)],
          records ++ [d.1.2.1], some err), d.2)
      | none =>
        match W.jsonMarshal d.1.1 with
        | .error err =>
          let record : toolCallRecord := { d.1.2.1 with OK := false, Err := err.Error }
          ((toolMessages ++ [ToolMessage call.ID (toolErrorPayload W err.Error)],
            records ++ [record], some err), d.2)
        | .ok payload =>
          executeToolCallsLoop W opts rest
            (toolMessages ++ [ToolMessage call.ID payload]) (records ++ [d.1.2.1]) d.2

/-- The function `executeToolCalls`; `evotorClient` tells whether the client is non-nil. -/
def executeToolCalls {σ : Type} (W : World σ) (evotorClient : Bool) (opts : Options)
    (calls : List ToolCall) (s : Sys σ) : Executed × Sys σ :=
  if !evotorClient then
    (([], [], some (GoError.plain "evotor client is not configured")), s)
  else executeToolCallsLoop W opts calls [] [] s

/-- What a call of `runLLMAgent` leaves: its two results (`Except.error err` for
`response{}, err`), the store it was given, and the world with the calls made. -/
structure AgentRun (σ : Type) where
  result : Except GoError response
  history : Option SessionHistory
  sys : Sys σ

/-- The head of a round: `if history != nil { messages = history.GetMessages() }`. -/
def roundMessages (history : Option SessionHistory) (messages : List Message) :
    List Message :=
  match history with
  | some h => h.GetMessages
  | none => messages

/-- The `for round := 0; round < maxToolRounds; round++` loop of `runLLMAgent`, with
`remaining = maxToolRounds - round` rounds left; after the last round comes the statement
that follows the loop. -/
def runLLMAgentLoop {σ : Type} (W : World σ) (opts : Options) (llmClient : Option LLMClient)
    (evotorClient : Bool) (query : String) :
    Nat → Option SessionHistory → List Message → List toolCallRecord → Sys σ → AgentRun σ
  | 0, history, _, toolCalls, s =>
    { result := .ok
        { Query := query,
          AnswerText := "Не удалось завершить запрос: превышен лимит шагов.",
          ToolCalls := toolCalls,
          NextStep := "Уточните запрос или сузьте период/магазин." },
      history := history, sys := s }
  | remaining + 1, history, messages, toolCalls, s =>
    let messages := roundMessages history messages
    let r := ChatWithMessages W llmClient messages s
    match r.1 with
    | .error err => { result := .error err, history := history, sys := r.2 }
    | .ok resp =>
      match resp.Choices with
      | [] =>
        { result := .error (GoError.plain "llm returned empty response"),
          history := history, sys := r.2 }
      | msg :: _ =>
        if msg.ToolCalls.length = 0 then
          { result := .ok
              { Query := query, AnswerText := trimSpace msg.Text, ToolCalls := toolCalls },
            history := history.map (fun h => h.Append msg), sys := r.2 }
        else
          let history := history.map (fun h => h.Append msg)
          let messages := if history.isSome then messages else messages ++ [msg]
          let e := executeToolCalls W evotorClient opts msg.ToolCalls r.2
          let toolMsgs := e.1.1
          let toolCalls := toolCalls ++ e.1.2.1
          let history :=
            if 0 < toolMsgs.length then history.map (fun h => appendAll h toolMsgs)
            else history
          let messages :=
            if history.isSome then messages
            else if 0 < toolMsgs.length then messages ++ toolMsgs else messages
          match e.1.2.2 with
          | some err =>
            { result := .ok
                { Query := query, AnswerText := friendlyEvotorError (some err),
                  ToolCalls := toolCalls },
              history := history, sys := e.2 }
          | none =>
            runLLMAgentLoop W opts llmClient evotorClient query remaining history messages
              toolCalls e.2

def runLLMAgent {σ : Type} (W : World σ) (opts : Options) (llmClient : Option LLMClient)
    (evotorClient : Bool) (query : String) (interactive : Bool)
    (history : Option SessionHistory) (s : Sys σ) : AgentRun σ :=
  if !LLMClient.Enabled llmClient then
    { result := .error (GoError.sentinel Sentinel.ErrNotConfigured), history := history,
      sys := s }
  else
    match history with
    | some h =>
      let h :=
        if h.GetMessages.length = 0 then
          h.Append (SystemMessage (W.SystemPromptWithContext interactive))
        else h
      let h := h.Append (UserMessage query)
      runLLMAgentLoop W opts llmClient evotorClient query maxToolRounds (some h)
        h.GetMessages [] s
    | none =>
      runLLMAgentLoop W opts llmClient evotorClient query maxToolRounds none
        [SystemMessage (W.SystemPromptWithContext interactive), UserMessage query] [] s

/-- The number of model calls (`ChatWithMessages`) in a trace. -/
def modelCalls (trace : List Event) : Nat :=
  trace.countP fun e =>
    match e with
    | Event.ChatWithMessages _ => true
    | _ => false

/-- The trace of `s'` is that of `s` followed by calls of the data facade only. -/
def FacadeOnly {σ : Type} (s s' : Sys σ) : Prop :=
  ∃ new, s'.trace = s.trace ++ new ∧ modelCalls new = 0

/-- The argument `key` of a call is missing (absent or blank) or does not parse as a
timestamp. -/
def badTimeArg {σ : Type} (W : World σ) (args : Args) (key : String) : Prop :=
  args.lookup key = none ∨ (getStringArg W args key).1 = "" ∨
    ∃ err, W.parseRFC3339 (getStringArg W args key).1 = .error err

/-- The five function names `dispatchToolCall` routes. -/
def toolNames : List String :=
  ["GetSalesMetrics", "ListStores", "SearchItems", "SearchDocuments", "GetDocument"]

/-! ## A world for the worked examples -/

/-- A small world for the examples: an account with a token, no stores and no default
store. The model answers its `n`-th call with the `n`-th message of `script` (and with no
choice once the script is used up); `ListStores` returns the nil list, which marshals to
`null`, and the operations that need a store fail with `ErrMissingStoreID`. Of the library
functions it has what the examples use: the payloads `{}` (the empty map) and `{` (a syntax
error), one timestamp, error texts that need no escaping and ASCII lower-casing. -/
def exampleWorld (script : List Message) : World Nat where
  CreateChatCompletion := fun n _ =>
    (match script.get? n with
      | some msg => .ok { Choices := [msg] }
      | none => .ok { Choices := [] }, n + 1)
  GetSalesMetrics := fun n _ _ _ _ => (.error (.sentinel .ErrMissingStoreID), n)
  ListStores := fun n => (.ok [], n)
  SearchItems := fun n _ _ _ => (.error (.sentinel .ErrMissingStoreID), n)
  SearchDocuments := fun n _ _ _ _ _ => (.error (.sentinel .ErrMissingStoreID), n)
  GetDocument := fun n _ _ => (.error (.sentinel .ErrMissingStoreID), n)
  now := fun _ => 0
  jsonUnmarshal := fun payload =>
    if payload = "\x7b\x7d" then ([], none)
    else ([], some (.plain "unexpected end of JSON input"))
  jsonMarshal := fun _ => .ok "null"
  jsonMarshalErrorMap := fun message => .ok ("\x7b\"error\":\"" ++ message ++ "\"\x7d")
  sprintV := fun v =>
    match v with
    | .bool true => "true"
    | .bool false => "false"
    | .str s => s
    | _ => "<nil>"
  parseRFC3339 := fun value =>
    if value = "2025-01-01T00:00:00Z" then .ok 1735689600000000000
    else .error (.plain ("parsing time \"" ++ value ++ "\": cannot parse as RFC3339"))
  toLower := fun value => String.mk (value.data.map Char.toLower)
  SystemPromptWithContext := fun _ => "You answer questions about point-of-sale data."

/-- An enabled client, as `llm.NewClient` builds it from a model name and an API key. -/
def exampleClient : Option LLMClient :=
  some { hasClient := true, enabled := true }

/-- An assistant message that requests the given tool calls. -/
def assistantCalls (calls : List ToolCall) : Message :=
  { Role := ChatMessageRoleAssistant, ToolCalls := calls }

/-- An assistant message with a final text. -/
def assistantText (text : String) : Message :=
  { Role := ChatMessageRoleAssistant, Text := text }

/-! ## Notions the claims are stated with -/

/-- The last `k` messages of a list, in their order. -/
def lastMessages (k : Nat) (messages : List Message) : List Message :=
  (messages.reverse.take k).reverse

/-- The number of whitespace-delimited words of a text. -/
def wordCount (text : String) : Nat :=
  (fields text).length

/-- The invariant of a `toolCallRecord`: ok=false implies a non-empty err, ok=true an empty
err. -/
def recordConsistent (r : toolCallRecord) : Prop :=
  (r.OK = false → r.Err ≠ "") ∧ (r.OK = true → r.Err = "")

/-- Every error returned by a collaborator whose text ends up alone in a record has a
non-empty text: the errors of the five operations of the data facade, in every state and
for all arguments, and those of `json.Marshal`. -/
def errorsHaveText {σ : Type} (W : World σ) : Prop :=
  (∀ w a b c d e, (W.GetSalesMetrics w a b c d).1 = .error e → e.Error ≠ "") ∧
  (∀ w e, (W.ListStores w).1 = .error e → e.Error ≠ "") ∧
  (∀ w a b c e, (W.SearchItems w a b c).1 = .error e → e.Error ≠ "") ∧
  (∀ w a b c d f e, (W.SearchDocuments w a b c d f).1 = .error e → e.Error ≠ "") ∧
  (∀ w a b e, (W.GetDocument w a b).1 = .error e → e.Error ≠ "") ∧
  (∀ r e, W.jsonMarshal r = .error e → e.Error ≠ "")

/-- The value of a list of decimal digits, as `strconv.Atoi` accumulates it. -/
def digitsValue (ds : List Char) : Nat :=
  ds.foldl (fun acc c => 10 * acc + (c.toNat - 48)) 0

/-- A text is a decimal integer: an optional sign followed by at least one ASCII digit. -/
def isDecimalInteger (v : String) : Prop :=
  ∃ sign ds : List Char, v.data = sign ++ ds ∧ (sign = [] ∨ sign = ['-'] ∨ sign = ['+']) ∧
    ds ≠ [] ∧ ∀ c ∈ ds, c.isDigit = true

/-! ## Package `llm`: `tools.go` -/

/-- The fields of `openrouter.FunctionDefinition` that make the contract with the
dispatcher: the name and, from `Parameters`, the properties with their JSON type and the
required ones. The descriptions are text for the model. -/
structure FunctionDefinition where
  Name : String
  Properties : List (String × String)
  Required : List String
  deriving DecidableEq

/-- An `openrouter.Tool`; its type is always `function`. -/
structure Tool where
  Function : FunctionDefinition
  deriving DecidableEq

def getSalesMetricsTool : Tool :=
  { Function :=
      { Name := "GetSalesMetrics",
        Properties := [("from", "string"), ("to", "string"), ("document_type", "string"),
          ("store_id", "string")],
        Required := ["from", "to"] } }

def listStoresTool : Tool :=
  { Function := { Name := "ListStores", Properties := [], Required := [] } }

def searchItemsTool : Tool :=
  { Function :=
      { Name := "SearchItems",
        Properties := [("query", "string"), ("limit", "integer"), ("store_id", "string")],
        Required := ["query"] } }

def searchDocumentsTool : Tool :=
  { Function :=
      { Name := "SearchDocuments",
        Properties := [("from", "string"), ("to", "string"), ("limit", "integer"),
          ("offset", "integer"), ("item_query", "string"), ("store_id", "string")],
        Required := ["from", "to"] } }

def getDocumentTool : Tool :=
  { Function :=
      { Name := "GetDocument",
        Properties := [("doc_id", "string"), ("store_id", "string")],
        Required := ["doc_id"] } }

def ToolSchemas : List Tool :=
  [getSalesMetricsTool, listStoresTool, searchItemsTool, searchDocumentsTool,
    getDocumentTool]

/-! ## Rounds of the agent loop -/

/-- The conversation `runLLMAgent` enters its loop with (lines 25 to 37): the store, with
the system message appended when it was empty and then the query, and the slice
`messages`. -/
def startConversation {σ : Type} (W : World σ) (query : String) (interactive : Bool)
    (history : Option SessionHistory) : Option SessionHistory × List Message :=
  match history with
  | some h =>
    let h :=
      if h.GetMessages.length = 0 then
        h.Append (SystemMessage (W.SystemPromptWithContext interactive))
      else h
    let h := h.Append (UserMessage query)
    (some h, h.GetMessages)
  | none => (none, [SystemMessage (W.SystemPromptWithContext interactive), UserMessage query])

/-- The store and the slice `messages` at the end of a round that dispatched tool calls
(lines 71 to 84): the assistant message, then the tool-result messages, appended to the
store when there is one and to the slice otherwise. -/
def afterToolRound (history : Option SessionHistory) (messages : List Message)
    (msg : Message) (toolMsgs : List Message) : Option SessionHistory × List Message :=
  match history with
  | some h =>
    let h := h.Append msg
    (some (if 0 < toolMsgs.length then appendAll h toolMsgs else h), messages)
  | none =>
    (none, if 0 < toolMsgs.length then (messages ++ [msg]) ++ toolMsgs else messages ++ [msg])

/-- A run of `n` consecutive rounds, from a store, a slice `messages` and a state, in each
of which the model's top choice requests at least one tool call and `executeToolCalls`
returns no error; `recs` holds the records of each round, and the last two arguments are
the store and the state after the last round. -/
inductive ToolRounds {σ : Type} (W : World σ) (opts : Options)
    (llmClient : Option LLMClient) (evotorClient : Bool) :
    Nat → Option SessionHistory → List Message → Sys σ → List (List toolCallRecord) →
      Option SessionHistory → Sys σ → Prop
  | done (history : Option SessionHistory) (messages : List Message) (s : Sys σ) :
      ToolRounds W opts llmClient evotorClient 0 history messages s [] history s
  | round {n : Nat} {history : Option SessionHistory} {messages : List Message}
      {s s1 s2 : Sys σ} {resp : ChatCompletionResponse} {msg : Message}
      {others toolMsgs : List Message} {rc : List toolCallRecord}
      {recs : List (List toolCallRecord)} {history' : Option SessionHistory} {s' : Sys σ} :
      ChatWithMessages W llmClient (roundMessages history messages) s = (.ok resp, s1) →
      resp.Choices = msg :: others →
      msg.ToolCalls ≠ [] →
      executeToolCalls W evotorClient opts msg.ToolCalls s1 = ((toolMsgs, rc, none), s2) →
      ToolRounds W opts llmClient evotorClient n
        (afterToolRound history (roundMessages history messages) msg toolMsgs).1
        (afterToolRound history (roundMessages history messages) msg toolMsgs).2 s2 recs
        history' s' →
      ToolRounds W opts llmClient evotorClient (n + 1) history messages s (rc :: recs)
        history' s'

/-- The script of a model that requests `ListStores` again and again. -/
def scriptListStores : List Message :=
  [assistantCalls [⟨"c1", "ListStores", ""⟩], assistantCalls [⟨"c2", "ListStores", ""⟩],
   assistantCalls [⟨"c3", "ListStores", ""⟩], assistantCalls [⟨"c4", "ListStores", ""⟩],
   assistantText "never reached"]

/-! ## Package `evotor`: the errors of `client.go` -/

/-- The type `evotor.APIError`. -/
structure APIError where
  StatusCode : Int
  Status : String
  Body : String
  deriving DecidableEq

/-- The method `(*APIError).Error`. -/
def APIError.Error (e : APIError) : String :=
  if e.Body = "" then "evotor api error: " ++ e.Status
  else "evotor api error: " ++ e.Status ++ ": " ++ e.Body

/-- The function `apiErrorFromResponse`, of the status code, the status line and the body
text of the response (`resp.StatusCode()`, `resp.Status()`, `resp.String()`). -/
def apiErrorFromResponse (statusCode : Int) (status text : String) : GoError :=
  let body := trimSpace text
  let apiErr : APIError := { StatusCode := statusCode, Status := status, Body := body }
  if statusCode = 401 ∨ statusCode = 403 then
    .wrap (Sentinel.ErrUnauthorized.text ++ ": " ++ apiErr.Error) (.sentinel .ErrUnauthorized)
  else if statusCode = 429 then
    .wrap (Sentinel.ErrRateLimited.text ++ ": " ++ apiErr.Error) (.sentinel .ErrRateLimited)
  else .plain apiErr.Error

/-- The error `doGet` returns when the request itself failed:
`fmt.Errorf("evotor request: %w", err)`. -/
def requestError (err : GoError) : GoError :=
  .wrap ("evotor request: " ++ err.Error) err

/-- The four fixed messages of `friendlyEvotorError`. -/
def friendlyMessages : List String :=
  ["Нет доступа: неверный или отсутствующий токен.",
   "Нужен store_id: укажите --store-id или EVOTOR_STORE_ID.",
   "Нет доступа: неверный токен или недостаточно прав.",
   "Слишком много запросов. Попробуйте позже."]

/-! ## Notions of the item filter -/

/-- The entry `filterDocumentsByItem` composes from a full document. -/
def summaryOf (d : DocumentFull) : DocumentShort :=
  { ID := d.ID, Type_ := d.Type_, CloseDate := d.CloseDate, DeviceID := d.DeviceID,
    StoreID := d.StoreID, Body := d.Body, Total := d.Total }

/-- A full document has a line item whose lower-cased name or product name contains
`needle`. -/
def hasLineItem {σ : Type} (W : World σ) (doc : DocumentFull) (needle : String) : Bool :=
  doc.Body.Positions.any fun pos =>
    stringsContains (W.toLower pos.Name) needle ||
      stringsContains (W.toLower pos.ProductName) needle

/-- What `strings.ToLower` is known to do on every text: it maps the text character by
character, and a character and its image are both white space or both not. -/
def lowersByChar {σ : Type} (W : World σ) : Prop :=
  ∃ f : Char → Char, (∀ s, W.toLower s = String.mk (s.data.map f)) ∧
    ∀ c, isSpace (f c) = isSpace c

/-- The characters `trimSpace` keeps. -/
def trimChars (xs : List Char) : List Char :=
  ((xs.dropWhile isSpace).reverse.dropWhile isSpace).reverse

/-! ## A world with a page of documents -/

/-- Lower-casing of one character, for the letters the examples use: the capital letters of
the Latin alphabet and those of the Russian alphabet from `А` (U+0410) to `Я` (U+042F),
whose small letters lie 32 code points higher. -/
def lowerChar (c : Char) : Char :=
  if 0x410 ≤ c.toNat ∧ c.toNat ≤ 0x42F then Char.ofNat (c.toNat + 32) else c.toLower

/-- The payload of a `SearchDocuments` call for January 2025 with the item query `кофе`. -/
def searchCoffeePayload : String :=
  "\x7b\"from\":\"2025-01-01T00:00:00Z\",\"to\":\"2025-01-31T00:00:00Z\",\"item_query\":\"кофе\"\x7d"

/-- The map `json.Unmarshal` decodes `searchCoffeePayload` to. -/
def searchCoffeeArgs : Args :=
  [("from", JVal.str "2025-01-01T00:00:00Z"), ("to", JVal.str "2025-01-31T00:00:00Z"),
   ("item_query", JVal.str "кофе")]

/-- A world for the examples of the document search: a client with a token and a default
store whose `SearchDocuments` returns the page `page` and whose `GetDocument` returns the
document of `fulls` with the requested id, or the error of a 404 response when there is
none. The model is not part of these examples and offers no choice. Of the library
functions it has what the examples use: the payloads `searchCoffeePayload` and `{}`, two
timestamps, error texts that need no escaping and `lowerChar`; `json.Marshal`, which the
examples over this world do not reach, gives the encoding of nil. -/
def pageWorld (page : List DocumentShort) (fulls : List DocumentFull) : World Nat where
  CreateChatCompletion := fun n _ => (.ok { Choices := [] }, n + 1)
  GetSalesMetrics := fun n _ _ _ _ => (.error (apiErrorFromResponse 404 "404 Not Found" ""), n)
  ListStores := fun n => (.ok [], n)
  SearchItems := fun n _ _ _ => (.error (apiErrorFromResponse 404 "404 Not Found" ""), n)
  SearchDocuments := fun n _ _ _ _ _ => (.ok page, n)
  GetDocument := fun n docID _ =>
    (match fulls.find? (fun d => d.ID == docID) with
      | some d => .ok d
      | none => .error (apiErrorFromResponse 404 "404 Not Found" ""), n)
  now := fun _ => 0
  jsonUnmarshal := fun payload =>
    if payload = searchCoffeePayload then (searchCoffeeArgs, none)
    else if payload = "\x7b\x7d" then ([], none)
    else ([], some (.plain "unexpected end of JSON input"))
  jsonMarshal := fun _ => .ok "null"
  jsonMarshalErrorMap := fun message => .ok ("\x7b\"error\":\"" ++ message ++ "\"\x7d")
  sprintV := fun v =>
    match v with
    | .bool true => "true"
    | .bool false => "false"
    | .str s => s
    | _ => "<nil>"
  parseRFC3339 := fun value =>
    if value = "2025-01-01T00:00:00Z" then .ok 1735689600000000000
    else if value = "2025-01-31T00:00:00Z" then .ok 1738281600000000000
    else .error (.plain ("parsing time \"" ++ value ++ "\": cannot parse as RFC3339"))
  toLower := fun value => String.mk (value.data.map lowerChar)
  SystemPromptWithContext := fun _ => "You answer questions about point-of-sale data."

/-- A page of three sales. -/
def coffeePage : List DocumentShort :=
  [{ ID := "doc-1", Type_ := "SELL", CloseDate := "2025-01-10T09:00:00Z", StoreID := "s-1" },
   { ID := "doc-2", Type_ := "SELL", CloseDate := "2025-01-11T09:00:00Z", StoreID := "s-1" },
   { ID := "doc-3", Type_ := "SELL", CloseDate := "2025-01-12T09:00:00Z", StoreID := "s-1" }]

/-- The second document of `coffeePage` in full: its one line item is `Кофе 250г`. -/
def coffeeDocument : DocumentFull :=
  { ID := "doc-2", Type_ := "SELL", CloseDate := "2025-01-11T09:00:00Z", DeviceID := "d-7",
    StoreID := "s-1",
    Body := { Positions := [{ ProductID := "p-2", Name := "Кофе 250г", Quantity := 1,
                              Price := 450, Sum := 450 }],
              Sum := 450, Total := 450 },
    Total := 450 }

/-- The documents of `coffeePage` in full; only the second has a line item with coffee. -/
def coffeeFulls : List DocumentFull :=
  [{ ID := "doc-1", Type_ := "SELL", CloseDate := "2025-01-10T09:00:00Z", DeviceID := "d-7",
     StoreID := "s-1",
     Body := { Positions := [{ ProductID := "p-1", Name := "Чай 100г", Quantity := 2,
                               Price := 120, Sum := 240 }],
               Sum := 240, Total := 240 },
     Total := 240 },
   coffeeDocument,
   { ID := "doc-3", Type_ := "SELL", CloseDate := "2025-01-12T09:00:00Z", DeviceID := "d-7",
     StoreID := "s-1",
     Body := { Positions := [{ ProductID := "p-3", Name := "Сахар 1кг", Quantity := 1,
                               Price := 90, Sum := 90 }],
               Sum := 90, Total := 90 },
     Total := 90 }]

/-- The document of `fulls` with the given id, as `pageWorld` looks it up. -/
def fullOf (fulls : List DocumentFull) (docID : String) : DocumentFull :=
  match fulls.find? (fun d => d.ID == docID) with
  | some d => d
  | none => { ID := docID }

/-- The ids of the `GetDocument` fetches in a trace, oldest first. -/
def getDocumentFetches (trace : List Event) : List String :=
  trace.filterMap fun e =>
    match e with
    | Event.GetDocument docID _ => some docID
    | _ => none

/-! ## The conversation protocol -/

/-- Every tool call of every assistant message of the list is answered by a later
tool-result message with the same identifier. -/
def toolCallsAnswered : List Message → Bool
  | [] => true
  | m :: later =>
    (m.Role != ChatMessageRoleAssistant ||
      m.ToolCalls.all fun call =>
        later.any fun t => t.Role == ChatMessageRoleTool && t.ToolCallID == call.ID) &&
    toolCallsAnswered later

/-- The messages of each model call of a trace, oldest first. -/
def modelCallMessages (trace : List Event) : List (List Message) :=
  trace.filterMap fun e =>
    match e with
    | Event.ChatWithMessages messages => some messages
    | _ => none

/-- The store of an interactive session as `cli.go` seeds it. -/
def seededHistory : SessionHistory :=
  (NewSessionHistory defaultHistoryMaxMessages defaultHistoryMaxTokens).Append
    (SystemMessage "You answer questions about point-of-sale data.")

/-- A model that first requests two tool calls, of which the first lacks its required
arguments, and then answers with a text. -/
def scriptFailingBatch : List Message :=
  [assistantCalls [⟨"c1", "GetSalesMetrics", "\x7b\x7d"⟩, ⟨"c2", "ListStores", ""⟩],
   assistantText "Готово."]

/-- Two consecutive turns of an interactive session over `scriptFailingBatch`: the second
call of `runLLMAgent` gets the store and the world the first one left. -/
def twoTurns : AgentRun Nat :=
  let first := runLLMAgent (exampleWorld scriptFailingBatch) {} exampleClient true
    "сколько продаж" true (some seededHistory) { world := 0 }
  runLLMAgent (exampleWorld scriptFailingBatch) {} exampleClient true
    "а вчера" true first.history first.sys

/-! ## Package `evotor`: `Client.GetSalesMetrics` -/

/-- The zero `time.Time`, January 1 of year 1 at 00:00:00 UTC, in nanoseconds since the
Unix epoch. -/
def zeroTime : Time := -62135596800000000000

/-- The fields of `evotor.Client` its operations read: the token of its HTTP client and the
default store. -/
structure Client where
  Token : String
  defaultStoreID : String
  deriving DecidableEq

def Client.hasToken (c : Client) : Bool :=
  trimSpace c.Token != ""

def Client.resolveStoreID (c : Client) (storeID : Option String) : Except GoError String :=
  let resolved :=
    match storeID with
    | some v => trimSpace v
    | none => ""
  if resolved ≠ "" then .ok resolved
  else if c.defaultStoreID = "" then .error (.sentinel .ErrMissingStoreID)
  else .ok c.defaultStoreID

def pickDocumentTotal (body : DocumentBody) : Float64 :=
  if body.Total ≠ 0 then body.Total else body.Sum

/-- The statement `docTypes[key]++` on a map kept as a list of its keys in the order in
which they were first counted. -/
def countType (docTypes : List (String × Int)) (key : String) : List (String × Int) :=
  match docTypes with
  | [] => [(key, 1)]
  | (k, n) :: rest => if k = key then (k, n + 1) :: rest else (k, n) :: countType rest key

/-- The variables `count`, `totalSum` and `docTypes` of `Client.GetSalesMetrics`; the sum
is taken exactly. -/
structure salesTotals where
  count : Int := 0
  totalSum : Float64 := 0
  docTypes : List (String × Int) := []
  deriving DecidableEq

/-- The body of the loop `for _, doc := range allDocuments` of `Client.GetSalesMetrics`;
`toUpper` is `strings.ToUpper`. -/
def countDocument (toUpper : String → String) (documentType : Option String)
    (totals : salesTotals) (doc : DocumentShort) : salesTotals :=
  let total := pickDocumentTotal doc.Body
  let docType := trimSpace doc.Type_
  let docType := if docType = "" then "UNKNOWN" else docType
  let skipped :=
    match documentType with
    | some documentType =>
      decide (toUpper documentType ≠ "ALL") && decide (toUpper docType ≠ toUpper documentType)
    | none => false
  if skipped then totals
  else
    { count := totals.count + 1, totalSum := totals.totalSum + total,
      docTypes := countType totals.docTypes docType }

/-- The method `Client.GetSalesMetrics`. Its paging loop only collects the documents of the
period: `fetched` gives, for the resolved store and the period, the slice `allDocuments` the
loop ends with or the error of the `doGet` that failed; `format` is
`t.Format(time.RFC3339)`. -/
def Client.GetSalesMetrics (c : Client) (toUpper : String → String) (format : Time → String)
    (fetched : String → Time → Time → Except GoError (List DocumentShort))
    (from_ to_ : Time) (storeID documentType : Option String) : Except GoError SalesMetrics :=
  if !c.hasToken then .error (.sentinel .ErrMissingToken)
  else
    match c.resolveStoreID storeID with
    | .error err => .error err
    | .ok resolvedStoreID =>
      match fetched resolvedStoreID from_ to_ with
      | .error err => .error err
      | .ok allDocuments =>
        let totals := allDocuments.foldl (countDocument toUpper documentType) {}
        .ok { Count := totals.count, TotalSum := totals.totalSum, StoreID := resolvedStoreID,
              From := if from_ ≠ zeroTime then format from_ else "",
              To := if to_ ≠ zeroTime then format to_ else "",
              DocumentTypes := totals.docTypes }

/-- The decoded arguments of a `GetSalesMetrics` call for January 2025 that names no
document type. -/
def januaryArgs : Args :=
  [("from", JVal.str "2025-01-01T00:00:00Z"), ("to", JVal.str "2025-01-31T00:00:00Z")]

/-- A sale of 100 and a refund of 50. -/
def saleAndPayback : List DocumentShort :=
  [{ ID := "doc-1", Type_ := "SELL", CloseDate := "2025-01-10T09:00:00Z", StoreID := "s-1",
     Body := { Sum := 100, Total := 100 } },
   { ID := "doc-2", Type_ := "PAYBACK", CloseDate := "2025-01-11T09:00:00Z", StoreID := "s-1",
     Body := { Sum := 50, Total := 50 } }]

/-- The world `pageWorld` whose `GetSalesMetrics` is that of a client with a token and the
default store `s-1`, over a store that returns `docs` for every period; it has ASCII
upper-casing and the texts of the two timestamps of the examples. -/
def salesWorld (docs : List DocumentShort) : World Nat :=
  { pageWorld docs [] with
    GetSalesMetrics := fun n from_ to_ storeID documentType =>
      (Client.GetSalesMetrics { Token := "token", defaultStoreID := "s-1" }
        (fun value => String.mk (value.data.map Char.toUpper))
        (fun t =>
          if t = 1735689600000000000 then "2025-01-01T00:00:00Z"
          else if t = 1738281600000000000 then "2025-01-31T00:00:00Z"
          else "")
        (fun _ _ _ => .ok docs) from_ to_ storeID documentType, n) }

/-! ## `utils.go`: the period of a query -/

def defaultPeriodDays : Int := 7

structure periodRange where
  From : Time
  To : Time
  deriving DecidableEq

/-- The nanoseconds of a day of 24 hours. -/
def nanosPerDay : Int := 86400000000000

/-- The call `t.AddDate(0, 0, days)`: the same wall clock `days` days later. The location
of the times of `resolvePeriod` is taken to keep one offset from UTC over the days
involved, so that each day has 24 hours. -/
def addDays (t : Time) (days : Int) : Time :=
  t + days * nanosPerDay

/-- The function `startOfDay` for a location `offset` nanoseconds east of UTC: the local
midnight at or before `t`. -/
def startOfDay (offset : Int) (t : Time) : Time :=
  t - (t + offset) % nanosPerDay

/-- The function `endOfDay`: 23:59:59.999999999 of the local day of `t`. -/
def endOfDay (offset : Int) (t : Time) : Time :=
  startOfDay offset t + (nanosPerDay - 1)

/-- The function `parsePeriodFromFlags`; `parseDate` is `time.ParseInLocation` with the
layout `2006-01-02` and `now` the time of its calls of `time.Now`. -/
def parsePeriodFromFlags (parseDate : String → Except GoError Time) (now : Time)
    (offset : Int) (opts : Options) : Except GoError (periodRange × String) :=
  let parsedFrom : Except GoError Time :=
    if opts.From ≠ "" then
      match parseDate opts.From with
      | .error err => .error (.wrap ("invalid --from date: " ++ err.Error) err)
      | .ok v => .ok (startOfDay offset v)
    else .ok zeroTime
  match parsedFrom with
  | .error err => .error err
  | .ok from_ =>
    let parsedTo : Except GoError Time :=
      if opts.To ≠ "" then
        match parseDate opts.To with
        | .error err => .error (.wrap ("invalid --to date: " ++ err.Error) err)
        | .ok v => .ok (endOfDay offset v)
      else .ok zeroTime
    match parsedTo with
    | .error err => .error err
    | .ok to_ =>
      let from_ := if from_ = zeroTime then addDays now (-defaultPeriodDays) else from_
      let to_ := if to_ = zeroTime then now else to_
      if to_ < from_ then .error (.plain "--to must be after --from")
      else .ok ({ From := from_, To := to_ }, "")

/-- The function `resolvePeriod`, with the time `now` of its call of `time.Now` and the
offset of its location as parameters. `toLower` is `strings.ToLower`; `monthPeriod` is the
part that follows the `switch`, up to the return of a month (`detectMonth`, `detectYear`
and the calendar arithmetic of `time.Date`): the period and the hint of the month named in
the lower-cased query, if it names one. -/
def resolvePeriod (toLower : String → String) (parseDate : String → Except GoError Time)
    (monthPeriod : String → Time → Option (periodRange × String)) (now : Time)
    (offset : Int) (query : String) (opts : Options) (_interactive : Bool) :
    Except GoError (periodRange × String) :=
  if opts.From ≠ "" ∨ opts.To ≠ "" then parsePeriodFromFlags parseDate now offset opts
  else
    let lower := toLower query
    if stringsContains lower "вчера" then
      let start := startOfDay offset (addDays now (-1))
      let end_ := endOfDay offset (addDays now (-1))
      .ok ({ From := start, To := end_ }, "")
    else if stringsContains lower "сегодня" then
      let start := startOfDay offset now
      .ok ({ From := start, To := now }, "")
    else if stringsContains lower "позавчера" then
      let start := startOfDay offset (addDays now (-2))
      let end_ := endOfDay offset (addDays now (-2))
      .ok ({ From := start, To := end_ }, "")
    else if stringsContains lower "недел" then
      let to_ := now
      let from_ := addDays now (-defaultPeriodDays)
      .ok ({ From := from_, To := to_ }, "")
    else
      match monthPeriod lower now with
      | some r => .ok r
      | none =>
        let to_ := now
        let from_ := addDays now (-defaultPeriodDays)
        .ok ({ From := from_, To := to_ }, "Период не указан, использованы последние 7 дней.")

/-- Lower-casing of a text by `lowerChar`. -/
def lowerText (value : String) : String :=
  String.mk (value.data.map lowerChar)

/-! # Theorems

## The conversation store -/

theorem trimOldestNonSystem_length_le (msgs : List Message) :
    (trimOldestNonSystem msgs).length ≤ msgs.length := by
  unfold trimOldestNonSystem
  cases msgs with
  | nil => simp
  | cons m0 rest =>
    simp only
    split_ifs <;> simp

theorem trimOldestNonSystem_length (msgs : List Message) (h : 1 < msgs.length) :
    (trimOldestNonSystem msgs).length = msgs.length - 1 := by
  unfold trimOldestNonSystem
  cases msgs with
  | nil => simp at h
  | cons m0 rest =>
    simp only
    split_ifs with h1 h2
    · omega
    · simp at h ⊢; omega
    · simp

theorem overTokenCap_length {maxTokens : Int} {msgs : List Message}
    (h : overTokenCap maxTokens msgs = true) : 1 < msgs.length := by
  simp [overTokenCap] at h
  exact h.1

theorem tokenCapLoop_length_le (maxTokens : Int) (fuel : Nat) (msgs : List Message) :
    (tokenCapLoop maxTokens fuel msgs).length ≤ msgs.length := by
  induction fuel generalizing msgs with
  | zero => simp [tokenCapLoop]
  | succ n ih =>
    simp only [tokenCapLoop]
    split_ifs with h
    · exact le_trans (ih _) (trimOldestNonSystem_length_le msgs)
    · exact le_refl _

theorem tokenCapLoop_stops (maxTokens : Int) (fuel : Nat) (msgs : List Message)
    (h : msgs.length ≤ fuel) :
    overTokenCap maxTokens (tokenCapLoop maxTokens fuel msgs) = false := by
  induction fuel generalizing msgs with
  | zero =>
    have : msgs.length = 0 := by omega
    simp [tokenCapLoop, overTokenCap, this]
  | succ n ih =>
    simp only [tokenCapLoop]
    split_ifs with hc
    · apply ih
      have := trimOldestNonSystem_length msgs (overTokenCap_length hc)
      omega
    · simpa using hc

theorem tokenCapLoop_iterate (maxTokens : Int) (fuel : Nat) (msgs : List Message) :
    ∃ n, n ≤ fuel ∧ tokenCapLoop maxTokens fuel msgs = trimOldestNonSystem^[n] msgs ∧
      ∀ k, k < n → overTokenCap maxTokens (trimOldestNonSystem^[k] msgs) = true := by
  induction fuel generalizing msgs with
  | zero => exact ⟨0, le_refl _, rfl, fun k hk => absurd hk (Nat.not_lt_zero k)⟩
  | succ n ih =>
    simp only [tokenCapLoop]
    split_ifs with hc
    · obtain ⟨j, hj, he, hall⟩ := ih (trimOldestNonSystem msgs)
      refine ⟨j + 1, by omega, ?_, ?_⟩
      · rw [he, Function.iterate_succ_apply]
      · intro k hk
        cases k with
        | zero => simpa using hc
        | succ k =>
          rw [Function.iterate_succ_apply]
          exact hall k (by omega)
    · exact ⟨0, Nat.zero_le _, rfl, fun k hk => absurd hk (Nat.not_lt_zero k)⟩

theorem trimByCount_length_le (msgs : List Message) (max : Int) (h : 1 ≤ max) :
    ((trimByCount msgs max).length : Int) ≤ max := by
  unfold trimByCount
  split_ifs with h1 h2
  · exact h1
  · simp; omega
  · cases msgs with
    | nil => simp; omega
    | cons m0 rest =>
      simp only
      split_ifs with h3 h4 h5
      · simp; omega
      · simp at h1 h5 ⊢; omega
      · simp at h1 ⊢; omega
      · simp at h1 ⊢; omega

theorem trimByCount_ne_nil (msgs : List Message) (max : Int) (h : 1 ≤ max) (hne : msgs ≠ []) :
    trimByCount msgs max ≠ [] := by
  unfold trimByCount
  split_ifs with h1 h2
  · exact hne
  · rcases h2 with h2 | h2
    · exact absurd (List.length_eq_zero.mp h2) hne
    · omega
  · cases msgs with
    | nil => exact absurd rfl hne
    | cons m0 rest =>
      simp only
      split_ifs with h3 h4 h5
      · simp
      · simp
      · simp
      · intro hnil
        have := congrArg List.length hnil
        simp at h1 this
        omega

theorem trimOldestNonSystem_ne_nil (msgs : List Message) (h : 1 < msgs.length) :
    trimOldestNonSystem msgs ≠ [] := by
  intro hnil
  have := trimOldestNonSystem_length msgs h
  rw [hnil] at this
  simp at this
  omega

theorem tokenCapLoop_ne_nil (maxTokens : Int) (fuel : Nat) (msgs : List Message)
    (hne : msgs ≠ []) : tokenCapLoop maxTokens fuel msgs ≠ [] := by
  induction fuel generalizing msgs with
  | zero => simpa [tokenCapLoop] using hne
  | succ n ih =>
    simp only [tokenCapLoop]
    split_ifs with hc
    · exact ih _ (trimOldestNonSystem_ne_nil msgs (overTokenCap_length hc))
    · exact hne

theorem trimByCount_head (s : Message) (rest : List Message) (max : Int) (h : 0 < max)
    (hs : s.Role = ChatMessageRoleSystem) :
    (trimByCount (s :: rest) max).head? = some s := by
  unfold trimByCount
  split_ifs with h1 h2
  · rfl
  · rcases h2 with h2 | h2
    · simp at h2
    · omega
  · simp [hs]
    split_ifs <;> simp

theorem trimOldestNonSystem_head (s : Message) (rest : List Message)
    (hs : s.Role = ChatMessageRoleSystem) :
    (trimOldestNonSystem (s :: rest)).head? = some s := by
  simp only [trimOldestNonSystem, hs, if_true]
  split_ifs <;> simp

theorem tokenCapLoop_head (maxTokens : Int) (fuel : Nat) (s : Message) (msgs : List Message)
    (hs : s.Role = ChatMessageRoleSystem) (hh : msgs.head? = some s) :
    (tokenCapLoop maxTokens fuel msgs).head? = some s := by
  induction fuel generalizing msgs with
  | zero => simpa [tokenCapLoop] using hh
  | succ n ih =>
    simp only [tokenCapLoop]
    split_ifs with hc
    · apply ih
      cases msgs with
      | nil => simp at hh
      | cons a rest =>
        simp at hh
        subst hh
        exact trimOldestNonSystem_head a rest hs
    · exact hh

theorem countCapped_head (h : SessionHistory) (s : Message) (rest : List Message)
    (hm : h.messages = s :: rest) (hs : s.Role = ChatMessageRoleSystem) :
    (countCapped h).head? = some s := by
  unfold countCapped
  split_ifs with hc
  · rw [hm]; exact trimByCount_head s rest _ hc.1 hs
  · rw [hm]; rfl

theorem enforceLimits_head (h : SessionHistory) (s : Message) (rest : List Message)
    (hm : h.messages = s :: rest) (hs : s.Role = ChatMessageRoleSystem) :
    h.enforceLimits.messages.head? = some s := by
  have hc := countCapped_head h s rest hm hs
  simp only [SessionHistory.enforceLimits]
  split_ifs
  · exact tokenCapLoop_head _ _ s _ hs hc
  · exact hc

theorem countCapped_length_le (h : SessionHistory) (hmax : 1 ≤ h.maxMessages) :
    ((countCapped h).length : Int) ≤ h.maxMessages := by
  unfold countCapped
  split_ifs with hc
  · exact trimByCount_length_le _ _ hmax
  · by_contra hlt
    exact hc ⟨by omega, by omega⟩

theorem countCapped_ne_nil (h : SessionHistory) (hmax : 1 ≤ h.maxMessages)
    (hne : h.messages ≠ []) : countCapped h ≠ [] := by
  unfold countCapped
  split_ifs with hc
  · exact trimByCount_ne_nil _ _ hmax hne
  · exact hne

theorem Append_length_le (h : SessionHistory) (m : Message) (hmax : 1 ≤ h.maxMessages) :
    (((h.Append m).messages.length : Nat) : Int) ≤ h.maxMessages := by
  have hc := countCapped_length_le { h with messages := h.messages ++ [m] } hmax
  simp only [SessionHistory.Append, SessionHistory.enforceLimits]
  split_ifs
  · have := tokenCapLoop_length_le h.maxTokens
      (countCapped { h with messages := h.messages ++ [m] }).length
      (countCapped { h with messages := h.messages ++ [m] })
    simp only at hc ⊢
    omega
  · exact hc

theorem Append_maxMessages (h : SessionHistory) (m : Message) :
    (h.Append m).maxMessages = h.maxMessages := rfl

theorem Append_maxTokens (h : SessionHistory) (m : Message) :
    (h.Append m).maxTokens = h.maxTokens := rfl

theorem appendAll_caps (h : SessionHistory) (ms : List Message) :
    (appendAll h ms).maxMessages = h.maxMessages ∧ (appendAll h ms).maxTokens = h.maxTokens := by
  induction ms generalizing h with
  | nil => exact ⟨rfl, rfl⟩
  | cons a rest ih =>
    have := ih (h.Append a)
    simpa [appendAll] using this

theorem NewSessionHistory_caps (maxMessages maxTokens : Int) :
    1 ≤ (NewSessionHistory maxMessages maxTokens).maxMessages ∧
    1 ≤ (NewSessionHistory maxMessages maxTokens).maxTokens := by
  simp only [NewSessionHistory, defaultHistoryMaxMessages, defaultHistoryMaxTokens]
  constructor <;> split_ifs <;> omega

/-! ## Claims about the conversation store -/

/-- C2: for every store created by `NewSessionHistory` and every finite sequence of
`Append` calls, the number of stored messages after each `Append` is at most
`maxMessages`. -/
theorem C2_append_length_le_maxMessages (maxMessages maxTokens : Int) (ms : List Message)
    (m : Message) :
    (((appendAll (NewSessionHistory maxMessages maxTokens) ms).Append m).messages.length : Int)
      ≤ (NewSessionHistory maxMessages maxTokens).maxMessages := by
  have hcaps := appendAll_caps (NewSessionHistory maxMessages maxTokens) ms
  have hnew := NewSessionHistory_caps maxMessages maxTokens
  have := Append_length_le (appendAll (NewSessionHistory maxMessages maxTokens) ms) m
    (by rw [hcaps.1]; exact hnew.1)
  rw [hcaps.1] at this
  exact this

/-- C3: for every store created by `NewSessionHistory` and every finite sequence of
`Append` calls, the token-trimming loop of `enforceLimits` terminates: started on the list
`pre` left by the count cap, its condition holds for the first `n` iterates of
`trimOldestNonSystem` and fails on the `n`-th, for some `n` at most the length of `pre`, and
that iterate is what `Append` stores. After each `Append` either `estimateTokens` of the
stored messages is at most `maxTokens` or the store holds exactly one message. -/
theorem C3_append_token_cap (maxMessages maxTokens : Int) (ms : List Message) (m : Message) :
    let h0 := appendAll (NewSessionHistory maxMessages maxTokens) ms
    let pre := countCapped { h0 with messages := h0.messages ++ [m] }
    (∃ n, n ≤ pre.length ∧
      (∀ k, k < n → overTokenCap h0.maxTokens (trimOldestNonSystem^[k] pre) = true) ∧
      overTokenCap h0.maxTokens (trimOldestNonSystem^[n] pre) = false ∧
      (h0.Append m).messages = trimOldestNonSystem^[n] pre) ∧
    (estimateTokens (h0.Append m).messages ≤ (h0.Append m).maxTokens ∨
      (h0.Append m).messages.length = 1) := by
  intro h0 pre
  have hcaps := appendAll_caps (NewSessionHistory maxMessages maxTokens) ms
  have hnew := NewSessionHistory_caps maxMessages maxTokens
  have hmm : 1 ≤ h0.maxMessages := by rw [hcaps.1]; exact hnew.1
  have hmt : 0 < h0.maxTokens := by
    have : 1 ≤ h0.maxTokens := by rw [hcaps.2]; exact hnew.2
    omega
  have hres : (h0.Append m).messages = tokenCapLoop h0.maxTokens pre.length pre := by
    simp only [SessionHistory.Append, SessionHistory.enforceLimits, if_pos hmt]
  have hstop := tokenCapLoop_stops h0.maxTokens pre.length pre (le_refl _)
  have hne : pre ≠ [] :=
    countCapped_ne_nil { h0 with messages := h0.messages ++ [m] } hmm (by simp)
  have hne2 := tokenCapLoop_ne_nil h0.maxTokens pre.length pre hne
  obtain ⟨n, hn, he, hall⟩ := tokenCapLoop_iterate h0.maxTokens pre.length pre
  refine ⟨⟨n, hn, hall, ?_, ?_⟩, ?_⟩
  · rw [← he]; exact hstop
  · rw [hres, he]
  · rw [hres, Append_maxTokens]
    simp only [overTokenCap, Bool.and_eq_false_iff, decide_eq_false_iff_not] at hstop
    rcases hstop with hlen | htok
    · right
      have : (tokenCapLoop h0.maxTokens pre.length pre).length ≠ 0 := by
        intro h0len
        exact hne2 (List.length_eq_zero.mp h0len)
      omega
    · left
      omega

/-- C4: for every store whose first message has role `system` and every message `m`, after
`Append(m)` the first stored message is still that same system message; neither
`trimByCount` (called, as `enforceLimits` does, with a positive cap) nor
`trimOldestNonSystem` removes or replaces index 0 when it is a system message. -/
theorem C4_append_keeps_system_head (h : SessionHistory) (s : Message) (rest : List Message)
    (m : Message) (hm : h.messages = s :: rest) (hs : s.Role = ChatMessageRoleSystem) :
    (h.Append m).messages.head? = some s ∧
    (∀ max : Int, 0 < max → (trimByCount (s :: rest) max).head? = some s) ∧
    (trimOldestNonSystem (s :: rest)).head? = some s := by
  refine ⟨?_, fun max hmax => trimByCount_head s rest max hmax hs,
    trimOldestNonSystem_head s rest hs⟩
  exact enforceLimits_head { h with messages := h.messages ++ [m] } s (rest ++ [m])
    (by simp [hm]) hs

/-- C4 at a concrete store: with caps of 2 messages and 3 tokens, appending a user message
to `[system, user]` evicts the old user message and keeps the system message first. -/
theorem C4_append_keeps_system_head_witness :
    (({ messages := [SystemMessage "be brief", UserMessage "first question"],
        maxMessages := 2, maxTokens := 3 } : SessionHistory).Append
        (UserMessage "second")).messages.head? = some (SystemMessage "be brief") ∧
    (∀ max : Int, 0 < max →
      (trimByCount [SystemMessage "be brief", UserMessage "first question"] max).head?
        = some (SystemMessage "be brief")) ∧
    (trimOldestNonSystem [SystemMessage "be brief", UserMessage "first question"]).head?
      = some (SystemMessage "be brief") :=
  C4_append_keeps_system_head
    { messages := [SystemMessage "be brief", UserMessage "first question"],
      maxMessages := 2, maxTokens := 3 }
    (SystemMessage "be brief") [UserMessage "first question"] (UserMessage "second") rfl rfl

/-! ## The trace of a run -/

theorem modelCalls_append (a b : List Event) :
    modelCalls (a ++ b) = modelCalls a + modelCalls b := by
  simp [modelCalls, List.countP_append]

theorem facadeOnly_refl {σ : Type} (s : Sys σ) : FacadeOnly s s :=
  ⟨[], by simp, rfl⟩

theorem facadeOnly_trans {σ : Type} {a b c : Sys σ} (h1 : FacadeOnly a b)
    (h2 : FacadeOnly b c) : FacadeOnly a c := by
  obtain ⟨n1, e1, c1⟩ := h1
  obtain ⟨n2, e2, c2⟩ := h2
  refine ⟨n1 ++ n2, ?_, ?_⟩
  · rw [e2, e1, List.append_assoc]
  · rw [modelCalls_append, c1, c2]

theorem callGetSalesMetrics_facadeOnly {σ : Type} (W : World σ) (a b : Time)
    (st dt : Option String) (s : Sys σ) :
    FacadeOnly s (callGetSalesMetrics W a b st dt s).2 :=
  ⟨[Event.GetSalesMetrics a b st dt], rfl, rfl⟩

theorem callListStores_facadeOnly {σ : Type} (W : World σ) (s : Sys σ) :
    FacadeOnly s (callListStores W s).2 :=
  ⟨[Event.ListStores], rfl, rfl⟩

theorem callSearchItems_facadeOnly {σ : Type} (W : World σ) (q : String) (l : Int)
    (st : Option String) (s : Sys σ) : FacadeOnly s (callSearchItems W q l st s).2 :=
  ⟨[Event.SearchItems q l st], rfl, rfl⟩

theorem callSearchDocuments_facadeOnly {σ : Type} (W : World σ) (a b : Time)
    (st : Option String) (l o : Int) (s : Sys σ) :
    FacadeOnly s (callSearchDocuments W a b st l o s).2 :=
  ⟨[Event.SearchDocuments a b st l o], rfl, rfl⟩

theorem callGetDocument_facadeOnly {σ : Type} (W : World σ) (d : String)
    (st : Option String) (s : Sys σ) : FacadeOnly s (callGetDocument W d st s).2 :=
  ⟨[Event.GetDocument d st], rfl, rfl⟩

theorem trackCall_facadeOnly {σ α : Type} (W : World σ) (name : String) (args : Args)
    (fn : Sys σ → Except GoError α × Sys σ) (s : Sys σ) (h : FacadeOnly s (fn s).2) :
    FacadeOnly s (trackCall W name args fn s).2 := h

theorem filterDocumentsByItemLoop_facadeOnly {σ : Type} (W : World σ)
    (storeID needle : String) (docs hits : List DocumentShort) (s : Sys σ) :
    FacadeOnly s (filterDocumentsByItemLoop W storeID needle docs hits s).2 := by
  induction docs generalizing hits s with
  | nil => exact facadeOnly_refl s
  | cons doc rest ih =>
    have h1 : FacadeOnly s (callGetDocument W doc.ID (optionalString storeID) s).2 :=
      callGetDocument_facadeOnly W _ _ s
    simp only [filterDocumentsByItemLoop, trackCall]
    split
    · exact h1
    · split_ifs
      · exact h1
      · exact facadeOnly_trans h1 (ih _ _)
      · exact facadeOnly_trans h1 (ih _ _)

theorem filterDocumentsByItem_facadeOnly {σ : Type} (W : World σ) (storeID : String)
    (docs : List DocumentShort) (itemQuery : String) (s : Sys σ) :
    FacadeOnly s (filterDocumentsByItem W storeID docs itemQuery s).2 := by
  simp only [filterDocumentsByItem]
  split_ifs
  · exact facadeOnly_refl s
  · exact filterDocumentsByItemLoop_facadeOnly W _ _ _ _ s

theorem dispatchToolCall_facadeOnly {σ : Type} (W : World σ) (opts : Options)
    (name : String) (args : Args) (s : Sys σ) :
    FacadeOnly s (dispatchToolCall W opts name args s).2 := by
  unfold dispatchToolCall
  split
  · split
    · exact facadeOnly_refl s
    · split
      · exact facadeOnly_refl s
      · exact callGetSalesMetrics_facadeOnly W _ _ _ _ s
  · exact callListStores_facadeOnly W s
  · exact callSearchItems_facadeOnly W _ _ _ s
  · split
    · exact facadeOnly_refl s
    · split
      · exact facadeOnly_refl s
      · simp only
        split_ifs
        · exact callSearchDocuments_facadeOnly W _ _ _ _ _ s
        · split
          · exact callSearchDocuments_facadeOnly W _ _ _ _ _ s
          · split
            · refine facadeOnly_trans ?_ (filterDocumentsByItem_facadeOnly W _ _ _ _)
              exact callSearchDocuments_facadeOnly W _ _ _ _ _ s
            · refine facadeOnly_trans ?_ (filterDocumentsByItem_facadeOnly W _ _ _ _)
              exact callSearchDocuments_facadeOnly W _ _ _ _ _ s
  · exact callGetDocument_facadeOnly W _ _ s
  · exact facadeOnly_refl s

theorem executeToolCallsLoop_facadeOnly {σ : Type} (W : World σ) (opts : Options)
    (calls : List ToolCall) (tm : List Message) (rc : List toolCallRecord) (s : Sys σ) :
    FacadeOnly s (executeToolCallsLoop W opts calls tm rc s).2 := by
  induction calls generalizing tm rc s with
  | nil => exact facadeOnly_refl s
  | cons call rest ih =>
    simp only [executeToolCallsLoop]
    split
    · exact ih _ _ _
    · split
      · exact dispatchToolCall_facadeOnly W opts _ _ s
      · split
        · exact dispatchToolCall_facadeOnly W opts _ _ s
        · exact facadeOnly_trans (dispatchToolCall_facadeOnly W opts _ _ s) (ih _ _ _)

theorem executeToolCalls_facadeOnly {σ : Type} (W : World σ) (evotorClient : Bool)
    (opts : Options) (calls : List ToolCall) (s : Sys σ) :
    FacadeOnly s (executeToolCalls W evotorClient opts calls s).2 := by
  simp only [executeToolCalls]
  split_ifs
  · exact facadeOnly_refl s
  · exact executeToolCallsLoop_facadeOnly W opts calls [] [] s

theorem ChatWithMessages_trace {σ : Type} (W : World σ) (c : Option LLMClient)
    (messages : List Message) (s : Sys σ) :
    (ChatWithMessages W c messages s).2.trace
      = s.trace ++ [Event.ChatWithMessages messages] := by
  simp only [ChatWithMessages]
  split
  · rfl
  · split_ifs <;> rfl

theorem runLLMAgentLoop_trace {σ : Type} (W : World σ) (opts : Options)
    (llmClient : Option LLMClient) (evotorClient : Bool) (query : String) (remaining : Nat)
    (history : Option SessionHistory) (messages : List Message)
    (toolCalls : List toolCallRecord) (s : Sys σ) :
    ∃ new,
      (runLLMAgentLoop W opts llmClient evotorClient query remaining history messages
        toolCalls s).sys.trace = s.trace ++ new ∧ modelCalls new ≤ remaining := by
  induction remaining generalizing history messages toolCalls s with
  | zero => exact ⟨[], by simp [runLLMAgentLoop], by simp [modelCalls]⟩
  | succ n ih =>
    have one : ∀ msgs : List Message, modelCalls [Event.ChatWithMessages msgs] = 1 :=
      fun _ => rfl
    simp only [runLLMAgentLoop]
    generalize roundMessages history messages = snap
    split
    · exact ⟨_, ChatWithMessages_trace W llmClient _ s, by rw [one]; omega⟩
    · split
      · exact ⟨_, ChatWithMessages_trace W llmClient _ s, by rw [one]; omega⟩
      · rename_i msg rest hch
        by_cases htc : msg.ToolCalls.length = 0
        · rw [if_pos htc]
          exact ⟨_, ChatWithMessages_trace W llmClient _ s, by rw [one]; omega⟩
        · rw [if_neg htc]
          obtain ⟨fnew, hf, hf0⟩ := executeToolCalls_facadeOnly W evotorClient opts
            msg.ToolCalls (ChatWithMessages W llmClient snap s).2
          rw [ChatWithMessages_trace] at hf
          split
          · refine ⟨_, hf.trans (List.append_assoc _ _ _), ?_⟩
            rw [modelCalls_append, one, hf0]; omega
          · obtain ⟨rnew, hr, hrn⟩ := ih
              (if 0 < (executeToolCalls W evotorClient opts msg.ToolCalls
                    (ChatWithMessages W llmClient snap s).2).1.1.length then
                  (history.map (fun h => h.Append msg)).map (fun h => appendAll h
                    (executeToolCalls W evotorClient opts msg.ToolCalls
                      (ChatWithMessages W llmClient snap s).2).1.1)
                else history.map (fun h => h.Append msg))
              _ (toolCalls ++ (executeToolCalls W evotorClient opts msg.ToolCalls
                    (ChatWithMessages W llmClient snap s).2).1.2.1)
              (executeToolCalls W evotorClient opts msg.ToolCalls
                (ChatWithMessages W llmClient snap s).2).2
            refine ⟨[Event.ChatWithMessages snap] ++ fnew ++ rnew, ?_, ?_⟩
            · rw [hr, hf]; simp [List.append_assoc]
            · rw [modelCalls_append, modelCalls_append, one, hf0]; omega

/-! ## Claims about the round loop -/

/-- C1: for every behaviour of the model and of the data facade, one call of `runLLMAgent`
makes at most 4 (`maxToolRounds`) model calls (`ChatWithMessages`) and returns: the calls
it adds to the trace hold at most 4 model calls. -/
theorem C1_runLLMAgent_model_calls_le {σ : Type} (W : World σ) (opts : Options)
    (llmClient : Option LLMClient) (evotorClient : Bool) (query : String)
    (interactive : Bool) (history : Option SessionHistory) (s : Sys σ) :
    ∃ new,
      (runLLMAgent W opts llmClient evotorClient query interactive history s).sys.trace
        = s.trace ++ new ∧
      modelCalls new ≤ 4 := by
  simp only [runLLMAgent]
  split_ifs
  · exact ⟨[], by simp, by simp [modelCalls]⟩
  · split
    · exact runLLMAgentLoop_trace W opts llmClient evotorClient query maxToolRounds _ _ _ s
    · exact runLLMAgentLoop_trace W opts llmClient evotorClient query maxToolRounds _ _ _ s

theorem runLLMAgentLoop_dispatch_error {σ : Type} (W : World σ) (opts : Options)
    (llmClient : Option LLMClient) (evotorClient : Bool) (query : String) (n : Nat)
    (history : Option SessionHistory) (messages : List Message)
    (toolCalls : List toolCallRecord) (s : Sys σ) (resp : ChatCompletionResponse)
    (msg : Message) (others : List Message) (err : GoError)
    (hresp : (ChatWithMessages W llmClient (roundMessages history messages) s).1 = .ok resp)
    (hch : resp.Choices = msg :: others) (htc : msg.ToolCalls ≠ [])
    (herr : (executeToolCalls W evotorClient opts msg.ToolCalls
      (ChatWithMessages W llmClient (roundMessages history messages) s).2).1.2.2 = some err) :
    (runLLMAgentLoop W opts llmClient evotorClient query (n + 1) history messages toolCalls
        s).result
      = .ok { Query := query, AnswerText := friendlyEvotorError (some err),
              ToolCalls := toolCalls ++ (executeToolCalls W evotorClient opts msg.ToolCalls
                (ChatWithMessages W llmClient (roundMessages history messages) s).2).1.2.1 } ∧
    (runLLMAgentLoop W opts llmClient evotorClient query (n + 1) history messages toolCalls
        s).sys
      = (executeToolCalls W evotorClient opts msg.ToolCalls
          (ChatWithMessages W llmClient (roundMessages history messages) s).2).2 := by
  have hlen : ¬ msg.ToolCalls.length = 0 := fun h => htc (List.length_eq_zero.mp h)
  constructor <;> simp only [runLLMAgentLoop, hresp, hch, if_neg hlen, herr]

theorem runLLMAgentLoop_final_answer {σ : Type} (W : World σ) (opts : Options)
    (llmClient : Option LLMClient) (evotorClient : Bool) (query : String) (n : Nat)
    (history : Option SessionHistory) (messages : List Message)
    (toolCalls : List toolCallRecord) (s : Sys σ) (resp : ChatCompletionResponse)
    (msg : Message) (others : List Message)
    (hresp : (ChatWithMessages W llmClient (roundMessages history messages) s).1 = .ok resp)
    (hch : resp.Choices = msg :: others) (htc : msg.ToolCalls = []) :
    runLLMAgentLoop W opts llmClient evotorClient query (n + 1) history messages toolCalls s
      = { result := .ok { Query := query, AnswerText := trimSpace msg.Text,
                          ToolCalls := toolCalls, NextStep := "" },
          history := history.map (fun h => h.Append msg),
          sys := (ChatWithMessages W llmClient (roundMessages history messages) s).2 } := by
  have hlen : msg.ToolCalls.length = 0 := by rw [htc]; rfl
  simp only [runLLMAgentLoop, hresp, hch, if_pos hlen]

/-- C9: in every round in which `executeToolCalls` returns an error `err`, `runLLMAgent`
returns a nil error and a response whose answer is `friendlyEvotorError(err)`, whose query
is the user's query and whose tool calls are the records accumulated so far followed by
those of the failing round; it ends in the state `executeToolCalls` left, having made the
one model call of this round and no further one. -/
theorem C9_dispatch_error_ends_turn {σ : Type} (W : World σ) (opts : Options)
    (llmClient : Option LLMClient) (evotorClient : Bool) (query : String) (n : Nat)
    (history : Option SessionHistory) (messages : List Message)
    (toolCalls : List toolCallRecord) (s : Sys σ) (resp : ChatCompletionResponse)
    (msg : Message) (others : List Message) (err : GoError)
    (hresp : (ChatWithMessages W llmClient (roundMessages history messages) s).1 = .ok resp)
    (hch : resp.Choices = msg :: others) (htc : msg.ToolCalls ≠ [])
    (herr : (executeToolCalls W evotorClient opts msg.ToolCalls
      (ChatWithMessages W llmClient (roundMessages history messages) s).2).1.2.2 = some err) :
    (runLLMAgentLoop W opts llmClient evotorClient query (n + 1) history messages toolCalls
        s).result
      = .ok { Query := query, AnswerText := friendlyEvotorError (some err),
              ToolCalls := toolCalls ++ (executeToolCalls W evotorClient opts msg.ToolCalls
                (ChatWithMessages W llmClient (roundMessages history messages) s).2).1.2.1 } ∧
    (runLLMAgentLoop W opts llmClient evotorClient query (n + 1) history messages toolCalls
        s).sys
      = (executeToolCalls W evotorClient opts msg.ToolCalls
          (ChatWithMessages W llmClient (roundMessages history messages) s).2).2 ∧
    modelCalls (runLLMAgentLoop W opts llmClient evotorClient query (n + 1) history messages
        toolCalls s).sys.trace = modelCalls s.trace + 1 := by
  obtain ⟨h1, h2⟩ := runLLMAgentLoop_dispatch_error W opts llmClient evotorClient query n
    history messages toolCalls s resp msg others err hresp hch htc herr
  refine ⟨h1, h2, ?_⟩
  obtain ⟨fnew, hf, hf0⟩ := executeToolCalls_facadeOnly W evotorClient opts msg.ToolCalls
    (ChatWithMessages W llmClient (roundMessages history messages) s).2
  rw [h2, hf, ChatWithMessages_trace, modelCalls_append, modelCalls_append, hf0]
  rfl

/-- C9 on the example world, in the first round of a one-shot `runLLMAgent`: the model
requests `SearchItems`, the facade fails with `ErrMissingStoreID`, and the turn ends after
that one model call with the friendly text for a missing store id and the failed record. -/
theorem C9_dispatch_error_ends_turn_witness :
    (runLLMAgent (exampleWorld [assistantCalls [⟨"c1", "SearchItems", ""⟩]]) {}
        exampleClient true "найди кофе" false none { world := 0 }).result
      = .ok { Query := "найди кофе",
              AnswerText := "Нужен store_id: укажите --store-id или EVOTOR_STORE_ID.",
              ToolCalls := [{ Name := "SearchItems", Args := [], MS := 0, OK := false,
                              Err := "evotor store id is required" }] } ∧
    (runLLMAgent (exampleWorld [assistantCalls [⟨"c1", "SearchItems", ""⟩]]) {}
        exampleClient true "найди кофе" false none { world := 0 }).sys
      = { world := 1,
          trace := [Event.ChatWithMessages
                      [SystemMessage "You answer questions about point-of-sale data.",
                       UserMessage "найди кофе"],
                    Event.SearchItems "" 10 none] } ∧
    modelCalls (runLLMAgent (exampleWorld [assistantCalls [⟨"c1", "SearchItems", ""⟩]]) {}
        exampleClient true "найди кофе" false none { world := 0 }).sys.trace = 0 + 1 :=
  C9_dispatch_error_ends_turn (exampleWorld [assistantCalls [⟨"c1", "SearchItems", ""⟩]]) {}
    exampleClient true "найди кофе" 3 none
    [SystemMessage "You answer questions about point-of-sale data.", UserMessage "найди кофе"]
    [] { world := 0 } { Choices := [assistantCalls [⟨"c1", "SearchItems", ""⟩]] }
    (assistantCalls [⟨"c1", "SearchItems", ""⟩]) [] (.sentinel .ErrMissingStoreID)
    rfl rfl (by decide) rfl

/-- C10: in every round in which the model's top choice requests no tool call,
`runLLMAgent` returns a nil error and a response whose answer is the choice's text with
leading and trailing white space removed, whose tool calls are exactly the records
accumulated in the earlier rounds and whose next-step hint is empty; a supplied history
has had `Append` called with the assistant message, and no call follows the model call. -/
theorem C10_final_answer {σ : Type} (W : World σ) (opts : Options)
    (llmClient : Option LLMClient) (evotorClient : Bool) (query : String) (n : Nat)
    (history : Option SessionHistory) (messages : List Message)
    (toolCalls : List toolCallRecord) (s : Sys σ) (resp : ChatCompletionResponse)
    (msg : Message) (others : List Message)
    (hresp : (ChatWithMessages W llmClient (roundMessages history messages) s).1 = .ok resp)
    (hch : resp.Choices = msg :: others) (htc : msg.ToolCalls = []) :
    runLLMAgentLoop W opts llmClient evotorClient query (n + 1) history messages toolCalls s
      = { result := .ok { Query := query, AnswerText := trimSpace msg.Text,
                          ToolCalls := toolCalls, NextStep := "" },
          history := history.map (fun h => h.Append msg),
          sys := (ChatWithMessages W llmClient (roundMessages history messages) s).2 } :=
  runLLMAgentLoop_final_answer W opts llmClient evotorClient query n history messages
    toolCalls s resp msg others hresp hch htc

/-- C10 on the example world, in the first round of an interactive `runLLMAgent` on a
fresh store of at most 20 messages and 2000 tokens: the model answers at once with a padded
text; the answer is the trimmed text, no record is returned, and the store ends with the
assistant message. -/
theorem C10_final_answer_witness :
    runLLMAgent (exampleWorld [assistantText "  Магазинов нет. \n"]) {} exampleClient true
        "магазины?" true (some (NewSessionHistory 0 0)) { world := 0 }
      = { result := .ok { Query := "магазины?", AnswerText := "Магазинов нет.",
                          ToolCalls := [], NextStep := "" },
          history := some
            { messages := [SystemMessage "You answer questions about point-of-sale data.",
                           UserMessage "магазины?", assistantText "  Магазинов нет. \n"],
              maxMessages := 20, maxTokens := 2000 },
          sys := { world := 1,
                   trace := [Event.ChatWithMessages
                     [SystemMessage "You answer questions about point-of-sale data.",
                      UserMessage "магазины?"]] } } :=
  C10_final_answer (exampleWorld [assistantText "  Магазинов нет. \n"]) {} exampleClient
    true "магазины?" 3
    (some (((NewSessionHistory 0 0).Append
      (SystemMessage "You answer questions about point-of-sale data.")).Append
      (UserMessage "магазины?")))
    [SystemMessage "You answer questions about point-of-sale data.", UserMessage "магазины?"]
    [] { world := 0 } { Choices := [assistantText "  Магазинов нет. \n"] }
    (assistantText "  Магазинов нет. \n") [] rfl rfl rfl

/-! ## Claims about the tool dispatcher -/

theorem tracked_record {α : Type} (wrap : α → ToolResult)
    (r : Except GoError α × toolCallRecord) : (tracked wrap r).2.1 = r.2 := by
  unfold tracked
  split <;> rfl

theorem dispatchToolCall_record_name {σ : Type} (W : World σ) (opts : Options)
    (name : String) (args : Args) (s : Sys σ) :
    (dispatchToolCall W opts name args s).1.2.1.Name = name := by
  unfold dispatchToolCall
  split
  · split
    · rfl
    · split
      · rfl
      · simp only [tracked_record]; rfl
  · simp only [tracked_record]; rfl
  · simp only [tracked_record]; rfl
  · split
    · rfl
    · split
      · rfl
      · simp only
        split_ifs
        · simp only [tracked_record]; rfl
        · split
          · rfl
          · split <;> rfl
  · simp only [tracked_record]; rfl
  · rfl

theorem dispatchToolCall_unknown {σ : Type} (W : World σ) (opts : Options) (name : String)
    (args : Args) (s : Sys σ) (h : name ∉ toolNames) :
    dispatchToolCall W opts name args s
      = ((ToolResult.nil, failedRecord name args (GoError.plain ("unknown tool: " ++ name)),
          some (GoError.plain ("unknown tool: " ++ name))), s) := by
  simp only [toolNames, List.mem_cons, List.mem_singleton, not_or, List.mem_nil_iff,
    or_false] at h
  obtain ⟨h1, h2, h3, h4, h5⟩ := h
  unfold dispatchToolCall
  split
  · exact absurd rfl h1
  · exact absurd rfl h2
  · exact absurd rfl h3
  · exact absurd rfl h4
  · exact absurd rfl h5
  · rfl

/-- What the loop of `executeToolCalls` adds to its two slices: one entry per call of a
prefix of the batch, the whole batch when it returns no error. -/
theorem executeToolCallsLoop_shape {σ : Type} (W : World σ) (opts : Options)
    (calls : List ToolCall) (tm : List Message) (rc : List toolCallRecord) (s : Sys σ) :
    ∃ (newM : List Message) (newR : List toolCallRecord),
      (executeToolCallsLoop W opts calls tm rc s).1.1 = tm ++ newM ∧
      (executeToolCallsLoop W opts calls tm rc s).1.2.1 = rc ++ newR ∧
      newM.length = newR.length ∧ newR.length ≤ calls.length ∧
      newM.map (fun m => m.ToolCallID) = (calls.take newM.length).map (fun c => c.ID) ∧
      newR.map (fun r => r.Name) = (calls.take newR.length).map (fun c => c.Name) ∧
      (∀ m ∈ newM, m.Role = ChatMessageRoleTool) ∧
      ((executeToolCallsLoop W opts calls tm rc s).1.2.2 = none →
        newR.length = calls.length) ∧
      ((executeToolCallsLoop W opts calls tm rc s).1.2.2 ≠ none → 0 < newR.length) := by
  induction calls generalizing tm rc s with
  | nil =>
    refine ⟨[], [], ?_⟩
    simp [executeToolCallsLoop]
  | cons call rest ih =>
    simp only [executeToolCallsLoop]
    split
    · rename_i err herr
      obtain ⟨newM, newR, h1, h2, h3, h4, h5, h6, h7, h8, _⟩ := ih
        (tm ++ [ToolMessage call.ID (toolErrorPayload W ("invalid tool args: " ++ err.Error))])
        (rc ++ [{ Name := call.Name, Args := (decodeArgs W call).1, MS := 0, OK := false,
                  Err := "invalid tool args: " ++ err.Error }]) s
      refine ⟨ToolMessage call.ID (toolErrorPayload W ("invalid tool args: " ++ err.Error))
          :: newM,
        { Name := call.Name, Args := (decodeArgs W call).1, MS := 0, OK := false,
          Err := "invalid tool args: " ++ err.Error } :: newR, ?_⟩
      refine ⟨by rw [h1]; simp, by rw [h2]; simp, by simp [h3], by simp; omega, ?_, ?_, ?_,
        ?_, ?_⟩
      · simp [h5, ToolMessage]
      · simp [h6]
      · intro m hm
        rcases List.mem_cons.mp hm with rfl | hm
        · rfl
        · exact h7 m hm
      · intro hnone
        simp [h8 hnone]
      · intro _; simp
    · split
      · rename_i err herr
        refine ⟨[ToolMessage call.ID (toolErrorPayload W err.Error)],
          [(dispatchToolCall W opts call.Name (decodeArgs W call).1 s).1.2.1], ?_⟩
        simp [ToolMessage, dispatchToolCall_record_name]
      · split
        · rename_i err herr
          refine ⟨[ToolMessage call.ID (toolErrorPayload W err.Error)],
            [{ (dispatchToolCall W opts call.Name (decodeArgs W call).1 s).1.2.1 with
                OK := false, Err := err.Error }], ?_⟩
          simp [ToolMessage, dispatchToolCall_record_name]
        · rename_i payload hpay
          obtain ⟨newM, newR, h1, h2, h3, h4, h5, h6, h7, h8, _⟩ := ih
            (tm ++ [ToolMessage call.ID payload])
            (rc ++ [(dispatchToolCall W opts call.Name (decodeArgs W call).1 s).1.2.1])
            (dispatchToolCall W opts call.Name (decodeArgs W call).1 s).2
          refine ⟨ToolMessage call.ID payload :: newM,
            (dispatchToolCall W opts call.Name (decodeArgs W call).1 s).1.2.1 :: newR, ?_⟩
          refine ⟨by rw [h1]; simp, by rw [h2]; simp, by simp [h3], by simp; omega, ?_, ?_,
            ?_, ?_, ?_⟩
          · simp [h5, ToolMessage]
          · simp [h6, dispatchToolCall_record_name]
          · intro m hm
            rcases List.mem_cons.mp hm with rfl | hm
            · rfl
            · exact h7 m hm
          · intro hnone
            simp [h8 hnone]
          · intro _; simp

theorem executeToolCallsLoop_append {σ : Type} (W : World σ) (opts : Options)
    (pre rest : List ToolCall) (tm tm' : List Message) (rc rc' : List toolCallRecord)
    (s s' : Sys σ)
    (h : executeToolCallsLoop W opts pre tm rc s = ((tm', rc', none), s')) :
    executeToolCallsLoop W opts (pre ++ rest) tm rc s
      = executeToolCallsLoop W opts rest tm' rc' s' := by
  induction pre generalizing tm rc s with
  | nil =>
    simp only [executeToolCallsLoop, Prod.mk.injEq] at h
    obtain ⟨⟨h1, h2, _⟩, h3⟩ := h
    subst h1 h2 h3
    rfl
  | cons call more ih =>
    simp only [List.cons_append, executeToolCallsLoop] at h ⊢
    split at h
    · exact ih _ _ _ h
    · split at h
      · simp at h
      · split at h
        · simp at h
        · exact ih _ _ _ h

theorem executeToolCallsLoop_parse_failure {σ : Type} (W : World σ) (opts : Options)
    (call : ToolCall) (rest : List ToolCall) (tm : List Message) (rc : List toolCallRecord)
    (s : Sys σ) (err : GoError) (h : (decodeArgs W call).2 = some err) :
    executeToolCallsLoop W opts (call :: rest) tm rc s
      = executeToolCallsLoop W opts rest
          (tm ++ [ToolMessage call.ID (toolErrorPayload W ("invalid tool args: " ++ err.Error))])
          (rc ++ [{ Name := call.Name, Args := (decodeArgs W call).1, MS := 0, OK := false,
                    Err := "invalid tool args: " ++ err.Error }]) s := by
  simp only [executeToolCallsLoop, h]

theorem executeToolCallsLoop_dispatch_error {σ : Type} (W : World σ) (opts : Options)
    (call : ToolCall) (rest : List ToolCall) (tm : List Message) (rc : List toolCallRecord)
    (s s' : Sys σ) (res : ToolResult) (record : toolCallRecord) (err : GoError)
    (hdec : (decodeArgs W call).2 = none)
    (hd : dispatchToolCall W opts call.Name (decodeArgs W call).1 s
      = ((res, record, some err), s')) :
    executeToolCallsLoop W opts (call :: rest) tm rc s
      = ((tm ++ [ToolMessage call.ID (toolErrorPayload W err.Error)], rc ++ [record],
          some err), s') := by
  simp only [executeToolCallsLoop, hdec, hd]

theorem executeToolCallsLoop_success {σ : Type} (W : World σ) (opts : Options)
    (call : ToolCall) (rest : List ToolCall) (tm : List Message) (rc : List toolCallRecord)
    (s : Sys σ) (payload : String)
    (hdec : (decodeArgs W call).2 = none)
    (hd : (dispatchToolCall W opts call.Name (decodeArgs W call).1 s).1.2.2 = none)
    (hm : W.jsonMarshal (dispatchToolCall W opts call.Name (decodeArgs W call).1 s).1.1
      = .ok payload) :
    executeToolCallsLoop W opts (call :: rest) tm rc s
      = executeToolCallsLoop W opts rest (tm ++ [ToolMessage call.ID payload])
          (rc ++ [(dispatchToolCall W opts call.Name (decodeArgs W call).1 s).1.2.1])
          (dispatchToolCall W opts call.Name (decodeArgs W call).1 s).2 := by
  simp only [executeToolCallsLoop, hdec, hd, hm]

/-- A batch in which every call either fails to parse or, in whatever state it is
dispatched, succeeds and marshals, is processed to its end without error. -/
theorem executeToolCallsLoop_only_parse_failures {σ : Type} (W : World σ) (opts : Options)
    (calls : List ToolCall) (tm : List Message) (rc : List toolCallRecord) (s : Sys σ)
    (h : ∀ c ∈ calls, ∀ s' : Sys σ, (decodeArgs W c).2 ≠ none ∨
      ((dispatchToolCall W opts c.Name (decodeArgs W c).1 s').1.2.2 = none ∧
        ∃ payload, W.jsonMarshal (dispatchToolCall W opts c.Name (decodeArgs W c).1 s').1.1
          = .ok payload)) :
    (executeToolCallsLoop W opts calls tm rc s).1.2.2 = none := by
  induction calls generalizing tm rc s with
  | nil => rfl
  | cons call rest ih =>
    have hrest : ∀ c ∈ rest, ∀ s' : Sys σ, (decodeArgs W c).2 ≠ none ∨
        ((dispatchToolCall W opts c.Name (decodeArgs W c).1 s').1.2.2 = none ∧
          ∃ payload, W.jsonMarshal (dispatchToolCall W opts c.Name (decodeArgs W c).1 s').1.1
            = .ok payload) :=
      fun c hc => h c (List.mem_cons_of_mem _ hc)
    cases hdec : (decodeArgs W call).2 with
    | some err =>
      rw [executeToolCallsLoop_parse_failure W opts call rest tm rc s err hdec]
      exact ih _ _ _ hrest
    | none =>
      rcases h call (List.mem_cons_self _ _) s with hp | ⟨hd, payload, hm⟩
      · exact absurd hdec hp
      · rw [executeToolCallsLoop_success W opts call rest tm rc s payload hdec hd hm]
        exact ih _ _ _ hrest

theorem getTimeArg_bad {σ : Type} (W : World σ) (args : Args) (key : String)
    (h : badTimeArg W args key) :
    ∃ err, getTimeArg W args key = .error err ∧
      (err = GoError.plain ("missing " ++ key) ∨
        ∃ inner, err = GoError.wrap ("invalid " ++ key ++ ": " ++ inner.Error) inner) := by
  unfold getTimeArg
  by_cases hmiss : (!(getStringArg W args key).2 || (getStringArg W args key).1 = "") = true
  · exact ⟨_, by simp only [hmiss, if_true], Or.inl rfl⟩
  · simp only [hmiss]
    rcases h with h | h | ⟨e, he⟩
    · exfalso
      apply hmiss
      simp [getStringArg, h]
    · exfalso
      apply hmiss
      simp [h]
    · exact ⟨_, by simp [he], Or.inr ⟨e, rfl⟩⟩

theorem getStringArg_absent {σ : Type} (W : World σ) (args : Args) (key : String)
    (h : (getStringArg W args key).2 = false) : (getStringArg W args key).1 = "" := by
  unfold getStringArg at h ⊢
  split <;> simp_all

theorem getTimeArg_ok_of_not_bad {σ : Type} (W : World σ) (args : Args) (key : String)
    (h : ¬ badTimeArg W args key) : ∃ t, getTimeArg W args key = .ok t := by
  have h1 : (getStringArg W args key).1 ≠ "" := fun h1 => h (Or.inr (Or.inl h1))
  have h2 : (getStringArg W args key).2 = true := by
    cases h2 : (getStringArg W args key).2 with
    | true => rfl
    | false => exact absurd (getStringArg_absent W args key h2) h1
  unfold getTimeArg
  simp only [h2, h1, Bool.not_true, Bool.false_or, decide_False, Bool.false_eq_true, if_false]
  cases hp : W.parseRFC3339 (getStringArg W args key).1 with
  | error e => exact absurd (Or.inr (Or.inr ⟨e, hp⟩)) h
  | ok t => exact ⟨t, rfl⟩

theorem dispatchToolCall_bad_time {σ : Type} (W : World σ) (opts : Options) (name : String)
    (args : Args) (s : Sys σ)
    (hname : name = "GetSalesMetrics" ∨ name = "SearchDocuments")
    (hbad : badTimeArg W args "from" ∨ badTimeArg W args "to") :
    ∃ err key, (key = "from" ∨ key = "to") ∧
      (err = GoError.plain ("missing " ++ key) ∨
        ∃ inner, err = GoError.wrap ("invalid " ++ key ++ ": " ++ inner.Error) inner) ∧
      dispatchToolCall W opts name args s
        = ((ToolResult.nil, failedRecord name args err, some err), s) := by
  have key : ∃ err key, (key = "from" ∨ key = "to") ∧
      (err = GoError.plain ("missing " ++ key) ∨
        ∃ inner, err = GoError.wrap ("invalid " ++ key ++ ": " ++ inner.Error) inner) ∧
      (getTimeArg W args "from" = .error err ∨
        ∃ t, getTimeArg W args "from" = .ok t ∧ getTimeArg W args "to" = .error err) := by
    by_cases hb1 : badTimeArg W args "from"
    · obtain ⟨err, he, hshape⟩ := getTimeArg_bad W args "from" hb1
      exact ⟨err, "from", Or.inl rfl, hshape, Or.inl he⟩
    · have hb2 : badTimeArg W args "to" := hbad.resolve_left hb1
      obtain ⟨t, ht⟩ := getTimeArg_ok_of_not_bad W args "from" hb1
      obtain ⟨err, he, hshape⟩ := getTimeArg_bad W args "to" hb2
      exact ⟨err, "to", Or.inr rfl, hshape, Or.inr ⟨t, ht, he⟩⟩
  obtain ⟨err, k, hk, hshape, hget⟩ := key
  refine ⟨err, k, hk, hshape, ?_⟩
  rcases hname with rfl | rfl
  · rcases hget with h1 | ⟨t, h1, h2⟩
    · simp only [dispatchToolCall, h1]
    · simp only [dispatchToolCall, h1, h2]
  · rcases hget with h1 | ⟨t, h1, h2⟩
    · simp only [dispatchToolCall, h1]
    · simp only [dispatchToolCall, h1, h2]

/-- C5, as stated, fails: of the batch `[DeleteStore, ListStores]` the first call is an
unknown tool, `executeToolCalls` returns at once, and the two returned lists hold one entry
each for the two requested calls. -/
theorem C5_counterexample :
    ((executeToolCalls (exampleWorld []) true {}
        [⟨"c1", "DeleteStore", ""⟩, ⟨"c2", "ListStores", ""⟩] { world := 0 }).1.2.1.length,
     (executeToolCalls (exampleWorld []) true {}
        [⟨"c1", "DeleteStore", ""⟩, ⟨"c2", "ListStores", ""⟩] { world := 0 }).1.1.length,
     [(⟨"c1", "DeleteStore", ""⟩ : ToolCall), ⟨"c2", "ListStores", ""⟩].length)
      = (1, 1, 2) := by
  decide

/-- C5, amended: for every batch and whatever the outcome of each call, the returned
record list and tool-result message list have the same length `k`, at most the number of
requested calls; for `i < k` the `i`-th message is a tool message that carries the
identifier of the `i`-th requested call and the `i`-th record its function name. `k` is the
number of requested calls when the returned error is nil, and at least 1 when a non-nil
client returns an error. -/
theorem C5_entries_follow_the_processed_calls {σ : Type} (W : World σ)
    (evotorClient : Bool) (opts : Options) (calls : List ToolCall) (s : Sys σ) :
    (executeToolCalls W evotorClient opts calls s).1.1.length
      = (executeToolCalls W evotorClient opts calls s).1.2.1.length ∧
    (executeToolCalls W evotorClient opts calls s).1.2.1.length ≤ calls.length ∧
    (executeToolCalls W evotorClient opts calls s).1.1.map (fun m => m.ToolCallID)
      = (calls.take (executeToolCalls W evotorClient opts calls s).1.1.length).map
          (fun c => c.ID) ∧
    (executeToolCalls W evotorClient opts calls s).1.2.1.map (fun r => r.Name)
      = (calls.take (executeToolCalls W evotorClient opts calls s).1.2.1.length).map
          (fun c => c.Name) ∧
    (∀ m ∈ (executeToolCalls W evotorClient opts calls s).1.1,
      m.Role = ChatMessageRoleTool) ∧
    ((executeToolCalls W evotorClient opts calls s).1.2.2 = none →
      (executeToolCalls W evotorClient opts calls s).1.2.1.length = calls.length) ∧
    (evotorClient = true → (executeToolCalls W evotorClient opts calls s).1.2.2 ≠ none →
      0 < (executeToolCalls W evotorClient opts calls s).1.2.1.length) := by
  cases evotorClient with
  | false => simp [executeToolCalls]
  | true =>
    obtain ⟨newM, newR, h1, h2, h3, h4, h5, h6, h7, h8, h9⟩ :=
      executeToolCallsLoop_shape W opts calls [] [] s
    simp only [List.nil_append] at h1 h2
    simp only [executeToolCalls, Bool.not_true, Bool.false_eq_true, if_false]
    rw [h1, h2]
    exact ⟨h3, h4, h5, h6, h7, h8, fun _ => h9⟩

/-- C6, as stated, fails: the only call of the batch names an unknown tool and carries a
payload that does not parse; it is handled as an argument-parse failure and
`executeToolCalls` returns a nil error. -/
theorem C6_counterexample :
    (executeToolCalls (exampleWorld []) true {} [⟨"c1", "DeleteStore", "\x7b"⟩]
        { world := 0 }).1.2.2 = none ∧
    (executeToolCalls (exampleWorld []) true {} [⟨"c1", "DeleteStore", "\x7b"⟩]
        { world := 0 }).1.2.1.map (fun r => (r.Name, r.OK, r.Err))
      = [("DeleteStore", false, "invalid tool args: unexpected end of JSON input")] := by
  decide

/-- C6, amended: with a non-nil client, for every batch `pre ++ call :: post` in which
`call` has a function name outside the five operations and a payload that is empty or
parses, and whose calls before it are processed without error (`executeToolCalls` on `pre`
alone returns a nil error), `executeToolCalls` returns the error `unknown tool: <name>`;
its lists are those produced for `pre` followed by the failed record (ok=false) and the
error tool-result message of `call`; and it ends in the state reached after `pre`: nothing
is dispatched for `call` or after it. -/
theorem C6_unknown_tool_aborts {σ : Type} (W : World σ) (opts : Options)
    (pre post : List ToolCall) (call : ToolCall) (tmPre : List Message)
    (rcPre : List toolCallRecord) (s s1 : Sys σ)
    (hpre : executeToolCalls W true opts pre s = ((tmPre, rcPre, none), s1))
    (hname : call.Name ∉ toolNames)
    (hargs : (decodeArgs W call).2 = none) :
    executeToolCalls W true opts (pre ++ call :: post) s
      = ((tmPre ++ [ToolMessage call.ID (toolErrorPayload W ("unknown tool: " ++ call.Name))],
          rcPre ++ [{ Name := call.Name, Args := (decodeArgs W call).1, MS := 0,
                      OK := false, Err := "unknown tool: " ++ call.Name }],
          some (GoError.plain ("unknown tool: " ++ call.Name))), s1) := by
  simp only [executeToolCalls, Bool.not_true, Bool.false_eq_true, if_false] at hpre ⊢
  rw [executeToolCallsLoop_append W opts pre (call :: post) [] tmPre [] rcPre s s1 hpre]
  exact executeToolCallsLoop_dispatch_error W opts call post tmPre rcPre s1 s1 _ _ _ hargs
    (dispatchToolCall_unknown W opts call.Name _ s1 hname)

/-- C6 on the example world: `[ListStores, DeleteStore, ListStores]` returns the entries of
the first call and of the unknown one, and the facade is called once. -/
theorem C6_unknown_tool_aborts_witness :
    executeToolCalls (exampleWorld []) true {}
        ([⟨"c1", "ListStores", ""⟩] ++ ⟨"c2", "DeleteStore", "\x7b\x7d"⟩
          :: [⟨"c3", "ListStores", ""⟩]) { world := 0 }
      = (([ToolMessage "c1" "null"] ++
            [ToolMessage "c2" "\x7b\"error\":\"unknown tool: DeleteStore\"\x7d"],
          [{ Name := "ListStores", Args := [], MS := 0, OK := true, Err := "" }] ++
            [{ Name := "DeleteStore", Args := [], MS := 0, OK := false,
               Err := "unknown tool: DeleteStore" }],
          some (GoError.plain "unknown tool: DeleteStore")),
         { world := 0, trace := [Event.ListStores] }) :=
  C6_unknown_tool_aborts (exampleWorld []) {} [⟨"c1", "ListStores", ""⟩]
    [⟨"c3", "ListStores", ""⟩] ⟨"c2", "DeleteStore", "\x7b\x7d"⟩ [ToolMessage "c1" "null"]
    [{ Name := "ListStores", Args := [], MS := 0, OK := true, Err := "" }]
    { world := 0 } { world := 0, trace := [Event.ListStores] } rfl (by decide) rfl

/-- C7: when the loop of `executeToolCalls` comes to a call whose non-empty payload does
not parse (`json.Unmarshal` returns `err`), it appends a record with the call's name,
ok=false, ms=0 and the text `invalid tool args: <err>`, appends a tool-result message for
the call's identifier whose content is `toolErrorPayload` of that text (the marshalled map
with the key `error`), and goes on with the next call in the same state: the data facade is
not called. A batch in which every call either fails in this way or succeeds is processed
to its end and returns a nil error. -/
theorem C7_parse_failure_is_local {σ : Type} (W : World σ) (opts : Options)
    (call : ToolCall) (rest : List ToolCall) (tm : List Message) (rc : List toolCallRecord)
    (s : Sys σ) (err : GoError) (hne : call.Arguments ≠ "")
    (hparse : (W.jsonUnmarshal call.Arguments).2 = some err) :
    executeToolCallsLoop W opts (call :: rest) tm rc s
      = executeToolCallsLoop W opts rest
          (tm ++ [ToolMessage call.ID (toolErrorPayload W ("invalid tool args: " ++ err.Error))])
          (rc ++ [{ Name := call.Name, Args := (W.jsonUnmarshal call.Arguments).1, MS := 0,
                    OK := false, Err := "invalid tool args: " ++ err.Error }]) s ∧
    (∀ encoded, W.jsonMarshalErrorMap ("invalid tool args: " ++ err.Error) = .ok encoded →
      toolErrorPayload W ("invalid tool args: " ++ err.Error) = encoded) ∧
    (∀ (calls : List ToolCall) (s0 : Sys σ),
      (∀ c ∈ calls, ∀ s' : Sys σ,
        (c.Arguments ≠ "" ∧ (W.jsonUnmarshal c.Arguments).2 ≠ none) ∨
        ((decodeArgs W c).2 = none ∧
          (dispatchToolCall W opts c.Name (decodeArgs W c).1 s').1.2.2 = none ∧
          ∃ payload, W.jsonMarshal (dispatchToolCall W opts c.Name (decodeArgs W c).1 s').1.1
            = .ok payload)) →
      (executeToolCalls W true opts calls s0).1.2.2 = none ∧
      (executeToolCalls W true opts calls s0).1.2.1.length = calls.length) := by
  have hdec : decodeArgs W call = W.jsonUnmarshal call.Arguments := by
    simp only [decodeArgs, if_pos hne]
  refine ⟨?_, ?_, ?_⟩
  · have := executeToolCallsLoop_parse_failure W opts call rest tm rc s err
      (by rw [hdec]; exact hparse)
    rw [hdec] at this
    exact this
  · intro encoded henc
    simp only [toolErrorPayload, henc]
  · intro calls s0 hall
    have hnone : (executeToolCalls W true opts calls s0).1.2.2 = none := by
      simp only [executeToolCalls, Bool.not_true, Bool.false_eq_true, if_false]
      apply executeToolCallsLoop_only_parse_failures
      intro c hc s'
      rcases hall c hc s' with ⟨hc1, hc2⟩ | ⟨_, hd, hm⟩
      · left
        simpa only [decodeArgs, if_pos hc1] using hc2
      · exact Or.inr ⟨hd, hm⟩
    obtain ⟨newM, newR, _, h2, _, _, _, _, _, h8, _⟩ :=
      executeToolCallsLoop_shape W opts calls [] [] s0
    refine ⟨hnone, ?_⟩
    simp only [executeToolCalls, Bool.not_true, Bool.false_eq_true, if_false] at hnone ⊢
    rw [h2]
    simpa using h8 hnone

/-- C7 on the example world: the payload `{` of the first call does not parse; the call is
recorded as failed without a facade call and the second call is still dispatched. -/
theorem C7_parse_failure_is_local_witness :
    executeToolCallsLoop (exampleWorld []) {}
        (⟨"c1", "SearchItems", "\x7b"⟩ :: [⟨"c2", "ListStores", ""⟩]) [] [] { world := 0 }
      = (([ToolMessage "c1"
              "\x7b\"error\":\"invalid tool args: unexpected end of JSON input\"\x7d",
            ToolMessage "c2" "null"],
          [{ Name := "SearchItems", Args := [], MS := 0, OK := false,
             Err := "invalid tool args: unexpected end of JSON input" },
           { Name := "ListStores", Args := [], MS := 0, OK := true, Err := "" }],
          none),
         { world := 0, trace := [Event.ListStores] }) ∧
    (∀ encoded, (exampleWorld []).jsonMarshalErrorMap ("invalid tool args: "
        ++ (GoError.plain "unexpected end of JSON input").Error) = .ok encoded →
      toolErrorPayload (exampleWorld []) ("invalid tool args: "
        ++ (GoError.plain "unexpected end of JSON input").Error) = encoded) ∧
    (∀ (calls : List ToolCall) (s0 : Sys Nat),
      (∀ c ∈ calls, ∀ s' : Sys Nat,
        (c.Arguments ≠ "" ∧ ((exampleWorld []).jsonUnmarshal c.Arguments).2 ≠ none) ∨
        ((decodeArgs (exampleWorld []) c).2 = none ∧
          (dispatchToolCall (exampleWorld []) {} c.Name
            (decodeArgs (exampleWorld []) c).1 s').1.2.2 = none ∧
          ∃ payload, (exampleWorld []).jsonMarshal (dispatchToolCall (exampleWorld []) {}
            c.Name (decodeArgs (exampleWorld []) c).1 s').1.1 = .ok payload)) →
      (executeToolCalls (exampleWorld []) true {} calls s0).1.2.2 = none ∧
      (executeToolCalls (exampleWorld []) true {} calls s0).1.2.1.length = calls.length) :=
  C7_parse_failure_is_local (exampleWorld []) {} ⟨"c1", "SearchItems", "\x7b"⟩
    [⟨"c2", "ListStores", ""⟩] [] [] { world := 0 }
    (GoError.plain "unexpected end of JSON input") (by decide) (by decide)

/-- C8, as stated, fails: in the batch `[GetSalesMetrics, ListStores]` the first call has no
`from`; `executeToolCalls` returns the error `missing from` with one record only and
without dispatching `ListStores`, and `runLLMAgent` ends the turn after its first model
call with that text as the answer. -/
theorem C8_counterexample :
    (executeToolCalls (exampleWorld []) true {}
        [⟨"c1", "GetSalesMetrics", "\x7b\x7d"⟩, ⟨"c2", "ListStores", ""⟩]
        { world := 0 }).1.2.2 = some (GoError.plain "missing from") ∧
    (executeToolCalls (exampleWorld []) true {}
        [⟨"c1", "GetSalesMetrics", "\x7b\x7d"⟩, ⟨"c2", "ListStores", ""⟩]
        { world := 0 }).1.2.1.map (fun r => (r.Name, r.OK, r.Err))
      = [("GetSalesMetrics", false, "missing from")] ∧
    (executeToolCalls (exampleWorld []) true {}
        [⟨"c1", "GetSalesMetrics", "\x7b\x7d"⟩, ⟨"c2", "ListStores", ""⟩]
        { world := 0 }).2.trace = [] ∧
    modelCalls (runLLMAgent
        (exampleWorld [assistantCalls
          [⟨"c1", "GetSalesMetrics", "\x7b\x7d"⟩, ⟨"c2", "ListStores", ""⟩],
          assistantText "done"])
        {} exampleClient true "продажи" false none { world := 0 }).sys.trace = 1 ∧
    (match (runLLMAgent
        (exampleWorld [assistantCalls
          [⟨"c1", "GetSalesMetrics", "\x7b\x7d"⟩, ⟨"c2", "ListStores", ""⟩],
          assistantText "done"])
        {} exampleClient true "продажи" false none { world := 0 }).result with
      | .ok r => r.AnswerText
      | .error e => e.Error) = "missing from" := by
  decide

/-- C8, amended: for every `GetSalesMetrics` or `SearchDocuments` call whose payload parses
and whose `from` or `to` argument is missing or does not parse as a timestamp, in a batch
`pre ++ call :: post` whose calls before it are processed without error, the failure is
reported as that call's failed record and tool-result error payload, without a call of the
data facade, but it is a dispatch error: `executeToolCalls` does not dispatch the remaining
calls and returns the error (`missing <key>` or `invalid <key>: ...`), and a round of
`runLLMAgent` whose model answer requests that batch ends the turn with
`friendlyEvotorError` of the error as the answer, making no further call. -/
theorem C8_time_argument_error_aborts {σ : Type} (W : World σ) (opts : Options)
    (pre post : List ToolCall) (call : ToolCall) (tmPre : List Message)
    (rcPre : List toolCallRecord) (s s1 : Sys σ)
    (hpre : executeToolCalls W true opts pre s = ((tmPre, rcPre, none), s1))
    (hname : call.Name = "GetSalesMetrics" ∨ call.Name = "SearchDocuments")
    (hargs : (decodeArgs W call).2 = none)
    (hbad : badTimeArg W (decodeArgs W call).1 "from" ∨
      badTimeArg W (decodeArgs W call).1 "to") :
    ∃ err key, (key = "from" ∨ key = "to") ∧
      (err = GoError.plain ("missing " ++ key) ∨
        ∃ inner, err = GoError.wrap ("invalid " ++ key ++ ": " ++ inner.Error) inner) ∧
      executeToolCalls W true opts (pre ++ call :: post) s
        = ((tmPre ++ [ToolMessage call.ID (toolErrorPayload W err.Error)],
            rcPre ++ [{ Name := call.Name, Args := (decodeArgs W call).1, MS := 0,
                        OK := false, Err := err.Error }],
            some err), s1) ∧
      ∀ (llmClient : Option LLMClient) (query : String) (n : Nat)
        (history : Option SessionHistory) (messages : List Message)
        (toolCalls : List toolCallRecord) (s0 : Sys σ) (resp : ChatCompletionResponse)
        (msg : Message) (others : List Message),
        ChatWithMessages W llmClient (roundMessages history messages) s0 = (.ok resp, s) →
        resp.Choices = msg :: others → msg.ToolCalls = pre ++ call :: post →
        (runLLMAgentLoop W opts llmClient true query (n + 1) history messages toolCalls
            s0).result
          = .ok { Query := query, AnswerText := friendlyEvotorError (some err),
                  ToolCalls := toolCalls ++ (rcPre ++
                    [{ Name := call.Name, Args := (decodeArgs W call).1, MS := 0,
                       OK := false, Err := err.Error }]) } ∧
        (runLLMAgentLoop W opts llmClient true query (n + 1) history messages toolCalls
            s0).sys = s1 := by
  obtain ⟨err, key, hkey, hshape, hd⟩ :=
    dispatchToolCall_bad_time W opts call.Name (decodeArgs W call).1 s1 hname hbad
  have hexec : executeToolCalls W true opts (pre ++ call :: post) s
      = ((tmPre ++ [ToolMessage call.ID (toolErrorPayload W err.Error)],
          rcPre ++ [{ Name := call.Name, Args := (decodeArgs W call).1, MS := 0,
                      OK := false, Err := err.Error }],
          some err), s1) := by
    simp only [executeToolCalls, Bool.not_true, Bool.false_eq_true, if_false] at hpre ⊢
    rw [executeToolCallsLoop_append W opts pre (call :: post) [] tmPre [] rcPre s s1 hpre]
    exact executeToolCallsLoop_dispatch_error W opts call post tmPre rcPre s1 s1 _ _ _ hargs
      hd
  refine ⟨err, key, hkey, hshape, hexec, ?_⟩
  intro llmClient query n history messages toolCalls s0 resp msg others hchat hch htc
  have hne : msg.ToolCalls ≠ [] := by rw [htc]; simp
  have h1 : (ChatWithMessages W llmClient (roundMessages history messages) s0).1 = .ok resp := by
    rw [hchat]
  have h2 : (ChatWithMessages W llmClient (roundMessages history messages) s0).2 = s := by
    rw [hchat]
  have herr : (executeToolCalls W true opts msg.ToolCalls
      (ChatWithMessages W llmClient (roundMessages history messages) s0).2).1.2.2
        = some err := by
    rw [h2, htc, hexec]
  obtain ⟨r1, r2⟩ := runLLMAgentLoop_dispatch_error W opts llmClient true query n history
    messages toolCalls s0 resp msg others err h1 hch hne herr
  rw [h2, htc, hexec] at r1 r2
  exact ⟨r1, r2⟩

/-- C8 on the example world: `ListStores` succeeds, then `SearchDocuments` comes without
arguments, so that its `from` is missing; the batch stops there with that error and the
third call is not dispatched. -/
theorem C8_time_argument_error_aborts_witness :
    ∃ err key, (key = "from" ∨ key = "to") ∧
      (err = GoError.plain ("missing " ++ key) ∨
        ∃ inner, err = GoError.wrap ("invalid " ++ key ++ ": " ++ inner.Error) inner) ∧
      executeToolCalls (exampleWorld []) true {}
          ([⟨"c1", "ListStores", ""⟩] ++ ⟨"c2", "SearchDocuments", ""⟩
            :: [⟨"c3", "ListStores", ""⟩]) { world := 0 }
        = (([ToolMessage "c1" "null"] ++
              [ToolMessage "c2" (toolErrorPayload (exampleWorld []) err.Error)],
            [{ Name := "ListStores", Args := [], MS := 0, OK := true, Err := "" }] ++
              [{ Name := "SearchDocuments", Args := [], MS := 0, OK := false,
                 Err := err.Error }],
            some err), { world := 0, trace := [Event.ListStores] }) ∧
      ∀ (llmClient : Option LLMClient) (query : String) (n : Nat)
        (history : Option SessionHistory) (messages : List Message)
        (toolCalls : List toolCallRecord) (s0 : Sys Nat) (resp : ChatCompletionResponse)
        (msg : Message) (others : List Message),
        ChatWithMessages (exampleWorld []) llmClient (roundMessages history messages) s0
          = (.ok resp, { world := 0 }) →
        resp.Choices = msg :: others →
        msg.ToolCalls = [⟨"c1", "ListStores", ""⟩] ++ ⟨"c2", "SearchDocuments", ""⟩
          :: [⟨"c3", "ListStores", ""⟩] →
        (runLLMAgentLoop (exampleWorld []) {} llmClient true query (n + 1) history messages
            toolCalls s0).result
          = .ok { Query := query, AnswerText := friendlyEvotorError (some err),
                  ToolCalls := toolCalls ++
                    ([{ Name := "ListStores", Args := [], MS := 0, OK := true, Err := "" }] ++
                    [{ Name := "SearchDocuments", Args := [], MS := 0, OK := false,
                       Err := err.Error }]) } ∧
        (runLLMAgentLoop (exampleWorld []) {} llmClient true query (n + 1) history messages
            toolCalls s0).sys = { world := 0, trace := [Event.ListStores] } :=
  C8_time_argument_error_aborts (exampleWorld []) {} [⟨"c1", "ListStores", ""⟩]
    [⟨"c3", "ListStores", ""⟩] ⟨"c2", "SearchDocuments", ""⟩ [ToolMessage "c1" "null"]
    [{ Name := "ListStores", Args := [], MS := 0, OK := true, Err := "" }]
    { world := 0 } { world := 0, trace := [Event.ListStores] } rfl (Or.inr rfl) rfl
    (Or.inl (Or.inl rfl))

/-! ## More claims about the conversation store -/

theorem lastMessages_eq_drop (k : Nat) (messages : List Message) :
    lastMessages k messages = messages.drop (messages.length - k) := by
  simp [lastMessages, List.take_reverse]

/-- C13: for every message list longer than `max` with `max >= 1`, `trimByCount` returns
the first message followed by the last `max - 1` messages when the first message is a
system message (the system message alone when `max = 1`), and the last `max` messages
otherwise; in both cases the result has exactly `max` entries, in their original relative
order. -/
theorem C13_trimByCount_keeps_newest (messages : List Message) (max : Int) (hmax : 1 ≤ max)
    (hlen : max < (messages.length : Int)) :
    (∀ m0 rest, messages = m0 :: rest → m0.Role = ChatMessageRoleSystem →
      trimByCount messages max = m0 :: lastMessages (max.toNat - 1) messages ∧
      (max = 1 → trimByCount messages max = [m0])) ∧
    (∀ m0 rest, messages = m0 :: rest → m0.Role ≠ ChatMessageRoleSystem →
      trimByCount messages max = lastMessages max.toNat messages) ∧
    ((trimByCount messages max).length : Int) = max ∧
    (trimByCount messages max).Sublist messages := by
  have hnle : ¬ (messages.length : Int) ≤ max := by omega
  have hnz : ¬ (messages.length = 0 ∨ max ≤ 0) := by omega
  cases messages with
  | nil => simp at hlen; omega
  | cons a tl =>
    have hsys : a.Role = ChatMessageRoleSystem →
        trimByCount (a :: tl) max = a :: lastMessages (max.toNat - 1) (a :: tl) := by
      intro hrole
      simp only [trimByCount, if_neg hnle, if_neg hnz, if_pos hrole]
      by_cases hk : max - 1 ≤ 0
      · have h1 : max.toNat - 1 = 0 := by omega
        rw [if_pos hk, h1]
        simp [lastMessages]
      · have hstart : ¬ ((((a :: tl).length : Nat) : Int) - (max - 1) < 1) := by omega
        simp only [if_neg hk, if_neg hstart, lastMessages_eq_drop]
        congr 2
        omega
    have hnon : a.Role ≠ ChatMessageRoleSystem →
        trimByCount (a :: tl) max = lastMessages max.toNat (a :: tl) := by
      intro hrole
      simp only [trimByCount, if_neg hnle, if_neg hnz, if_neg hrole, lastMessages_eq_drop]
      congr 1
      omega
    refine ⟨?_, ?_, ?_, ?_⟩
    · intro m0 rest heq hrole
      cases heq
      refine ⟨hsys hrole, ?_⟩
      intro h1
      rw [hsys hrole]
      subst h1
      simp [lastMessages]
    · intro m0 rest heq hrole
      cases heq
      exact hnon hrole
    · by_cases hrole : a.Role = ChatMessageRoleSystem
      · rw [hsys hrole, lastMessages_eq_drop]
        simp at hlen ⊢
        omega
      · rw [hnon hrole, lastMessages_eq_drop]
        simp at hlen ⊢
        omega
    · by_cases hrole : a.Role = ChatMessageRoleSystem
      · rw [hsys hrole, lastMessages_eq_drop]
        have hpos : 0 < (a :: tl).length - (max.toNat - 1) := by
          simp at hlen ⊢
          omega
        obtain ⟨k, hk⟩ := Nat.exists_eq_succ_of_ne_zero (Nat.pos_iff_ne_zero.mp hpos)
        rw [hk, List.drop_succ_cons]
        exact List.Sublist.cons₂ a (List.drop_sublist k tl)
      · rw [hnon hrole, lastMessages_eq_drop]
        exact List.drop_sublist _ _

/-- C13 on a list of four messages with `max = 3`: the system message and the two newest
messages are kept. -/
theorem C13_trimByCount_keeps_newest_witness :
    (∀ m0 rest, [SystemMessage "s", UserMessage "a", UserMessage "b", UserMessage "c"]
        = m0 :: rest → m0.Role = ChatMessageRoleSystem →
      trimByCount [SystemMessage "s", UserMessage "a", UserMessage "b", UserMessage "c"] 3
        = m0 :: lastMessages ((3 : Int).toNat - 1)
            [SystemMessage "s", UserMessage "a", UserMessage "b", UserMessage "c"] ∧
      ((3 : Int) = 1 →
        trimByCount [SystemMessage "s", UserMessage "a", UserMessage "b", UserMessage "c"] 3
          = [m0])) ∧
    (∀ m0 rest, [SystemMessage "s", UserMessage "a", UserMessage "b", UserMessage "c"]
        = m0 :: rest → m0.Role ≠ ChatMessageRoleSystem →
      trimByCount [SystemMessage "s", UserMessage "a", UserMessage "b", UserMessage "c"] 3
        = lastMessages (3 : Int).toNat
            [SystemMessage "s", UserMessage "a", UserMessage "b", UserMessage "c"]) ∧
    ((trimByCount [SystemMessage "s", UserMessage "a", UserMessage "b", UserMessage "c"]
        3).length : Int) = 3 ∧
    (trimByCount [SystemMessage "s", UserMessage "a", UserMessage "b", UserMessage "c"]
      3).Sublist [SystemMessage "s", UserMessage "a", UserMessage "b", UserMessage "c"] :=
  C13_trimByCount_keeps_newest
    [SystemMessage "s", UserMessage "a", UserMessage "b", UserMessage "c"] 3 (by decide)
    (by decide)

theorem Append_head (h : SessionHistory) (m s : Message)
    (hhead : h.messages.head? = some s) (hs : s.Role = ChatMessageRoleSystem) :
    (h.Append m).messages.head? = some s := by
  cases hm : h.messages with
  | nil => rw [hm] at hhead; simp at hhead
  | cons a tl =>
    rw [hm] at hhead
    simp at hhead
    subst hhead
    exact enforceLimits_head { h with messages := h.messages ++ [m] } a (tl ++ [m])
      (by simp [hm]) hs

theorem Append_empty (h : SessionHistory) (m : Message) (hm : h.messages = []) :
    (h.Append m).messages = [m] := by
  have hc : countCapped { h with messages := h.messages ++ [m] } = [m] := by
    simp only [countCapped, hm, List.nil_append, List.length_singleton]
    split_ifs with hcond
    · exfalso
      obtain ⟨h1, h2⟩ := hcond
      simp at h2
      omega
    · rfl
  simp only [SessionHistory.Append, SessionHistory.enforceLimits, hc]
  split_ifs
  · simp [tokenCapLoop, overTokenCap]
  · rfl

/-- C14, as stated, fails: on a fresh store a user message is appended and then a system
message; no cap is reached, a stored message has role `system`, and the message at index 0
is the user message. -/
theorem C14_counterexample :
    (∃ m ∈ (appendAll (NewSessionHistory 0 0)
        [UserMessage "привет", SystemMessage "be brief"]).messages,
      m.Role = ChatMessageRoleSystem) ∧
    (appendAll (NewSessionHistory 0 0)
        [UserMessage "привет", SystemMessage "be brief"]).messages.head?
      = some (UserMessage "привет") ∧
    (UserMessage "привет").Role ≠ ChatMessageRoleSystem := by
  decide

/-- C14, amended: for every finite sequence of `Append` calls on a store, if the first
message of the conversation (the message at index 0 of the store before the calls, or the
first message appended when the store is empty) has role `system`, then after the calls
the message at index 0 is that system message. -/
theorem C14_seeded_system_stays_first (h : SessionHistory) (ms : List Message) (s : Message)
    (hhead : (h.messages ++ ms).head? = some s) (hs : s.Role = ChatMessageRoleSystem) :
    (appendAll h ms).messages.head? = some s := by
  induction ms generalizing h with
  | nil => simpa [appendAll] using hhead
  | cons m rest ih =>
    simp only [appendAll, List.foldl_cons]
    apply ih
    cases hm : h.messages with
    | nil =>
      rw [hm] at hhead
      simp at hhead
      subst hhead
      rw [Append_empty h m hm]
      rfl
    | cons a tl =>
      rw [hm] at hhead
      simp at hhead
      subst hhead
      have := Append_head h m a (by rw [hm]; rfl) hs
      cases hx : (h.Append m).messages with
      | nil => rw [hx] at this; simp at this
      | cons b tl2 =>
        rw [hx] at this
        simp at this
        subst this
        rfl

/-- C14 on a fresh store seeded with the system message: after three more messages under
caps of 3 messages the system message is still first. -/
theorem C14_seeded_system_stays_first_witness :
    (appendAll (NewSessionHistory 3 0)
        [SystemMessage "be brief", UserMessage "a", UserMessage "b",
         UserMessage "c"]).messages.head?
      = some (SystemMessage "be brief") :=
  C14_seeded_system_stays_first (NewSessionHistory 3 0)
    [SystemMessage "be brief", UserMessage "a", UserMessage "b", UserMessage "c"]
    (SystemMessage "be brief") rfl rfl

/-- C15, as stated, fails: a message with the text `a b` and a multi part `c d e` is
estimated at 2 tokens, while its text parts together hold 5 words. -/
theorem C15_counterexample :
    estimateTokens [{ Role := ChatMessageRoleUser, Text := "a b", Multi := [⟨"c d e"⟩] }] = 2 ∧
    wordCount "a b" + wordCount "c d e" = 5 := by
  decide

theorem estimateTokensForMessage_eq (m : Message) :
    estimateTokensForMessage m
      = if m.Text ≠ "" then (wordCount m.Text : Int)
        else ((m.Multi.map (fun part => wordCount part.Text)).sum : Nat) := by
  have hfold : ∀ (parts : List ChatMessagePart) (acc : Int),
      parts.foldl (fun total part =>
        if part.Text ≠ "" then total + ((fields part.Text).length : Int) else total) acc
        = acc + (((parts.map (fun part => wordCount part.Text)).sum : Nat) : Int) := by
    intro parts
    induction parts with
    | nil => intro acc; simp
    | cons p ps ih =>
      intro acc
      simp only [List.foldl_cons, List.map_cons, List.sum_cons, ih]
      by_cases hp : p.Text = ""
      · have h0 : wordCount p.Text = 0 := by rw [hp]; decide
        rw [if_neg (by simp [hp]), h0]
        simp
      · simp only [ne_eq, hp, not_false_eq_true, if_true, wordCount]
        push_cast
        ring
  unfold estimateTokensForMessage
  dsimp only
  by_cases ht : m.Text = ""
  · have hne : ¬ m.Text ≠ "" := by simp [ht]
    by_cases hm : 0 < m.Multi.length
    · rw [if_pos ⟨ht, hm⟩, hfold, if_neg hne, if_neg hne]
      simp
    · have hnil : m.Multi = [] := by
        cases hmm : m.Multi with
        | nil => rfl
        | cons a b => rw [hmm] at hm; simp at hm
      rw [if_neg (fun hc => hm hc.2), if_neg hne, if_neg hne, hnil]
      simp
  · have hne : m.Text ≠ "" := ht
    rw [if_neg (fun hc => ht hc.1), if_pos hne, if_pos hne]
    simp [wordCount]

theorem estimateTokens_eq_sum (messages : List Message) :
    estimateTokens messages = ((messages.map estimateTokensForMessage).sum : Int) := by
  have hfold : ∀ (ms : List Message) (acc : Int),
      ms.foldl (fun total msg => total + estimateTokensForMessage msg) acc
        = acc + (ms.map estimateTokensForMessage).sum := by
    intro ms
    induction ms with
    | nil => intro acc; simp
    | cons a tl ih =>
      intro acc
      simp only [List.foldl_cons, List.map_cons, List.sum_cons, ih]
      ring
  simp [estimateTokens, hfold]

/-- C15, amended: for every message list, `estimateTokens` (and so
`SessionHistory.TokenCount`) equals the sum over all messages of the number of
whitespace-delimited words of `Content.Text` when that text is not empty, and otherwise of
the numbers of words of the texts of the `Content.Multi` parts. -/
theorem C15_estimateTokens_counts_words (messages : List Message) :
    estimateTokens messages
      = (((messages.map (fun m =>
          if m.Text ≠ "" then wordCount m.Text
          else (m.Multi.map (fun part => wordCount part.Text)).sum)).sum : Nat) : Int) ∧
    (∀ h : SessionHistory, h.messages = messages →
      h.TokenCount = estimateTokens messages) := by
  refine ⟨?_, fun h hm => by rw [SessionHistory.TokenCount, hm]⟩
  rw [estimateTokens_eq_sum]
  induction messages with
  | nil => simp
  | cons a tl ih =>
    simp only [List.map_cons, List.sum_cons, ih, estimateTokensForMessage_eq]
    split_ifs <;> push_cast <;> ring

/-- C16: for every store built by `NewSessionHistory` and holding any messages, and every
message `s` (a system message, whatever its estimated tokens), `Clear()` followed by
`Append(s)` leaves the caps unchanged and the sequence equal to exactly `[s]`, which is the
state of a store freshly constructed with the same caps after `Append(s)`. -/
theorem C16_clear_then_append (maxMessages maxTokens : Int) (stored : List Message)
    (s : Message) :
    (SessionHistory.Clear { NewSessionHistory maxMessages maxTokens with
        messages := stored }).Append s
      = (NewSessionHistory maxMessages maxTokens).Append s ∧
    ((SessionHistory.Clear { NewSessionHistory maxMessages maxTokens with
        messages := stored }).Append s).messages = [s] ∧
    ((SessionHistory.Clear { NewSessionHistory maxMessages maxTokens with
        messages := stored }).Append s).maxMessages
      = (NewSessionHistory maxMessages maxTokens).maxMessages ∧
    ((SessionHistory.Clear { NewSessionHistory maxMessages maxTokens with
        messages := stored }).Append s).maxTokens
      = (NewSessionHistory maxMessages maxTokens).maxTokens :=
  ⟨rfl, Append_empty _ s rfl, rfl, rfl⟩

/-- C17: for every store and message `m`, if the current length plus one is at most
`maxMessages` and `estimateTokens` of the current messages followed by `m` is at most
`maxTokens`, then after `Append(m)` the stored sequence is the previous sequence followed
by `m`. -/
theorem C17_append_within_caps (h : SessionHistory) (m : Message)
    (hcount : ((h.messages.length + 1 : Nat) : Int) ≤ h.maxMessages)
    (htokens : estimateTokens (h.messages ++ [m]) ≤ h.maxTokens) :
    (h.Append m).messages = h.messages ++ [m] := by
  have hc : countCapped { h with messages := h.messages ++ [m] } = h.messages ++ [m] := by
    simp only [countCapped]
    rw [if_neg]
    intro hcond
    have := hcond.2
    simp at this hcount
    omega
  simp only [SessionHistory.Append, SessionHistory.enforceLimits, hc]
  split_ifs
  · cases hl : (h.messages ++ [m]).length with
    | zero => simp at hl
    | succ n =>
      have hover : overTokenCap h.maxTokens (h.messages ++ [m]) = false := by
        simp only [overTokenCap, Bool.and_eq_false_iff, decide_eq_false_iff_not]
        right
        omega
      simp only [tokenCapLoop, hover, Bool.false_eq_true, if_false]
  · rfl

/-- C17 on a store of two messages with caps of 20 messages and 2000 tokens: the third
message is added at the end. -/
theorem C17_append_within_caps_witness :
    (({ messages := [SystemMessage "be brief", UserMessage "first question"],
        maxMessages := 20, maxTokens := 2000 } : SessionHistory).Append
        (UserMessage "second question")).messages
      = [SystemMessage "be brief", UserMessage "first question"]
          ++ [UserMessage "second question"] :=
  C17_append_within_caps
    { messages := [SystemMessage "be brief", UserMessage "first question"],
      maxMessages := 20, maxTokens := 2000 }
    (UserMessage "second question") (by decide) (by decide)

/-! ## Records, routing and argument coercion -/

theorem append_ne_empty (a b : String) (h : a ≠ "") : a ++ b ≠ "" := by
  intro hab
  apply h
  have hd : (a ++ b).data = [] := by rw [hab]
  rw [String.data_append] at hd
  have ha : a.data = [] := (List.append_eq_nil.mp hd).1
  exact String.ext ha

theorem trackCall_recordConsistent {σ α : Type} (W : World σ) (name : String) (args : Args)
    (fn : Sys σ → Except GoError α × Sys σ) (s : Sys σ)
    (h : ∀ e, (fn s).1 = .error e → e.Error ≠ "") :
    recordConsistent (trackCall W name args fn s).1.2 := by
  simp only [trackCall, recordConsistent]
  cases hr : (fn s).1 with
  | ok v => simp
  | error e => simpa using h e hr

theorem failedRecord_consistent (name : String) (args : Args) (err : GoError)
    (h : err.Error ≠ "") : recordConsistent (failedRecord name args err) := by
  simp only [failedRecord, recordConsistent]
  exact ⟨fun _ => h, fun hc => by simp at hc⟩

theorem getTimeArg_error_text {σ : Type} (W : World σ) (args : Args) (key : String)
    (err : GoError) (h : getTimeArg W args key = .error err) : err.Error ≠ "" := by
  unfold getTimeArg at h
  dsimp only at h
  split_ifs at h
  · cases h
    exact append_ne_empty _ _ (by decide)
  · split at h
    · cases h
      simp only [GoError.Error, String.append_assoc]
      exact append_ne_empty _ _ (by decide)
    · cases h

theorem dispatchToolCall_recordConsistent {σ : Type} (W : World σ) (hW : errorsHaveText W)
    (opts : Options) (name : String) (args : Args) (s : Sys σ) :
    recordConsistent (dispatchToolCall W opts name args s).1.2.1 := by
  obtain ⟨h1, h2, h3, h4, h5, _⟩ := hW
  unfold dispatchToolCall
  split
  · split
    · rename_i err he
      exact failedRecord_consistent _ _ _ (getTimeArg_error_text W args "from" err he)
    · split
      · rename_i err he
        exact failedRecord_consistent _ _ _ (getTimeArg_error_text W args "to" err he)
      · simp only [tracked_record]
        exact trackCall_recordConsistent W _ _ _ s (fun e he => h1 _ _ _ _ _ e he)
  · simp only [tracked_record]
    exact trackCall_recordConsistent W _ _ _ s (fun e he => h2 _ e he)
  · simp only [tracked_record]
    exact trackCall_recordConsistent W _ _ _ s (fun e he => h3 _ _ _ _ e he)
  · split
    · rename_i err he
      exact failedRecord_consistent _ _ _ (getTimeArg_error_text W args "from" err he)
    · split
      · rename_i err he
        exact failedRecord_consistent _ _ _ (getTimeArg_error_text W args "to" err he)
      · simp only
        split_ifs
        · simp only [tracked_record]
          exact trackCall_recordConsistent W _ _ _ s (fun e he => h4 _ _ _ _ _ _ e he)
        · split
          · exact trackCall_recordConsistent W _ _ _ s (fun e he => h4 _ _ _ _ _ _ e he)
          · split
            · exact trackCall_recordConsistent W _ _ _ s (fun e he => h4 _ _ _ _ _ _ e he)
            · exact trackCall_recordConsistent W _ _ _ s (fun e he => h4 _ _ _ _ _ _ e he)
  · simp only [tracked_record]
    exact trackCall_recordConsistent W _ _ _ s (fun e he => h5 _ _ _ e he)
  · exact failedRecord_consistent _ _ _ (append_ne_empty _ _ (by decide))

theorem executeToolCallsLoop_recordConsistent {σ : Type} (W : World σ)
    (hW : errorsHaveText W) (opts : Options) (calls : List ToolCall) (tm : List Message)
    (rc : List toolCallRecord) (s : Sys σ) (hrc : ∀ r ∈ rc, recordConsistent r) :
    ∀ r ∈ (executeToolCallsLoop W opts calls tm rc s).1.2.1, recordConsistent r := by
  induction calls generalizing tm rc s with
  | nil => simpa [executeToolCallsLoop] using hrc
  | cons call rest ih =>
    have hd := dispatchToolCall_recordConsistent W hW opts call.Name (decodeArgs W call).1 s
    simp only [executeToolCallsLoop]
    split
    · rename_i err herr
      apply ih
      intro r hr
      rcases List.mem_append.mp hr with hr | hr
      · exact hrc r hr
      · simp only [List.mem_singleton] at hr
        subst hr
        exact ⟨fun _ => append_ne_empty _ _ (by decide), fun hc => by simp at hc⟩
    · split
      · intro r hr
        rcases List.mem_append.mp hr with hr | hr
        · exact hrc r hr
        · simp only [List.mem_singleton] at hr
          subst hr
          exact hd
      · split
        · rename_i err herr
          intro r hr
          rcases List.mem_append.mp hr with hr | hr
          · exact hrc r hr
          · simp only [List.mem_singleton] at hr
            subst hr
            exact ⟨fun _ => hW.2.2.2.2.2 _ err herr, fun hc => by simp at hc⟩
        · apply ih
          intro r hr
          rcases List.mem_append.mp hr with hr | hr
          · exact hrc r hr
          · simp only [List.mem_singleton] at hr
            subst hr
            exact hd

/-- C18: when every error returned by a collaborator has a non-empty text, every record
produced by `trackCall`, by `dispatchToolCall` and by `executeToolCalls` has a non-empty err
when ok=false and an empty err when ok=true. -/
theorem C18_records_are_consistent {σ : Type} (W : World σ) (hW : errorsHaveText W) :
    (∀ (α : Type) (name : String) (args : Args) (fn : Sys σ → Except GoError α × Sys σ)
        (s : Sys σ), (∀ e, (fn s).1 = .error e → e.Error ≠ "") →
      recordConsistent (trackCall W name args fn s).1.2) ∧
    (∀ (opts : Options) (name : String) (args : Args) (s : Sys σ),
      recordConsistent (dispatchToolCall W opts name args s).1.2.1) ∧
    (∀ (evotorClient : Bool) (opts : Options) (calls : List ToolCall) (s : Sys σ),
      ∀ r ∈ (executeToolCalls W evotorClient opts calls s).1.2.1, recordConsistent r) := by
  refine ⟨fun α name args fn s h => trackCall_recordConsistent W name args fn s h,
    fun opts name args s => dispatchToolCall_recordConsistent W hW opts name args s, ?_⟩
  intro evotorClient opts calls s
  simp only [executeToolCalls]
  split_ifs
  · intro r hr
    simp at hr
  · exact executeToolCallsLoop_recordConsistent W hW opts calls [] [] s (by simp)

theorem exampleWorld_errorsHaveText (script : List Message) :
    errorsHaveText (exampleWorld script) := by
  refine ⟨?_, ?_, ?_, ?_, ?_, ?_⟩
  · intro w a b c d e h
    simp only [exampleWorld] at h
    cases h
    decide
  · intro w e h
    simp [exampleWorld] at h
  · intro w a b c e h
    simp only [exampleWorld] at h
    cases h
    decide
  · intro w a b c d f e h
    simp only [exampleWorld] at h
    cases h
    decide
  · intro w a b e h
    simp only [exampleWorld] at h
    cases h
    decide
  · intro r e h
    simp [exampleWorld] at h

/-- C18 on the example world, whose errors are sentinels with a text: every record of
`trackCall`, `dispatchToolCall` and `executeToolCalls` is consistent. -/
theorem C18_records_are_consistent_witness :
    (∀ (α : Type) (name : String) (args : Args) (fn : Sys Nat → Except GoError α × Sys Nat)
        (s : Sys Nat), (∀ e, (fn s).1 = .error e → e.Error ≠ "") →
      recordConsistent (trackCall (exampleWorld []) name args fn s).1.2) ∧
    (∀ (opts : Options) (name : String) (args : Args) (s : Sys Nat),
      recordConsistent (dispatchToolCall (exampleWorld []) opts name args s).1.2.1) ∧
    (∀ (evotorClient : Bool) (opts : Options) (calls : List ToolCall) (s : Sys Nat),
      ∀ r ∈ (executeToolCalls (exampleWorld []) evotorClient opts calls s).1.2.1,
        recordConsistent r) :=
  C18_records_are_consistent (exampleWorld []) (exampleWorld_errorsHaveText [])

theorem facadeOnly_length {σ : Type} {s s' : Sys σ} (h : FacadeOnly s s') :
    s.trace.length ≤ s'.trace.length := by
  obtain ⟨new, hn, _⟩ := h
  rw [hn, List.length_append]
  omega

theorem getTimeArg_error_shape {σ : Type} (W : World σ) (args : Args) (key : String)
    (err : GoError) (h : getTimeArg W args key = .error err) :
    err = GoError.plain ("missing " ++ key) ∨
      ∃ inner, err = GoError.wrap ("invalid " ++ key ++ ": " ++ inner.Error) inner := by
  unfold getTimeArg at h
  dsimp only at h
  split_ifs at h
  · cases h
    exact Or.inl rfl
  · split at h
    · rename_i e he
      cases h
      exact Or.inr ⟨e, rfl⟩
    · cases h

/-- A call with one of the five names either fails on a time argument, with an error that
is not the unknown-tool error, or calls the data facade. -/
theorem dispatchToolCall_known {σ : Type} (W : World σ) (opts : Options) (name : String)
    (args : Args) (s : Sys σ) (h : name ∈ toolNames) :
    (∃ err, (dispatchToolCall W opts name args s).1.2.2 = some err ∧
      err ≠ GoError.plain ("unknown tool: " ++ name)) ∨
    s.trace.length < (dispatchToolCall W opts name args s).2.trace.length := by
  have htime : ∀ key err, (key = "from" ∨ key = "to") →
      getTimeArg W args key = .error err →
      (name = "GetSalesMetrics" ∨ name = "SearchDocuments") →
      err ≠ GoError.plain ("unknown tool: " ++ name) := by
    intro key err hkey he hname
    rcases getTimeArg_error_shape W args key err he with hs | ⟨inner, hs⟩
    · subst hs
      rcases hkey with rfl | rfl <;> rcases hname with rfl | rfl <;> decide
    · subst hs
      intro hc
      cases hc
  have hone : ∀ (e : Event), s.trace.length < (s.trace ++ [e]).length := by
    intro e; simp
  simp only [toolNames, List.mem_cons, List.mem_singleton, List.mem_nil_iff, or_false] at h
  rcases h with rfl | rfl | rfl | rfl | rfl
  · simp only [dispatchToolCall]
    split
    · rename_i err he
      exact Or.inl ⟨err, rfl, htime "from" err (Or.inl rfl) he (Or.inl rfl)⟩
    · split
      · rename_i err he
        exact Or.inl ⟨err, rfl, htime "to" err (Or.inr rfl) he (Or.inl rfl)⟩
      · exact Or.inr (hone _)
  · exact Or.inr (hone _)
  · exact Or.inr (hone _)
  · simp only [dispatchToolCall]
    split
    · rename_i err he
      exact Or.inl ⟨err, rfl, htime "from" err (Or.inl rfl) he (Or.inr rfl)⟩
    · split
      · rename_i err he
        exact Or.inl ⟨err, rfl, htime "to" err (Or.inr rfl) he (Or.inr rfl)⟩
      · right
        split_ifs
        · exact hone _
        · split
          · exact hone _
          · split
            · refine lt_of_lt_of_le ?_
                (facadeOnly_length (filterDocumentsByItem_facadeOnly W _ _ _ _))
              exact hone _
            · refine lt_of_lt_of_le ?_
                (facadeOnly_length (filterDocumentsByItem_facadeOnly W _ _ _ _))
              exact hone _
  · exact Or.inr (hone _)

/-- C19: for every function name and argument map, `dispatchToolCall` returns the error
`unknown tool: <name>` with a failed record and in an unchanged state (the data facade is
not called) if and only if the name is not one of the function names declared by
`ToolSchemas`, which are exactly `GetSalesMetrics`, `ListStores`, `SearchItems`,
`SearchDocuments` and `GetDocument`. -/
theorem C19_unknown_tool_iff_not_in_schema {σ : Type} (W : World σ) (opts : Options)
    (name : String) (args : Args) (s : Sys σ) :
    (dispatchToolCall W opts name args s
        = ((ToolResult.nil,
            { Name := name, Args := args, MS := 0, OK := false,
              Err := "unknown tool: " ++ name },
            some (GoError.plain ("unknown tool: " ++ name))), s)
      ↔ name ∉ ToolSchemas.map (fun tool => tool.Function.Name)) ∧
    ToolSchemas.map (fun tool => tool.Function.Name)
      = ["GetSalesMetrics", "ListStores", "SearchItems", "SearchDocuments", "GetDocument"] := by
  have hnames : ToolSchemas.map (fun tool => tool.Function.Name) = toolNames := rfl
  refine ⟨?_, rfl⟩
  rw [hnames]
  constructor
  · intro heq hmem
    rcases dispatchToolCall_known W opts name args s hmem with ⟨err, he, hne⟩ | hlt
    · rw [heq] at he
      simp only [Option.some.injEq] at he
      exact hne he.symm
    · rw [heq] at hlt
      exact absurd hlt (lt_irrefl _)
  · intro hmem
    exact dispatchToolCall_unknown W opts name args s hmem

theorem digitChar_digit : ∀ d, d < 10 →
    (Nat.digitChar d).isDigit = true ∧ (Nat.digitChar d).toNat - 48 = d := by
  decide

theorem foldl_digits_cast (ds : List Char) (a : Nat) :
    ds.foldl (fun acc c => 10 * acc + ((c.toNat - 48 : Nat) : Int)) (a : Int)
      = ((ds.foldl (fun acc c => 10 * acc + (c.toNat - 48)) a : Nat) : Int) := by
  induction ds generalizing a with
  | nil => rfl
  | cons c cs ih =>
    simp only [List.foldl_cons]
    have : (10 * (a : Int) + ((c.toNat - 48 : Nat) : Int)) = ((10 * a + (c.toNat - 48) : Nat) : Int) := by
      push_cast
      rfl
    rw [this, ih]

theorem toDigitsCore_spec (fuel n : Nat) (ds : List Char) (hfuel : n < fuel)
    (hds : ∀ c ∈ ds, c.isDigit = true) :
    (∀ c ∈ Nat.toDigitsCore 10 fuel n ds, c.isDigit = true) ∧
    Nat.toDigitsCore 10 fuel n ds ≠ [] ∧
    (Nat.toDigitsCore 10 fuel n ds).foldl (fun acc c => 10 * acc + (c.toNat - 48)) 0
      = ds.foldl (fun acc c => 10 * acc + (c.toNat - 48)) n := by
  induction fuel generalizing n ds with
  | zero => omega
  | succ f ih =>
    have hd := digitChar_digit (n % 10) (Nat.mod_lt n (by decide))
    have hds2 : ∀ c ∈ Nat.digitChar (n % 10) :: ds, c.isDigit = true := by
      intro c hc
      rcases List.mem_cons.mp hc with rfl | hc
      · exact hd.1
      · exact hds c hc
    simp only [Nat.toDigitsCore]
    split_ifs with h0
    · refine ⟨hds2, by simp, ?_⟩
      have hn : n % 10 = n := by omega
      rw [hn] at hd
      simp only [List.foldl_cons, hn, hd.2, Nat.mul_zero, Nat.zero_add]
    · obtain ⟨h1, h2, h3⟩ := ih (n / 10) (Nat.digitChar (n % 10) :: ds) (by omega) hds2
      refine ⟨h1, h2, ?_⟩
      rw [h3]
      simp only [List.foldl_cons, hd.2]
      congr 1
      omega

theorem toDigits_spec (n : Nat) :
    (∀ c ∈ Nat.toDigits 10 n, c.isDigit = true) ∧ Nat.toDigits 10 n ≠ [] ∧
    digitsValue (Nat.toDigits 10 n) = n := by
  have := toDigitsCore_spec (n + 1) n [] (by omega) (by simp)
  simpa [Nat.toDigits, digitsValue] using this

theorem atoi_digits (ds : List Char) (hne : ds ≠ []) (hall : ∀ c ∈ ds, c.isDigit = true)
    (hrange : (digitsValue ds : Int) ≤ 9223372036854775807) :
    atoi (String.mk ds) = some (digitsValue ds : Int) := by
  cases ds with
  | nil => exact absurd rfl hne
  | cons c cs =>
    have hc : c.isDigit = true := hall c (List.mem_cons_self _ _)
    have h1 : c ≠ '-' := by
      intro h; rw [h] at hc; exact absurd hc (by decide)
    have h2 : c ≠ '+' := by
      intro h; rw [h] at hc; exact absurd hc (by decide)
    have hallb : (c :: cs).all Char.isDigit = true := by
      rw [List.all_eq_true]
      exact hall
    have hval : (c :: cs).foldl (fun acc c => 10 * acc + ((c.toNat - 48 : Nat) : Int)) 0
        = (digitsValue (c :: cs) : Int) := by
      have := foldl_digits_cast (c :: cs) 0
      simpa [digitsValue] using this
    unfold atoi
    simp only [List.head?_cons, Option.some.injEq, h1, h2, or_self, if_false, hallb,
      List.isEmpty_cons, Bool.not_true, Bool.or_self, Bool.false_eq_true, hval]
    rw [if_neg]
    omega

theorem atoi_neg_digits (ds : List Char) (hne : ds ≠ []) (hall : ∀ c ∈ ds, c.isDigit = true)
    (hrange : (digitsValue ds : Int) ≤ 9223372036854775808) :
    atoi (String.mk ('-' :: ds)) = some (-(digitsValue ds : Int)) := by
  have hallb : ds.all Char.isDigit = true := by
    rw [List.all_eq_true]
    exact hall
  have hemp : ds.isEmpty = false := by
    cases ds with
    | nil => exact absurd rfl hne
    | cons c cs => rfl
  have hval : ds.foldl (fun acc c => 10 * acc + ((c.toNat - 48 : Nat) : Int)) 0
      = (digitsValue ds : Int) := by
    have := foldl_digits_cast ds 0
    simpa [digitsValue] using this
  unfold atoi
  simp only [List.head?_cons, true_or, if_true, List.tail_cons, hallb, hemp, Bool.not_true,
    Bool.or_self, Bool.false_eq_true, if_false, hval]
  rw [if_neg]
  omega

/-- `strconv.Atoi` reads back the decimal string of every `n` in the range of `int64`. -/
theorem atoi_toString (n : Int) (hlo : -9223372036854775808 ≤ n)
    (hhi : n ≤ 9223372036854775807) : atoi (toString n) = some n := by
  cases n with
  | ofNat m =>
    obtain ⟨h1, h2, h3⟩ := toDigits_spec m
    have : toString (Int.ofNat m) = String.mk (Nat.toDigits 10 m) := rfl
    rw [this, atoi_digits _ h2 h1 (by rw [h3]; exact hhi), h3]
    rfl
  | negSucc m =>
    obtain ⟨h1, h2, h3⟩ := toDigits_spec (m + 1)
    rw [Int.negSucc_eq] at hlo
    have : toString (Int.negSucc m) = String.mk ('-' :: Nat.toDigits 10 (m + 1)) := rfl
    rw [this, atoi_neg_digits _ h2 h1 (by rw [h3]; push_cast; omega), h3]
    rfl

theorem atoi_none_of_not_decimal (v : String) (h : ¬ isDecimalInteger v) : atoi v = none := by
  by_contra hne
  apply h
  unfold atoi at hne
  dsimp only at hne
  by_cases hbad : ((if v.data.head? = some '-' ∨ v.data.head? = some '+' then v.data.tail
      else v.data).isEmpty ||
      !(if v.data.head? = some '-' ∨ v.data.head? = some '+' then v.data.tail
        else v.data).all Char.isDigit) = true
  · rw [if_pos hbad] at hne
    exact absurd rfl hne
  · simp only [Bool.or_eq_true, Bool.not_eq_true', not_or, Bool.not_eq_false,
      Bool.not_eq_true] at hbad
    obtain ⟨hemp, hall⟩ := hbad
    by_cases hsign : v.data.head? = some '-' ∨ v.data.head? = some '+'
    · rw [if_pos hsign] at hemp hall
      cases hd : v.data with
      | nil => rw [hd] at hsign; simp at hsign
      | cons c cs =>
        rw [hd] at hsign hemp hall
        simp only [List.head?_cons, Option.some.injEq, List.tail_cons] at hsign hemp hall
        refine ⟨[c], cs, hd, ?_, ?_, ?_⟩
        · rcases hsign with rfl | rfl
          · exact Or.inr (Or.inl rfl)
          · exact Or.inr (Or.inr rfl)
        · intro hnil; rw [hnil] at hemp; simp at hemp
        · exact List.all_eq_true.mp hall
    · rw [if_neg hsign] at hemp hall
      refine ⟨[], v.data, rfl, Or.inl rfl, ?_, List.all_eq_true.mp hall⟩
      intro hnil; rw [hnil] at hemp; simp at hemp

theorem dispatch_SearchItems_trace {σ : Type} (W : World σ) (opts : Options) (args : Args)
    (s : Sys σ) :
    (dispatchToolCall W opts "SearchItems" args s).2.trace
      = s.trace ++ [Event.SearchItems (getStringArg W args "query").1
          (getIntArg args "limit" 10)
          (optionalString (getStoreIDArg W args opts.EvotorStoreID))] := rfl

theorem dispatch_SearchDocuments_trace {σ : Type} (W : World σ) (opts : Options)
    (args : Args) (s : Sys σ) (from_ to_ : Time)
    (hfrom : getTimeArg W args "from" = .ok from_) (hto : getTimeArg W args "to" = .ok to_) :
    ∃ more, (dispatchToolCall W opts "SearchDocuments" args s).2.trace
      = s.trace ++ Event.SearchDocuments from_ to_
          (optionalString (getStoreIDArg W args opts.EvotorStoreID))
          (getIntArg args "limit" 50) (getIntArg args "offset" 0) :: more := by
  simp only [dispatchToolCall, hfrom, hto]
  split_ifs
  · exact ⟨[], rfl⟩
  · split
    · exact ⟨[], rfl⟩
    · have hf : ∀ f : Except GoError (List DocumentShort) × Sys σ, ∀ d : Dispatched,
          ∀ s1 : Sys σ, FacadeOnly s1 f.2 →
          s1.trace = s.trace ++ [Event.SearchDocuments from_ to_
            (optionalString (getStoreIDArg W args opts.EvotorStoreID))
            (getIntArg args "limit" 50) (getIntArg args "offset" 0)] →
          ∃ more, ((d, f.2) : Dispatched × Sys σ).2.trace
            = s.trace ++ Event.SearchDocuments from_ to_
                (optionalString (getStoreIDArg W args opts.EvotorStoreID))
                (getIntArg args "limit" 50) (getIntArg args "offset" 0) :: more := by
        intro f d s1 ⟨new, hn, _⟩ hs1
        exact ⟨new, by simp [hn, hs1]⟩
      split
      · exact hf _ _ _ (filterDocumentsByItem_facadeOnly W _ _ _ _) rfl
      · exact hf _ _ _ (filterDocumentsByItem_facadeOnly W _ _ _ _) rfl

/-- C20: for every argument map, key and fallback, `getIntArg` returns the fallback when
the key is absent, when the value is a string that is not a decimal integer, and when the
value is a boolean, null or nested value; it returns `n` (in the range of `int`) when the
value is the integral number `n` or the decimal string of `n`. `dispatchToolCall` passes
`getIntArg` with fallback 10 as the `SearchItems` limit, and with fallbacks 50 and 0 as the
`SearchDocuments` limit and offset. -/
theorem C20_getIntArg_coercion {σ : Type} (W : World σ) (opts : Options) (args : Args)
    (key : String) (fallback : Int) (s : Sys σ) :
    (args.lookup key = none → getIntArg args key fallback = fallback) ∧
    (∀ v, args.lookup key = some (JVal.str v) → ¬ isDecimalInteger v →
      getIntArg args key fallback = fallback) ∧
    (∀ b, args.lookup key = some (JVal.bool b) → getIntArg args key fallback = fallback) ∧
    (args.lookup key = some JVal.null → getIntArg args key fallback = fallback) ∧
    (∀ xs, args.lookup key = some (JVal.arr xs) → getIntArg args key fallback = fallback) ∧
    (∀ kvs, args.lookup key = some (JVal.obj kvs) → getIntArg args key fallback = fallback) ∧
    (∀ n : Int, -9223372036854775808 ≤ n → n ≤ 9223372036854775807 →
      (args.lookup key = some (JVal.num (n : ℚ)) → getIntArg args key fallback = n) ∧
      (args.lookup key = some (JVal.str (toString n)) → getIntArg args key fallback = n)) ∧
    (dispatchToolCall W opts "SearchItems" args s).2.trace
      = s.trace ++ [Event.SearchItems (getStringArg W args "query").1
          (getIntArg args "limit" 10)
          (optionalString (getStoreIDArg W args opts.EvotorStoreID))] ∧
    (∀ from_ to_, getTimeArg W args "from" = .ok from_ → getTimeArg W args "to" = .ok to_ →
      ∃ more, (dispatchToolCall W opts "SearchDocuments" args s).2.trace
        = s.trace ++ Event.SearchDocuments from_ to_
            (optionalString (getStoreIDArg W args opts.EvotorStoreID))
            (getIntArg args "limit" 50) (getIntArg args "offset" 0) :: more) := by
  refine ⟨?_, ?_, ?_, ?_, ?_, ?_, ?_, dispatch_SearchItems_trace W opts args s,
    fun a b ha hb => dispatch_SearchDocuments_trace W opts args s a b ha hb⟩
  · intro h; simp only [getIntArg, h]
  · intro v h hv; simp only [getIntArg, h, atoi_none_of_not_decimal v hv]
  · intro b h; simp only [getIntArg, h]
  · intro h; simp only [getIntArg, h]
  · intro xs h; simp only [getIntArg, h]
  · intro kvs h; simp only [getIntArg, h]
  · intro n hlo hhi
    constructor
    · intro h
      simp only [getIntArg, h, Rat.num_intCast, Rat.den_intCast, Nat.cast_one, Int.tdiv_one]
    · intro h
      simp only [getIntArg, h, atoi_toString n hlo hhi]

/-! ## The round limit and the errors of a run -/

theorem runLLMAgent_enabled {σ : Type} (W : World σ) (opts : Options)
    (llmClient : Option LLMClient) (evotorClient : Bool) (query : String)
    (interactive : Bool) (history : Option SessionHistory) (s : Sys σ)
    (h : LLMClient.Enabled llmClient = true) :
    runLLMAgent W opts llmClient evotorClient query interactive history s
      = runLLMAgentLoop W opts llmClient evotorClient query maxToolRounds
          (startConversation W query interactive history).1
          (startConversation W query interactive history).2 [] s := by
  simp only [runLLMAgent, h, Bool.not_true, Bool.false_eq_true, if_false, startConversation]
  cases history <;> rfl

theorem ChatWithMessages_ok_enabled {σ : Type} (W : World σ) (llmClient : Option LLMClient)
    (messages : List Message) (s : Sys σ) (resp : ChatCompletionResponse)
    (h : (ChatWithMessages W llmClient messages s).1 = .ok resp) :
    LLMClient.Enabled llmClient = true := by
  cases llmClient with
  | none => simp [ChatWithMessages] at h
  | some c =>
    cases he : c.enabled with
    | false => simp [ChatWithMessages, he] at h
    | true => simp [LLMClient.Enabled, he]

theorem runLLMAgentLoop_tool_round {σ : Type} (W : World σ) (opts : Options)
    (llmClient : Option LLMClient) (evotorClient : Bool) (query : String) (n : Nat)
    (history : Option SessionHistory) (messages : List Message)
    (toolCalls : List toolCallRecord) (s s1 s2 : Sys σ) (resp : ChatCompletionResponse)
    (msg : Message) (others toolMsgs : List Message) (rc : List toolCallRecord)
    (hchat : ChatWithMessages W llmClient (roundMessages history messages) s = (.ok resp, s1))
    (hch : resp.Choices = msg :: others) (htc : msg.ToolCalls ≠ [])
    (hexec : executeToolCalls W evotorClient opts msg.ToolCalls s1
      = ((toolMsgs, rc, none), s2)) :
    runLLMAgentLoop W opts llmClient evotorClient query (n + 1) history messages toolCalls s
      = runLLMAgentLoop W opts llmClient evotorClient query n
          (afterToolRound history (roundMessages history messages) msg toolMsgs).1
          (afterToolRound history (roundMessages history messages) msg toolMsgs).2
          (toolCalls ++ rc) s2 := by
  have hlen : ¬ msg.ToolCalls.length = 0 := fun h => htc (List.length_eq_zero.mp h)
  simp only [runLLMAgentLoop, hchat, hch, if_neg hlen, hexec]
  cases history with
  | none => by_cases hl : 0 < toolMsgs.length <;> simp [afterToolRound, hl]
  | some h => by_cases hl : 0 < toolMsgs.length <;> simp [afterToolRound, hl]

theorem runLLMAgentLoop_toolRounds {σ : Type} (W : World σ) (opts : Options)
    (llmClient : Option LLMClient) (evotorClient : Bool) (query : String) (n : Nat)
    (history : Option SessionHistory) (messages : List Message) (s : Sys σ)
    (recs : List (List toolCallRecord)) (history' : Option SessionHistory) (s' : Sys σ)
    (h : ToolRounds W opts llmClient evotorClient n history messages s recs history' s')
    (toolCalls : List toolCallRecord) :
    runLLMAgentLoop W opts llmClient evotorClient query n history messages toolCalls s
      = { result := .ok
            { Query := query,
              AnswerText := "Не удалось завершить запрос: превышен лимит шагов.",
              ToolCalls := toolCalls ++ recs.flatten,
              NextStep := "Уточните запрос или сузьте период/магазин." },
          history := history', sys := s' } ∧
    modelCalls s'.trace = modelCalls s.trace + n ∧ recs.length = n := by
  induction h generalizing toolCalls with
  | done history messages s => simp [runLLMAgentLoop]
  | @round n history messages s s1 s2 resp msg others toolMsgs rc recs history' s' hchat hch
      htc hexec _ ih =>
    obtain ⟨h1, h2, h3⟩ := ih (toolCalls ++ rc)
    rw [runLLMAgentLoop_tool_round W opts llmClient evotorClient query n history messages
      toolCalls s s1 s2 resp msg others toolMsgs rc hchat hch htc hexec, h1]
    refine ⟨by simp [List.append_assoc], ?_, by simp [h3]⟩
    have hs1 : s1.trace = s.trace ++ [Event.ChatWithMessages (roundMessages history messages)] := by
      have := ChatWithMessages_trace W llmClient (roundMessages history messages) s
      rw [hchat] at this
      exact this
    obtain ⟨fnew, hf, hf0⟩ := executeToolCalls_facadeOnly W evotorClient opts msg.ToolCalls s1
    rw [hexec] at hf
    simp only at hf
    rw [h2, hf, hs1, modelCalls_append, modelCalls_append, hf0]
    have one : modelCalls [Event.ChatWithMessages (roundMessages history messages)] = 1 := rfl
    rw [one]
    omega

/-- C11: if in each of 4 consecutive rounds the model's top choice requests at least one
tool call and the dispatcher returns no error, `runLLMAgent` makes exactly 4 model calls and
returns a nil error with the fixed answer for the step limit, the hint to narrow the
query, and tool calls equal to the concatenation, in round order and then request order, of
the records of the 4 rounds. -/
theorem C11_round_limit_exceeded {σ : Type} (W : World σ) (opts : Options)
    (llmClient : Option LLMClient) (evotorClient : Bool) (query : String)
    (interactive : Bool) (history : Option SessionHistory) (s : Sys σ)
    (recs : List (List toolCallRecord)) (history' : Option SessionHistory) (s' : Sys σ)
    (hrounds : ToolRounds W opts llmClient evotorClient 4
      (startConversation W query interactive history).1
      (startConversation W query interactive history).2 s recs history' s') :
    runLLMAgent W opts llmClient evotorClient query interactive history s
      = { result := .ok
            { Query := query,
              AnswerText := "Не удалось завершить запрос: превышен лимит шагов.",
              ToolCalls := recs.flatten,
              NextStep := "Уточните запрос или сузьте период/магазин." },
          history := history', sys := s' } ∧
    modelCalls s'.trace = modelCalls s.trace + 4 ∧ recs.length = 4 := by
  have hen : LLMClient.Enabled llmClient = true := by
    cases hrounds with
    | round hchat _ _ _ _ =>
      exact ChatWithMessages_ok_enabled W llmClient _ s _ (by rw [hchat])
  rw [runLLMAgent_enabled W opts llmClient evotorClient query interactive history s hen]
  have := runLLMAgentLoop_toolRounds W opts llmClient evotorClient query 4 _ _ s recs
    history' s' hrounds []
  simpa [maxToolRounds] using this

/-- C11 on the example world: the model requests `ListStores` in each of the four rounds
of a one-shot run; the run ends with the fixed answer, the four records and four model
calls. -/
theorem C11_round_limit_exceeded_witness :
    runLLMAgent (exampleWorld scriptListStores) {} exampleClient true "магазины?" false none
        { world := 0 }
      = { result := .ok
            { Query := "магазины?",
              AnswerText := "Не удалось завершить запрос: превышен лимит шагов.",
              ToolCalls := List.flatten
                [[{ Name := "ListStores", Args := [], MS := 0, OK := true, Err := "" }],
                 [{ Name := "ListStores", Args := [], MS := 0, OK := true, Err := "" }],
                 [{ Name := "ListStores", Args := [], MS := 0, OK := true, Err := "" }],
                 [{ Name := "ListStores", Args := [], MS := 0, OK := true, Err := "" }]],
              NextStep := "Уточните запрос или сузьте период/магазин." },
          history := none,
          sys := (runLLMAgent (exampleWorld scriptListStores) {} exampleClient true
            "магазины?" false none { world := 0 }).sys } ∧
    modelCalls (runLLMAgent (exampleWorld scriptListStores) {} exampleClient true
        "магазины?" false none { world := 0 }).sys.trace
      = modelCalls ({ world := 0 } : Sys Nat).trace + 4 ∧
    [[({ Name := "ListStores", Args := [], MS := 0, OK := true, Err := "" } : toolCallRecord)],
     [{ Name := "ListStores", Args := [], MS := 0, OK := true, Err := "" }],
     [{ Name := "ListStores", Args := [], MS := 0, OK := true, Err := "" }],
     [{ Name := "ListStores", Args := [], MS := 0, OK := true, Err := "" }]].length = 4 :=
  C11_round_limit_exceeded (exampleWorld scriptListStores) {} exampleClient true "магазины?"
    false none { world := 0 } _ none _
    (ToolRounds.round rfl rfl (by decide) rfl
      (ToolRounds.round rfl rfl (by decide) rfl
        (ToolRounds.round rfl rfl (by decide) rfl
          (ToolRounds.round rfl rfl (by decide) rfl (ToolRounds.done _ _ _)))))

theorem runLLMAgentLoop_model_error {σ : Type} (W : World σ) (opts : Options)
    (llmClient : Option LLMClient) (evotorClient : Bool) (query : String) (n : Nat)
    (history : Option SessionHistory) (messages : List Message)
    (toolCalls : List toolCallRecord) (s : Sys σ) (e : GoError)
    (h : (ChatWithMessages W llmClient (roundMessages history messages) s).1 = .error e) :
    runLLMAgentLoop W opts llmClient evotorClient query (n + 1) history messages toolCalls s
      = { result := .error e, history := history,
          sys := (ChatWithMessages W llmClient (roundMessages history messages) s).2 } := by
  simp only [runLLMAgentLoop, h]

theorem runLLMAgentLoop_no_choice {σ : Type} (W : World σ) (opts : Options)
    (llmClient : Option LLMClient) (evotorClient : Bool) (query : String) (n : Nat)
    (history : Option SessionHistory) (messages : List Message)
    (toolCalls : List toolCallRecord) (s : Sys σ) (resp : ChatCompletionResponse)
    (h : (ChatWithMessages W llmClient (roundMessages history messages) s).1 = .ok resp)
    (hch : resp.Choices = []) :
    runLLMAgentLoop W opts llmClient evotorClient query (n + 1) history messages toolCalls s
      = { result := .error (GoError.plain "llm returned empty response"), history := history,
          sys := (ChatWithMessages W llmClient (roundMessages history messages) s).2 } := by
  simp only [runLLMAgentLoop, h, hch]

/-- An error returned by the loop is that of the model call the run ends with, or the
error for a response without choices to that call. -/
theorem runLLMAgentLoop_error_cases {σ : Type} (W : World σ) (opts : Options)
    (llmClient : Option LLMClient) (evotorClient : Bool) (query : String) (n : Nat)
    (history : Option SessionHistory) (messages : List Message)
    (toolCalls : List toolCallRecord) (s : Sys σ) (e : GoError)
    (h : (runLLMAgentLoop W opts llmClient evotorClient query n history messages toolCalls
      s).result = .error e) :
    ∃ (h0 : Option SessionHistory) (m0 : List Message) (s0 : Sys σ),
      (runLLMAgentLoop W opts llmClient evotorClient query n history messages toolCalls
        s).sys = (ChatWithMessages W llmClient (roundMessages h0 m0) s0).2 ∧
      (runLLMAgentLoop W opts llmClient evotorClient query n history messages toolCalls
        s).history = h0 ∧
      ((ChatWithMessages W llmClient (roundMessages h0 m0) s0).1 = .error e ∨
        ∃ resp, (ChatWithMessages W llmClient (roundMessages h0 m0) s0).1 = .ok resp ∧
          resp.Choices = [] ∧ e = GoError.plain "llm returned empty response") := by
  induction n generalizing history messages toolCalls s with
  | zero => simp [runLLMAgentLoop] at h
  | succ n ih =>
    cases hr : (ChatWithMessages W llmClient (roundMessages history messages) s).1 with
    | error e1 =>
      rw [runLLMAgentLoop_model_error W opts llmClient evotorClient query n history messages
        toolCalls s e1 hr] at h ⊢
      simp only [Except.error.injEq] at h
      subst h
      exact ⟨history, messages, s, rfl, rfl, Or.inl hr⟩
    | ok resp =>
      cases hch : resp.Choices with
      | nil =>
        rw [runLLMAgentLoop_no_choice W opts llmClient evotorClient query n history messages
          toolCalls s resp hr hch] at h ⊢
        simp only [Except.error.injEq] at h
        exact ⟨history, messages, s, rfl, rfl, Or.inr ⟨resp, hr, hch, h.symm⟩⟩
      | cons msg others =>
        by_cases htc : msg.ToolCalls = []
        · rw [runLLMAgentLoop_final_answer W opts llmClient evotorClient query n history
            messages toolCalls s resp msg others hr hch htc] at h
          simp at h
        · cases herr : (executeToolCalls W evotorClient opts msg.ToolCalls
              (ChatWithMessages W llmClient (roundMessages history messages) s).2).1.2.2 with
          | some err =>
            have := (runLLMAgentLoop_dispatch_error W opts llmClient evotorClient query n
              history messages toolCalls s resp msg others err hr hch htc herr).1
            rw [this] at h
            simp at h
          | none =>
            have hround := runLLMAgentLoop_tool_round W opts llmClient evotorClient query n
              history messages toolCalls s _ _ resp msg others _ _ (Prod.ext hr rfl) hch htc
              (Prod.ext (Prod.ext rfl (Prod.ext rfl herr)) rfl)
            rw [hround] at h ⊢
            exact ih _ _ _ _ h

/-- C12: `runLLMAgent` returns a non-nil error exactly in these cases. When the client is
nil or not enabled it returns `ErrNotConfigured` with the store and the state untouched.
In every round, an error of the model call is returned unchanged and a response without
choices gives `llm returned empty response`, in both cases right after that model call.
And every error it returns is one of these: the client is not enabled, or the run ends
with a model call that returned this error or a response without choices. -/
theorem C12_errors_of_runLLMAgent {σ : Type} (W : World σ) (opts : Options)
    (llmClient : Option LLMClient) (evotorClient : Bool) (query : String)
    (interactive : Bool) (history : Option SessionHistory) (s : Sys σ) :
    (LLMClient.Enabled llmClient = false →
      runLLMAgent W opts llmClient evotorClient query interactive history s
        = { result := .error (GoError.sentinel Sentinel.ErrNotConfigured),
            history := history, sys := s }) ∧
    (∀ (n : Nat) (h0 : Option SessionHistory) (m0 : List Message)
        (toolCalls : List toolCallRecord) (s0 : Sys σ) (e : GoError),
      (ChatWithMessages W llmClient (roundMessages h0 m0) s0).1 = .error e →
      runLLMAgentLoop W opts llmClient evotorClient query (n + 1) h0 m0 toolCalls s0
        = { result := .error e, history := h0,
            sys := (ChatWithMessages W llmClient (roundMessages h0 m0) s0).2 }) ∧
    (∀ (n : Nat) (h0 : Option SessionHistory) (m0 : List Message)
        (toolCalls : List toolCallRecord) (s0 : Sys σ) (resp : ChatCompletionResponse),
      (ChatWithMessages W llmClient (roundMessages h0 m0) s0).1 = .ok resp →
      resp.Choices = [] →
      runLLMAgentLoop W opts llmClient evotorClient query (n + 1) h0 m0 toolCalls s0
        = { result := .error (GoError.plain "llm returned empty response"), history := h0,
            sys := (ChatWithMessages W llmClient (roundMessages h0 m0) s0).2 }) ∧
    (∀ e, (runLLMAgent W opts llmClient evotorClient query interactive history s).result
        = .error e →
      (LLMClient.Enabled llmClient = false ∧ e = GoError.sentinel Sentinel.ErrNotConfigured) ∨
      (LLMClient.Enabled llmClient = true ∧
        ∃ (h0 : Option SessionHistory) (m0 : List Message) (s0 : Sys σ),
          (runLLMAgent W opts llmClient evotorClient query interactive history s).sys
            = (ChatWithMessages W llmClient (roundMessages h0 m0) s0).2 ∧
          (runLLMAgent W opts llmClient evotorClient query interactive history s).history
            = h0 ∧
          ((ChatWithMessages W llmClient (roundMessages h0 m0) s0).1 = .error e ∨
            ∃ resp, (ChatWithMessages W llmClient (roundMessages h0 m0) s0).1 = .ok resp ∧
              resp.Choices = [] ∧ e = GoError.plain "llm returned empty response"))) := by
  refine ⟨?_, ?_, ?_, ?_⟩
  · intro hen
    simp only [runLLMAgent, hen, Bool.not_false, if_true]
  · intro n h0 m0 toolCalls s0 e h
    exact runLLMAgentLoop_model_error W opts llmClient evotorClient query n h0 m0 toolCalls
      s0 e h
  · intro n h0 m0 toolCalls s0 resp h hch
    exact runLLMAgentLoop_no_choice W opts llmClient evotorClient query n h0 m0 toolCalls s0
      resp h hch
  · intro e h
    cases hen : LLMClient.Enabled llmClient with
    | false =>
      left
      simp only [runLLMAgent, hen, Bool.not_false, if_true, Except.error.injEq] at h
      exact ⟨rfl, h.symm⟩
    | true =>
      right
      rw [runLLMAgent_enabled W opts llmClient evotorClient query interactive history s hen]
        at h ⊢
      exact ⟨rfl, runLLMAgentLoop_error_cases W opts llmClient evotorClient query _ _ _ _ s
        e h⟩

/-! ## A query over the token budget -/

theorem runLLMAgentLoop_first_call {σ : Type} (W : World σ) (opts : Options)
    (llmClient : Option LLMClient) (evotorClient : Bool) (query : String) (n : Nat)
    (history : Option SessionHistory) (messages : List Message)
    (toolCalls : List toolCallRecord) (s : Sys σ) :
    ∃ rest,
      (runLLMAgentLoop W opts llmClient evotorClient query (n + 1) history messages
        toolCalls s).sys.trace
        = s.trace ++ Event.ChatWithMessages (roundMessages history messages) :: rest := by
  have ht := ChatWithMessages_trace W llmClient (roundMessages history messages) s
  have key : ∀ (a : Option SessionHistory) (b : List Message) (c : List toolCallRecord)
      (d : Sys σ) (new : List Event),
      d.trace = s.trace ++ Event.ChatWithMessages (roundMessages history messages) :: new →
      ∃ rest, (runLLMAgentLoop W opts llmClient evotorClient query n a b c d).sys.trace
        = s.trace ++ Event.ChatWithMessages (roundMessages history messages) :: rest := by
    intro a b c d new hd
    obtain ⟨new2, h2, _⟩ := runLLMAgentLoop_trace W opts llmClient evotorClient query n a b c d
    exact ⟨new ++ new2, by rw [h2, hd]; simp⟩
  simp only [runLLMAgentLoop]
  generalize ChatWithMessages W llmClient (roundMessages history messages) s = r at ht
  split
  · exact ⟨[], by simpa using ht⟩
  · split
    · exact ⟨[], by simpa using ht⟩
    · rename_i msg others hch
      obtain ⟨new, hnew, _⟩ := executeToolCalls_facadeOnly W evotorClient opts msg.ToolCalls r.2
      have hnew2 : (executeToolCalls W evotorClient opts msg.ToolCalls r.2).2.trace
          = s.trace ++ Event.ChatWithMessages (roundMessages history messages) :: new := by
        rw [hnew, ht]; simp
      split_ifs with htc
      all_goals first
        | exact ⟨[], by simpa using ht⟩
        | (split
           · exact ⟨new, hnew2⟩
           · exact key _ _ _ _ new hnew2)

theorem estimateTokensForMessage_nonneg (m : Message) : 0 ≤ estimateTokensForMessage m := by
  rw [estimateTokensForMessage_eq]
  split_ifs <;> exact Int.natCast_nonneg _

theorem Append_over_budget (h : SessionHistory) (sys m : Message)
    (hmsgs : h.messages = [sys]) (hsys : sys.Role = ChatMessageRoleSystem)
    (hmax : 1 ≤ h.maxMessages) (htok : 1 ≤ h.maxTokens)
    (hbig : h.maxTokens < estimateTokensForMessage m) :
    (h.Append m).messages = [sys] := by
  have hest : h.maxTokens < estimateTokens [sys, m] := by
    have := estimateTokensForMessage_nonneg sys
    simp only [estimateTokens, List.foldl_cons, List.foldl_nil]
    omega
  have hover : overTokenCap h.maxTokens [sys, m] = true := by
    simp [overTokenCap, hest]
  have hone : overTokenCap h.maxTokens [sys] = false := by
    simp [overTokenCap]
  simp only [SessionHistory.Append, SessionHistory.enforceLimits, hmsgs, List.singleton_append]
  rw [if_pos (by omega)]
  by_cases hc : h.maxMessages < 2
  · have h1 : h.maxMessages = 1 := by omega
    have : countCapped { h with messages := [sys, m] } = [sys] := by
      simp [countCapped, h1, trimByCount, hsys]
    rw [this]
    simp [tokenCapLoop, hone]
  · have : countCapped { h with messages := [sys, m] } = [sys, m] := by
      simp only [countCapped]
      rw [if_neg]
      simp
      omega
    rw [this]
    simp [tokenCapLoop, hover, hone, trimOldestNonSystem, hsys]

/-- C28: a store created by `NewSessionHistory` that holds only the system message loses a
message appended to it whose own token estimate (its word count) exceeds `maxTokens`: the
store is again the system message alone and does not contain the appended message. When the
appended message is the user message of a turn, the first model call of `runLLMAgent` on
that store is made with the system message only, without the query. -/
theorem C28_over_budget_query_is_dropped {σ : Type} (W : World σ) (opts : Options)
    (llmClient : Option LLMClient) (evotorClient : Bool) (interactive : Bool) (s : Sys σ)
    (maxMessages maxTokens : Int) (sys m : Message) (query : String)
    (hsys : sys.Role = ChatMessageRoleSystem) (hm : m ≠ sys)
    (hbig : (NewSessionHistory maxMessages maxTokens).maxTokens < estimateTokensForMessage m)
    (hquery : (NewSessionHistory maxMessages maxTokens).maxTokens < (wordCount query : Int))
    (hen : LLMClient.Enabled llmClient = true) :
    ((NewSessionHistory maxMessages maxTokens).Append sys).messages = [sys] ∧
    (((NewSessionHistory maxMessages maxTokens).Append sys).Append m).messages = [sys] ∧
    m ∉ (((NewSessionHistory maxMessages maxTokens).Append sys).Append m).messages ∧
    ∃ rest,
      (runLLMAgent W opts llmClient evotorClient query interactive
        (some ((NewSessionHistory maxMessages maxTokens).Append sys)) s).sys.trace
        = s.trace ++ Event.ChatWithMessages [sys] :: rest ∧
      UserMessage query ∉ [sys] := by
  obtain ⟨hc1, hc2⟩ := NewSessionHistory_caps maxMessages maxTokens
  have h0 : ((NewSessionHistory maxMessages maxTokens).Append sys).messages = [sys] :=
    Append_empty _ sys (by simp [NewSessionHistory])
  have hdrop : ∀ x : Message,
      (NewSessionHistory maxMessages maxTokens).maxTokens < estimateTokensForMessage x →
      (((NewSessionHistory maxMessages maxTokens).Append sys).Append x).messages = [sys] :=
    fun x hx => Append_over_budget _ sys x h0 hsys hc1 hc2 hx
  have hq : (NewSessionHistory maxMessages maxTokens).maxTokens
      < estimateTokensForMessage (UserMessage query) := by
    rw [estimateTokensForMessage_eq]
    by_cases he : query = ""
    · subst he
      have : wordCount "" = 0 := by decide
      rw [this] at hquery
      omega
    · simpa [UserMessage, he] using hquery
  refine ⟨h0, hdrop m hbig, ?_, ?_⟩
  · rw [hdrop m hbig]
    simpa using hm
  · rw [runLLMAgent_enabled W opts llmClient evotorClient query interactive _ s hen]
    obtain ⟨rest, hrest⟩ := runLLMAgentLoop_first_call W opts llmClient evotorClient query 3
      (startConversation W query interactive
        (some ((NewSessionHistory maxMessages maxTokens).Append sys))).1
      (startConversation W query interactive
        (some ((NewSessionHistory maxMessages maxTokens).Append sys))).2 [] s
    have hround : roundMessages
        (startConversation W query interactive
          (some ((NewSessionHistory maxMessages maxTokens).Append sys))).1
        (startConversation W query interactive
          (some ((NewSessionHistory maxMessages maxTokens).Append sys))).2 = [sys] := by
      simp only [startConversation, roundMessages, SessionHistory.GetMessages, h0,
        List.length_singleton, one_ne_zero, if_false]
      exact hdrop _ hq
    rw [hround] at hrest
    refine ⟨rest, hrest, ?_⟩
    intro hmem
    have : UserMessage query = sys := by simpa using hmem
    rw [← this] at hsys
    have hu : (UserMessage query).Role = ChatMessageRoleUser := rfl
    rw [hu] at hsys
    exact absurd hsys (by decide)

theorem C28_over_budget_query_is_dropped_witness :
    ((NewSessionHistory 20 3).Append (SystemMessage "be brief")).messages
      = [SystemMessage "be brief"] ∧
    (((NewSessionHistory 20 3).Append (SystemMessage "be brief")).Append
      (UserMessage "one two three four five")).messages = [SystemMessage "be brief"] ∧
    UserMessage "one two three four five" ∉
      (((NewSessionHistory 20 3).Append (SystemMessage "be brief")).Append
        (UserMessage "one two three four five")).messages ∧
    ∃ rest,
      (runLLMAgent (exampleWorld [assistantText "hello"]) {} exampleClient true
        "one two three four five" true
        (some ((NewSessionHistory 20 3).Append (SystemMessage "be brief")))
        { world := 0 }).sys.trace
        = ([] : List Event) ++ Event.ChatWithMessages [SystemMessage "be brief"] :: rest ∧
      UserMessage "one two three four five" ∉ [SystemMessage "be brief"] :=
  C28_over_budget_query_is_dropped (exampleWorld [assistantText "hello"]) {} exampleClient
    true true { world := 0 } 20 3 (SystemMessage "be brief")
    (UserMessage "one two three four five") "one two three four five" (by decide) (by decide)
    (by decide) (by decide) (by decide)

/-! ## The friendly messages -/

theorem GoError_Is_unique (e : GoError) (a b : Sentinel) (ha : e.Is a = true)
    (hb : e.Is b = true) : a = b := by
  induction e with
  | sentinel s =>
    simp only [GoError.Is, beq_iff_eq] at ha hb
    rw [← ha, ← hb]
  | plain t => simp [GoError.Is] at ha
  | wrap t inner ih => exact ih (by simpa [GoError.Is] using ha) (by simpa [GoError.Is] using hb)

/-- C24, counterexample: the error `apiErrorFromResponse` builds for a response with status
500 is shown as its raw text, which is none of the fixed messages. -/
theorem C24_counterexample :
    friendlyEvotorError (some (apiErrorFromResponse 500 "500 Internal Server Error" ""))
      = (apiErrorFromResponse 500 "500 Internal Server Error" "").Error ∧
    friendlyEvotorError (some (apiErrorFromResponse 500 "500 Internal Server Error" ""))
      = "evotor api error: 500 Internal Server Error" ∧
    friendlyEvotorError (some (apiErrorFromResponse 500 "500 Internal Server Error" ""))
      ∉ friendlyMessages := by
  decide

/-- C24, amended: an error that wraps the missing-token, missing-store-id, unauthorized or
rate-limited sentinel maps to the fixed message of that sentinel; every other non-nil error
maps to its own error text. So the error of a response with status 401 or 403 and that of
one with status 429 map to a fixed message, the error of a response with any other status
maps to the text of its `APIError`, and a failed request whose cause wraps no sentinel maps
to the text `evotor request: ...`. -/
theorem C24_friendly_or_own_text (e : GoError) :
    (e.Is .ErrMissingToken = true →
      friendlyEvotorError (some e) = "Нет доступа: неверный или отсутствующий токен.") ∧
    (e.Is .ErrMissingStoreID = true →
      friendlyEvotorError (some e)
        = "Нужен store_id: укажите --store-id или EVOTOR_STORE_ID.") ∧
    (e.Is .ErrUnauthorized = true →
      friendlyEvotorError (some e) = "Нет доступа: неверный токен или недостаточно прав.") ∧
    (e.Is .ErrRateLimited = true →
      friendlyEvotorError (some e) = "Слишком много запросов. Попробуйте позже.") ∧
    (e.Is .ErrMissingToken = false → e.Is .ErrMissingStoreID = false →
      e.Is .ErrUnauthorized = false → e.Is .ErrRateLimited = false →
      friendlyEvotorError (some e) = e.Error) ∧
    (∀ (statusCode : Int) (status text : String),
      friendlyEvotorError (some (apiErrorFromResponse statusCode status text))
        = if statusCode = 401 ∨ statusCode = 403 then
            "Нет доступа: неверный токен или недостаточно прав."
          else if statusCode = 429 then "Слишком много запросов. Попробуйте позже."
          else APIError.Error
            { StatusCode := statusCode, Status := status, Body := trimSpace text }) ∧
    (e.Is .ErrMissingToken = false → e.Is .ErrMissingStoreID = false →
      e.Is .ErrUnauthorized = false → e.Is .ErrRateLimited = false →
      friendlyEvotorError (some (requestError e)) = "evotor request: " ++ e.Error) := by
  have hne : ∀ a b : Sentinel, a ≠ b → e.Is a = true → e.Is b = false := by
    intro a b hab ha
    by_contra hb
    exact hab (GoError_Is_unique e a b ha (by simpa using hb))
  refine ⟨?_, ?_, ?_, ?_, ?_, ?_, ?_⟩
  · intro h
    simp [friendlyEvotorError, errorsIs, h]
  · intro h
    simp [friendlyEvotorError, errorsIs, h, hne _ .ErrMissingToken (by decide) h]
  · intro h
    simp [friendlyEvotorError, errorsIs, h, hne _ .ErrMissingToken (by decide) h,
      hne _ .ErrMissingStoreID (by decide) h]
  · intro h
    simp [friendlyEvotorError, errorsIs, h, hne _ .ErrMissingToken (by decide) h,
      hne _ .ErrMissingStoreID (by decide) h, hne _ .ErrUnauthorized (by decide) h]
  · intro h1 h2 h3 h4
    simp [friendlyEvotorError, errorsIs, h1, h2, h3, h4]
  · intro statusCode status text
    simp only [apiErrorFromResponse]
    split_ifs with h1 h2
    · simp [friendlyEvotorError, errorsIs, GoError.Is]
    · simp [friendlyEvotorError, errorsIs, GoError.Is]
    · simp [friendlyEvotorError, errorsIs, GoError.Is, GoError.Error]
  · intro h1 h2 h3 h4
    simp [friendlyEvotorError, errorsIs, requestError, GoError.Is, GoError.Error, h1, h2, h3, h4]

/-! ## The item filter of the document search -/

theorem infix_dropWhile_of_head (p : Char → Bool) (n xs : List Char) (a : Char)
    (hhead : n.head? = some a) (ha : p a = false) (h : n <:+: xs) :
    n <:+: xs.dropWhile p := by
  induction xs with
  | nil => simpa using h
  | cons x xs ih =>
    by_cases hx : p x = true
    · rw [List.dropWhile_cons_of_pos hx]
      rcases List.infix_cons_iff.mp h with hpre | hin
      · exfalso
        cases n with
        | nil => simp at hhead
        | cons b n' =>
          simp at hhead
          subst hhead
          have := List.cons_prefix_cons.mp hpre
          rw [this.1] at ha
          rw [ha] at hx
          exact absurd hx (by decide)
      · exact ih hin
    · rw [List.dropWhile_cons_of_neg hx]
      exact h

theorem infix_trimChars (n xs : List Char) (a b : Char)
    (hhead : n.head? = some a) (ha : isSpace a = false)
    (hlast : n.getLast? = some b) (hb : isSpace b = false) :
    n <:+: trimChars xs ↔ n <:+: xs := by
  constructor
  · intro h
    have h1 : trimChars xs <+: xs.dropWhile isSpace := by
      unfold trimChars
      rw [← List.reverse_suffix, List.reverse_reverse]
      exact List.dropWhile_suffix _
    exact h.trans (h1.isInfix.trans (List.dropWhile_suffix _).isInfix)
  · intro h
    have h1 := infix_dropWhile_of_head isSpace n xs a hhead ha h
    have h2 : n.reverse <:+: (xs.dropWhile isSpace).reverse := List.reverse_infix.mpr h1
    have h3 := infix_dropWhile_of_head isSpace n.reverse _ b
      (by rw [List.head?_reverse]; exact hlast) hb h2
    have h4 := List.reverse_infix.mpr h3
    rw [List.reverse_reverse] at h4
    exact h4

theorem trimChars_map (f : Char → Char) (hf : ∀ c, isSpace (f c) = isSpace c)
    (xs : List Char) : trimChars (xs.map f) = (trimChars xs).map f := by
  have hd : ∀ ys : List Char, (ys.map f).dropWhile isSpace = (ys.dropWhile isSpace).map f := by
    intro ys
    induction ys with
    | nil => rfl
    | cons y ys ih =>
      simp only [List.map_cons, List.dropWhile_cons, hf]
      split_ifs
      · exact ih
      · simp
  unfold trimChars
  rw [hd, ← List.map_reverse, hd, List.map_reverse]

theorem trimChars_ends (xs : List Char) (hne : trimChars xs ≠ []) :
    ∃ a b, (trimChars xs).head? = some a ∧ isSpace a = false ∧
      (trimChars xs).getLast? = some b ∧ isSpace b = false := by
  have hr : ((xs.dropWhile isSpace).reverse.dropWhile isSpace) ≠ [] := by
    intro h
    apply hne
    simp [trimChars, h]
  have hys : xs.dropWhile isSpace ≠ [] := by
    intro h
    apply hr
    simp [h]
  have hpre : trimChars xs <+: xs.dropWhile isSpace := by
    unfold trimChars
    rw [← List.reverse_suffix, List.reverse_reverse]
    exact List.dropWhile_suffix _
  refine ⟨(xs.dropWhile isSpace).head hys,
    ((xs.dropWhile isSpace).reverse.dropWhile isSpace).head hr, ?_, ?_, ?_, ?_⟩
  · obtain ⟨t, ht⟩ := hpre
    cases htc : trimChars xs with
    | nil => exact absurd htc hne
    | cons c cs =>
      rw [htc] at ht
      simp [← ht]
  · exact List.head_dropWhile_not isSpace xs hys
  · unfold trimChars
    rw [List.getLast?_reverse, List.head?_eq_head hr]
  · exact List.head_dropWhile_not isSpace _ hr

theorem trimSpace_data (s : String) : (trimSpace s).data = trimChars s.data := rfl

theorem documentHasItem_eq_hasLineItem {σ : Type} (W : World σ) (hlow : lowersByChar W)
    (doc : DocumentFull) (itemQuery : String) (hq : trimSpace itemQuery ≠ "") :
    W.toLower (trimSpace itemQuery) ≠ "" ∧
    documentHasItem W doc (W.toLower (trimSpace itemQuery))
      = hasLineItem W doc (W.toLower (trimSpace itemQuery)) := by
  obtain ⟨f, hmap, hf⟩ := hlow
  have hqne : trimChars itemQuery.data ≠ [] := by
    intro h
    apply hq
    have : (trimSpace itemQuery).data = [] := by rw [trimSpace_data, h]
    exact String.ext this
  obtain ⟨a, b, hha, hsa, hlb, hsb⟩ := trimChars_ends itemQuery.data hqne
  have hneedle : (W.toLower (trimSpace itemQuery)).data = (trimChars itemQuery.data).map f := by
    rw [hmap, trimSpace_data]
  have hnne : (W.toLower (trimSpace itemQuery)).data ≠ [] := by
    rw [hneedle]
    simpa using hqne
  have hhead : (W.toLower (trimSpace itemQuery)).data.head? = some (f a) := by
    rw [hneedle, List.head?_map, hha]; rfl
  have hlast : (W.toLower (trimSpace itemQuery)).data.getLast? = some (f b) := by
    rw [hneedle, List.getLast?_map, hlb]; rfl
  have key : ∀ name : String,
      (W.toLower (trimSpace name) != "" &&
        stringsContains (W.toLower (trimSpace name)) (W.toLower (trimSpace itemQuery)))
      = stringsContains (W.toLower name) (W.toLower (trimSpace itemQuery)) := by
    intro name
    have hiff : (W.toLower (trimSpace itemQuery)).data <:+: (W.toLower (trimSpace name)).data
        ↔ (W.toLower (trimSpace itemQuery)).data <:+: (W.toLower name).data := by
      rw [hmap (trimSpace name), hmap name, trimSpace_data]
      show _ <:+: (trimChars name.data).map f ↔ _ <:+: name.data.map f
      rw [← trimChars_map f hf]
      exact infix_trimChars _ _ (f a) (f b) hhead (by rw [hf]; exact hsa) hlast
        (by rw [hf]; exact hsb)
    by_cases hc : (W.toLower (trimSpace itemQuery)).data <:+: (W.toLower name).data
    · have hc2 := hiff.mpr hc
      have hne : W.toLower (trimSpace name) ≠ "" := by
        intro he
        rw [he] at hc2
        have : (W.toLower (trimSpace itemQuery)).data = [] := by simpa using hc2
        exact hnne this
      simp [stringsContains, hc, hc2, hne]
    · have hc2 : ¬ (W.toLower (trimSpace itemQuery)).data <:+: (W.toLower (trimSpace name)).data :=
        fun h => hc (hiff.mp h)
      simp [stringsContains, hc, hc2]
  refine ⟨fun he => hnne (by rw [he]), ?_⟩
  simp only [documentHasItem, hasLineItem, key]

theorem summaryOf_eq (d : DocumentFull) :
    DocumentShort.mk d.ID d.Type_ d.CloseDate d.DeviceID d.StoreID d.Body d.Total
      = summaryOf d := rfl

theorem filterDocumentsByItemLoop_ok {σ : Type} (W : World σ) (storeID needle : String)
    (full : String → DocumentFull) (docs hits : List DocumentShort) (s : Sys σ)
    (hget : ∀ w, ∀ d ∈ docs, ∀ st, (W.GetDocument w d.ID st).1 = .ok (full d.ID))
    (hhits : hits.length < 10) :
    (filterDocumentsByItemLoop W storeID needle docs hits s).1
      = .ok (hits ++ ((((docs.map (fun d => full d.ID)).filter
          (fun d => documentHasItem W d needle)).map summaryOf).take (10 - hits.length))) := by
  induction docs generalizing hits s with
  | nil => simp [filterDocumentsByItemLoop]
  | cons doc rest ih =>
    have hdoc := hget s.world doc (List.mem_cons_self _ _) (optionalString storeID)
    have hrest : ∀ w, ∀ d ∈ rest, ∀ st, (W.GetDocument w d.ID st).1 = .ok (full d.ID) :=
      fun w d hd st => hget w d (List.mem_cons_of_mem _ hd) st
    simp only [filterDocumentsByItemLoop, trackCall, callGetDocument, hdoc, summaryOf_eq]
    by_cases hp : documentHasItem W (full doc.ID) needle = true
    · have hfilt : ((doc :: rest).map (fun d => full d.ID)).filter
          (fun d => documentHasItem W d needle)
          = full doc.ID :: (rest.map (fun d => full d.ID)).filter
              (fun d => documentHasItem W d needle) := by
        simp [List.filter_cons, hp]
      rw [if_pos hp, hfilt, List.map_cons]
      by_cases hlim : defaultOutputLimit ≤ ((hits ++ [summaryOf (full doc.ID)]).length : Int)
      · have hl : hits.length = 9 := by
          simp [defaultOutputLimit] at hlim
          omega
        have h1 : (10 : Nat) - hits.length = 1 := by omega
        rw [if_pos hlim, h1]
        simp
      · have hl : hits.length + 1 < 10 := by
          simp [defaultOutputLimit] at hlim
          omega
        have h10 : 10 - hits.length = (10 - (hits ++ [summaryOf (full doc.ID)]).length) + 1 := by
          simp; omega
        have := ih (hits ++ [summaryOf (full doc.ID)])
          { world := (W.GetDocument s.world doc.ID (optionalString storeID)).2,
            trace := s.trace ++ [Event.GetDocument doc.ID (optionalString storeID)] }
          hrest (by simpa using hl)
        rw [if_neg hlim, h10, List.take_succ_cons, this]
        simp
    · have hfilt : ((doc :: rest).map (fun d => full d.ID)).filter
          (fun d => documentHasItem W d needle)
          = (rest.map (fun d => full d.ID)).filter (fun d => documentHasItem W d needle) := by
        simp [List.filter_cons, hp]
      rw [if_neg hp, hfilt]
      exact ih hits _ hrest hhits

/-! ## Claims about the item filter -/

theorem isSpace_lowerChar (c : Char) : isSpace (lowerChar c) = isSpace c := by
  have hc : Char.ofNat c.toNat = c := Char.ofNat_toNat c
  unfold lowerChar
  split_ifs with h
  · obtain ⟨h1, h2⟩ := h
    rw [← hc]
    generalize c.toNat = n at h1 h2
    interval_cases n <;> rfl
  · unfold Char.toLower
    simp only [ge_iff_le]
    split_ifs with h'
    · obtain ⟨h1, h2⟩ := h'
      rw [← hc]
      generalize c.toNat = n at h1 h2
      interval_cases n <;> rfl
    · rfl

theorem pageWorld_lowersByChar (page : List DocumentShort) (fulls : List DocumentFull) :
    lowersByChar (pageWorld page fulls) :=
  ⟨lowerChar, fun _ => rfl, isSpace_lowerChar⟩

theorem filterDocumentsByItem_ok {σ : Type} (W : World σ) (hlow : lowersByChar W)
    (storeID : String) (documents : List DocumentShort) (itemQuery : String) (s : Sys σ)
    (full : String → DocumentFull)
    (hq : trimSpace itemQuery ≠ "")
    (hget : ∀ w, ∀ d ∈ documents, ∀ st, (W.GetDocument w d.ID st).1 = .ok (full d.ID)) :
    (filterDocumentsByItem W storeID documents itemQuery s).1
      = .ok ((((documents.map (fun d => full d.ID)).filter
          (fun d => hasLineItem W d (W.toLower (trimSpace itemQuery)))).take 10).map
            summaryOf) := by
  have hne := (documentHasItem_eq_hasLineItem W hlow (full "") itemQuery hq).1
  have hfun : (fun d => documentHasItem W d (W.toLower (trimSpace itemQuery)))
      = (fun d => hasLineItem W d (W.toLower (trimSpace itemQuery))) :=
    funext fun d => (documentHasItem_eq_hasLineItem W hlow d itemQuery hq).2
  simp only [filterDocumentsByItem]
  rw [if_neg hne, filterDocumentsByItemLoop_ok W storeID _ full documents [] s hget
    (by simp), hfun]
  simp [List.map_take]

theorem filterDocumentsByItemLoop_fetches {σ : Type} (W : World σ) (storeID needle : String)
    (full : String → DocumentFull) (docs hits : List DocumentShort) (s : Sys σ)
    (hget : ∀ w, ∀ d ∈ docs, ∀ st, (W.GetDocument w d.ID st).1 = .ok (full d.ID))
    (hfew : hits.length + ((docs.map (fun d => full d.ID)).filter
      (fun d => documentHasItem W d needle)).length < 10) :
    (filterDocumentsByItemLoop W storeID needle docs hits s).2.trace
      = s.trace ++ docs.map (fun d => Event.GetDocument d.ID (optionalString storeID)) := by
  induction docs generalizing hits s with
  | nil => simp [filterDocumentsByItemLoop]
  | cons doc rest ih =>
    have hdoc := hget s.world doc (List.mem_cons_self _ _) (optionalString storeID)
    have hrest : ∀ w, ∀ d ∈ rest, ∀ st, (W.GetDocument w d.ID st).1 = .ok (full d.ID) :=
      fun w d hd st => hget w d (List.mem_cons_of_mem _ hd) st
    simp only [filterDocumentsByItemLoop, trackCall, callGetDocument, hdoc, summaryOf_eq]
    by_cases hp : documentHasItem W (full doc.ID) needle = true
    · have hfilt : ((doc :: rest).map (fun d => full d.ID)).filter
          (fun d => documentHasItem W d needle)
          = full doc.ID :: (rest.map (fun d => full d.ID)).filter
              (fun d => documentHasItem W d needle) := by
        simp [List.filter_cons, hp]
      rw [hfilt, List.length_cons] at hfew
      have hlim : ¬ defaultOutputLimit ≤ ((hits ++ [summaryOf (full doc.ID)]).length : Int) := by
        simp [defaultOutputLimit]
        omega
      rw [if_pos hp, if_neg hlim, ih _ _ hrest (by simp; omega)]
      simp
    · have hfilt : ((doc :: rest).map (fun d => full d.ID)).filter
          (fun d => documentHasItem W d needle)
          = (rest.map (fun d => full d.ID)).filter (fun d => documentHasItem W d needle) := by
        simp [List.filter_cons, hp]
      rw [hfilt] at hfew
      rw [if_neg hp, ih _ _ hrest hfew]
      simp

theorem filterDocumentsByItem_fetches {σ : Type} (W : World σ) (hlow : lowersByChar W)
    (storeID : String) (documents : List DocumentShort) (itemQuery : String) (s : Sys σ)
    (full : String → DocumentFull)
    (hq : trimSpace itemQuery ≠ "")
    (hget : ∀ w, ∀ d ∈ documents, ∀ st, (W.GetDocument w d.ID st).1 = .ok (full d.ID))
    (hfew : ((documents.map (fun d => full d.ID)).filter
      (fun d => hasLineItem W d (W.toLower (trimSpace itemQuery)))).length < 10) :
    (filterDocumentsByItem W storeID documents itemQuery s).2.trace
      = s.trace ++ documents.map (fun d => Event.GetDocument d.ID (optionalString storeID)) := by
  have hne := (documentHasItem_eq_hasLineItem W hlow (full "") itemQuery hq).1
  have hfun : (fun d => documentHasItem W d (W.toLower (trimSpace itemQuery)))
      = (fun d => hasLineItem W d (W.toLower (trimSpace itemQuery))) :=
    funext fun d => (documentHasItem_eq_hasLineItem W hlow d itemQuery hq).2
  simp only [filterDocumentsByItem]
  rw [if_neg hne]
  exact filterDocumentsByItemLoop_fetches W storeID _ full documents [] s hget
    (by rw [hfun]; simpa using hfew)

theorem getDocumentFetches_append (a b : List Event) :
    getDocumentFetches (a ++ b) = getDocumentFetches a ++ getDocumentFetches b := by
  simp [getDocumentFetches, List.filterMap_append]

theorem getDocumentFetches_map (docs : List DocumentShort) (storeID : Option String) :
    getDocumentFetches (docs.map (fun d => Event.GetDocument d.ID storeID))
      = docs.map (fun d => d.ID) := by
  induction docs with
  | nil => rfl
  | cons d rest ih =>
    simp only [List.map_cons, getDocumentFetches, List.filterMap_cons] at ih ⊢
    rw [ih]

theorem pageWorld_GetDocument (page : List DocumentShort) (fulls : List DocumentFull)
    (w : Nat) (d : DocumentShort) (st : Option String)
    (h : ∃ f ∈ fulls, f.ID = d.ID) :
    ((pageWorld page fulls).GetDocument w d.ID st).1 = .ok (fullOf fulls d.ID) := by
  obtain ⟨f, hf, hid⟩ := h
  have : (fulls.find? (fun x => x.ID == d.ID)).isSome = true := by
    rw [List.find?_isSome]
    exact ⟨f, hf, by simp [hid]⟩
  obtain ⟨x, hx⟩ := Option.isSome_iff_exists.mp this
  simp [pageWorld, fullOf, hx]

/-- C21: for every list of document summaries and every item query that is not blank, when
every `GetDocument` fetch of a listed document succeeds, `filterDocumentsByItem` returns
the entries composed (`summaryOf`: id, type, close date, device id, store id, body and
total of the full document) from the first at most 10 documents, in the order of the list,
whose full document has a line item whose lower-cased name or product name contains the
lower-cased trimmed query; the result never has more than 10 entries. Lower-casing is
taken to work character by character and to keep white space, as `strings.ToLower` does. -/
theorem C21_filter_returns_first_matches {σ : Type} (W : World σ) (hlow : lowersByChar W)
    (storeID : String) (documents : List DocumentShort) (itemQuery : String) (s : Sys σ)
    (full : String → DocumentFull)
    (hq : trimSpace itemQuery ≠ "")
    (hget : ∀ w, ∀ d ∈ documents, ∀ st, (W.GetDocument w d.ID st).1 = .ok (full d.ID)) :
    (filterDocumentsByItem W storeID documents itemQuery s).1
      = .ok ((((documents.map (fun d => full d.ID)).filter
          (fun d => hasLineItem W d (W.toLower (trimSpace itemQuery)))).take 10).map
            summaryOf) ∧
    ∀ result, (filterDocumentsByItem W storeID documents itemQuery s).1 = .ok result →
      result.length ≤ 10 := by
  have hmain := filterDocumentsByItem_ok W hlow storeID documents itemQuery s full hq hget
  refine ⟨hmain, ?_⟩
  intro result hres
  rw [hmain] at hres
  injection hres with hres
  rw [← hres]
  simp

theorem C21_filter_returns_first_matches_witness :
    trimSpace " Кофе " ≠ "" ∧
    (filterDocumentsByItem (pageWorld coffeePage coffeeFulls) "" coffeePage " Кофе "
      { world := 0 }).1
      = .ok ((((coffeePage.map (fun d => fullOf coffeeFulls d.ID)).filter
          (fun d => hasLineItem (pageWorld coffeePage coffeeFulls) d
            ((pageWorld coffeePage coffeeFulls).toLower (trimSpace " Кофе ")))).take 10).map
              summaryOf) ∧
    (filterDocumentsByItem (pageWorld coffeePage coffeeFulls) "" coffeePage " Кофе "
      { world := 0 }).1 = .ok [summaryOf coffeeDocument] :=
  ⟨by decide,
   (C21_filter_returns_first_matches (pageWorld coffeePage coffeeFulls)
      (pageWorld_lowersByChar coffeePage coffeeFulls) "" coffeePage " Кофе " { world := 0 }
      (fullOf coffeeFulls) (by decide)
      (fun w d hd st => pageWorld_GetDocument coffeePage coffeeFulls w d st
        (by
          simp only [coffeePage, List.mem_cons, List.mem_singleton, List.not_mem_nil,
            or_false] at hd
          rcases hd with h | h | h <;> subst h <;> decide))).1,
   rfl⟩

/-- C22, counterexample: over the page `coffeePage` of three documents, of which only the
second has a line item named `Кофе 250г`, the `SearchDocuments` call with the item query
`кофе` returns the one document built from the second, and the filter has fetched all three
documents with `GetDocument`, not one. -/
theorem C22_counterexample :
    coffeeFulls.map (fun d => d.Body.Positions.map (fun pos => pos.Name))
      = [["Чай 100г"], ["Кофе 250г"], ["Сахар 1кг"]] ∧
    (dispatchToolCall (pageWorld coffeePage coffeeFulls) {} "SearchDocuments" searchCoffeeArgs
      { world := 0 }).1.1 = ToolResult.documents [summaryOf coffeeDocument] ∧
    getDocumentFetches (dispatchToolCall (pageWorld coffeePage coffeeFulls) {}
      "SearchDocuments" searchCoffeeArgs { world := 0 }).2.trace = ["doc-1", "doc-2", "doc-3"] ∧
    (getDocumentFetches (dispatchToolCall (pageWorld coffeePage coffeeFulls) {}
      "SearchDocuments" searchCoffeeArgs { world := 0 }).2.trace).length ≠ 1 := by
  refine ⟨by decide, by decide, by decide, by decide⟩

/-- C22, amended: for a `SearchDocuments` call with item query `кофе` over a page of three
documents of which only the second has a line item named `Кофе 250г` (the other two have
no line item whose lower-cased name or product name contains `кофе`), all fetches
succeeding, the dispatcher returns exactly one document, built from the second document in
full, with no error, and while filtering it issues exactly three `GetDocument` fetches, one
for each document of the page, in page order. -/
theorem C22_one_fetch_per_document {σ : Type} (W : World σ) (hlow : lowersByChar W)
    (opts : Options) (args : Args) (s : Sys σ) (from_ to_ : Time)
    (d1 d2 d3 : DocumentShort) (full : String → DocumentFull)
    (hfrom : getTimeArg W args "from" = .ok from_) (hto : getTimeArg W args "to" = .ok to_)
    (hquery : (getStringArg W args "item_query").1 = "кофе")
    (hneedle : W.toLower "кофе" = "кофе") (hname : W.toLower "Кофе 250г" = "кофе 250г")
    (hsearch : ∀ w a b c d e, (W.SearchDocuments w a b c d e).1 = .ok [d1, d2, d3])
    (hget : ∀ w, ∀ d ∈ [d1, d2, d3], ∀ st, (W.GetDocument w d.ID st).1 = .ok (full d.ID))
    (h1 : hasLineItem W (full d1.ID) "кофе" = false)
    (h2 : ∃ pos ∈ (full d2.ID).Body.Positions, pos.Name = "Кофе 250г")
    (h3 : hasLineItem W (full d3.ID) "кофе" = false) :
    (dispatchToolCall W opts "SearchDocuments" args s).1.1
      = ToolResult.documents [summaryOf (full d2.ID)] ∧
    (dispatchToolCall W opts "SearchDocuments" args s).1.2.2 = none ∧
    getDocumentFetches (dispatchToolCall W opts "SearchDocuments" args s).2.trace
      = getDocumentFetches s.trace ++ [d1.ID, d2.ID, d3.ID] := by
  have htrim : trimSpace "кофе" = "кофе" := by decide
  have hq : trimSpace "кофе" ≠ "" := by decide
  have hm2 : hasLineItem W (full d2.ID) "кофе" = true := by
    obtain ⟨pos, hpos, hn⟩ := h2
    simp only [hasLineItem, List.any_eq_true]
    refine ⟨pos, hpos, ?_⟩
    rw [hn, hname]
    have : stringsContains "кофе 250г" "кофе" = true := by decide
    simp [this]
  have hfilter : (([d1, d2, d3].map (fun d => full d.ID)).filter
      (fun d => hasLineItem W d (W.toLower (trimSpace "кофе")))) = [full d2.ID] := by
    rw [htrim, hneedle]
    simp [List.filter_cons, h1, hm2, h3]
  have hres : ∀ st s0, (filterDocumentsByItem W st [d1, d2, d3] "кофе" s0).1
      = .ok [summaryOf (full d2.ID)] := by
    intro st s0
    rw [filterDocumentsByItem_ok W hlow st [d1, d2, d3] "кофе" s0 full hq hget, hfilter]
    rfl
  have htr := fun st s0 => filterDocumentsByItem_fetches W hlow st [d1, d2, d3] "кофе" s0 full
    hq hget (by rw [hfilter]; simp)
  simp only [dispatchToolCall, hfrom, hto, hquery, trackCall, callSearchDocuments, hsearch]
  rw [if_neg hq]
  simp only [hres, htr, true_and]
  simp [getDocumentFetches_append, getDocumentFetches]

theorem C22_one_fetch_per_document_witness :
    (dispatchToolCall (pageWorld coffeePage coffeeFulls) {} "SearchDocuments" searchCoffeeArgs
      { world := 0 }).1.1 = ToolResult.documents [summaryOf (fullOf coffeeFulls "doc-2")] ∧
    (dispatchToolCall (pageWorld coffeePage coffeeFulls) {} "SearchDocuments" searchCoffeeArgs
      { world := 0 }).1.2.2 = none ∧
    getDocumentFetches (dispatchToolCall (pageWorld coffeePage coffeeFulls) {}
      "SearchDocuments" searchCoffeeArgs { world := 0 }).2.trace
      = getDocumentFetches [] ++ ["doc-1", "doc-2", "doc-3"] :=
  C22_one_fetch_per_document (pageWorld coffeePage coffeeFulls)
    (pageWorld_lowersByChar coffeePage coffeeFulls) {} searchCoffeeArgs { world := 0 }
    1735689600000000000 1738281600000000000
    { ID := "doc-1", Type_ := "SELL", CloseDate := "2025-01-10T09:00:00Z", StoreID := "s-1" }
    { ID := "doc-2", Type_ := "SELL", CloseDate := "2025-01-11T09:00:00Z", StoreID := "s-1" }
    { ID := "doc-3", Type_ := "SELL", CloseDate := "2025-01-12T09:00:00Z", StoreID := "s-1" }
    (fullOf coffeeFulls) rfl rfl (by decide) (by decide) (by decide)
    (fun _ _ _ _ _ _ => rfl)
    (fun w d hd st => pageWorld_GetDocument coffeePage coffeeFulls w d st
      (by
        simp only [List.mem_cons, List.mem_singleton, List.not_mem_nil, or_false] at hd
        rcases hd with h | h | h <;> subst h <;> decide))
    (by decide)
    ⟨{ ProductID := "p-2", Name := "Кофе 250г", Quantity := 1, Price := 450, Sum := 450 },
      by decide, rfl⟩
    (by decide)

/-- C27: a `SearchDocuments` call with the item query `кофе` whose summary search succeeds
and whose first `GetDocument` fetch fails is answered by a tool-result message that carries
the error payload and ends the batch with that error, while its record, the one of the
successful summary search, has ok=true and an empty err. -/
theorem C27_filter_error_is_recorded_as_success :
    (executeToolCalls (pageWorld coffeePage []) true {}
      [⟨"c1", "SearchDocuments", searchCoffeePayload⟩] { world := 0 }).1.1
      = [ToolMessage "c1" "\x7b\"error\":\"evotor api error: 404 Not Found\"\x7d"] ∧
    (executeToolCalls (pageWorld coffeePage []) true {}
      [⟨"c1", "SearchDocuments", searchCoffeePayload⟩] { world := 0 }).1.2.1.map
        (fun r => (r.Name, r.OK, r.Err)) = [("SearchDocuments", true, "")] ∧
    (executeToolCalls (pageWorld coffeePage []) true {}
      [⟨"c1", "SearchDocuments", searchCoffeePayload⟩] { world := 0 }).1.2.2
      = some (apiErrorFromResponse 404 "404 Not Found" "") ∧
    (executeToolCalls (pageWorld coffeePage []) true {}
      [⟨"c1", "SearchDocuments", searchCoffeePayload⟩] { world := 0 }).2.trace
      = [Event.SearchDocuments 1735689600000000000 1738281600000000000 none 50 0,
         Event.GetDocument "doc-1" none] := by
  refine ⟨by decide, by decide, by decide, by decide⟩

/-! ## Tool calls left without an answer -/

/-- C23: in an interactive session whose first turn ends by the error of the first of two
requested tool calls, the model call of the second turn is made with the assistant message
of the first turn, whose call `c2` no tool-result message answers. -/
theorem C23_unanswered_call_is_sent :
    modelCallMessages twoTurns.sys.trace
      = [[SystemMessage "You answer questions about point-of-sale data.",
          UserMessage "сколько продаж"],
         [SystemMessage "You answer questions about point-of-sale data.",
          UserMessage "сколько продаж",
          assistantCalls [⟨"c1", "GetSalesMetrics", "\x7b\x7d"⟩, ⟨"c2", "ListStores", ""⟩],
          ToolMessage "c1" "\x7b\"error\":\"missing from\"\x7d",
          UserMessage "а вчера"]] ∧
    (modelCallMessages twoTurns.sys.trace).map toolCallsAnswered = [true, false] := by
  constructor <;> decide

/-! ## The default document type of the sales metrics -/

/-- C26: a `GetSalesMetrics` call that names no document type reaches the client with a
nil `documentType`, and over a sale of 100 and a refund of 50 the client then counts both
documents: the count is 2, the sum 150 and the document types SELL and PAYBACK, where the
same call with `document_type` SELL gives the count 1, the sum 100 and the type SELL. -/
theorem C26_default_counts_every_type :
    (dispatchToolCall (salesWorld saleAndPayback) {} "GetSalesMetrics" januaryArgs
      { world := 0 }).1.1
      = ToolResult.metrics
          { Count := 2, TotalSum := 150, StoreID := "s-1", From := "2025-01-01T00:00:00Z",
            To := "2025-01-31T00:00:00Z", DocumentTypes := [("SELL", 1), ("PAYBACK", 1)] } ∧
    (dispatchToolCall (salesWorld saleAndPayback) {} "GetSalesMetrics" januaryArgs
      { world := 0 }).2.trace
      = [Event.GetSalesMetrics 1735689600000000000 1738281600000000000 none none] ∧
    (dispatchToolCall (salesWorld saleAndPayback) {} "GetSalesMetrics"
      (januaryArgs ++ [("document_type", JVal.str "SELL")]) { world := 0 }).1.1
      = ToolResult.metrics
          { Count := 1, TotalSum := 100, StoreID := "s-1", From := "2025-01-01T00:00:00Z",
            To := "2025-01-31T00:00:00Z", DocumentTypes := [("SELL", 1)] } := by
  refine ⟨by with_unfolding_all decide, by decide, by with_unfolding_all decide⟩

/-! ## The relative days of a query -/

/-- C25: with no flags, the query `продажи за позавчера` resolves, at every time `now` and
in every location, to yesterday, from its start to its end, with an empty hint, because
the text `позавчера` contains `вчера`, which is tested first; yesterday starts a day after
the day two days before now. -/
theorem C25_day_before_yesterday_is_yesterday
    (parseDate : String → Except GoError Time)
    (monthPeriod : String → Time → Option (periodRange × String)) (now : Time)
    (offset : Int) (interactive : Bool) :
    stringsContains (lowerText "продажи за позавчера") "позавчера" = true ∧
    resolvePeriod lowerText parseDate monthPeriod now offset "продажи за позавчера" {}
      interactive
      = .ok ({ From := startOfDay offset (addDays now (-1)),
               To := endOfDay offset (addDays now (-1)) }, "") ∧
    startOfDay offset (addDays now (-1))
      = startOfDay offset (addDays now (-2)) + nanosPerDay ∧
    endOfDay offset (addDays now (-1)) = endOfDay offset (addDays now (-2)) + nanosPerDay := by
  have h1 : stringsContains (lowerText "продажи за позавчера") "вчера" = true := by decide
  refine ⟨by decide, ?_, ?_, ?_⟩
  · have hflags : ¬ (({} : Options).From ≠ "" ∨ ({} : Options).To ≠ "") := by decide
    simp only [resolvePeriod]
    rw [if_neg hflags, if_pos h1]
  · have h : ∀ n o : Int, n + -1 * 86400000000000 - (n + -1 * 86400000000000 + o) % 86400000000000
        = n + -2 * 86400000000000 - (n + -2 * 86400000000000 + o) % 86400000000000
          + 86400000000000 := by
      intro n o
      omega
    exact h now offset
  · have h : ∀ n o : Int, n + -1 * 86400000000000 - (n + -1 * 86400000000000 + o) % 86400000000000
          + (86400000000000 - 1)
        = n + -2 * 86400000000000 - (n + -2 * 86400000000000 + o) % 86400000000000
          + (86400000000000 - 1) + 86400000000000 := by
      intro n o
      omega
    exact h now offset

end SimpleAnswerLLM
